import Mathlib

/-!
# The boot-info file store of `common/code/bl_filesys_api.c`

A shallow embedding of the inode-table file system and of the statements made
about it, followed by the circular buffer of `common/code/fifo.c`.

Modelling conventions.

* Non-volatile memory (MRAM) and caller buffers are byte maps `Nat → Byte`;
  a caller buffer is indexed by the offset from the pointer passed in.
* Machine integers are natural numbers, reduced with `%` wherever the C code
  converts to a narrower type.  Arguments are taken to be in the range of
  their C parameter type (`id < 256`, `size < 65536`, ...).
* Only the storage instance `BL_FS_INFO_STORAGE` is modelled: without
  `BL_OPT_FEATURE_SECURE_STORAGE` it is the only descriptor compiled in, and
  every block guarded by that option is absent.
* `sizeof(BL_FSINode_t) = 9` (packed, 32-bit pointers) and
  `sizeof(BL_FSINodeTableBootInfo_t) = 292`, while the descriptor size
  `BL_FS_BOOT_INFO_INODE_TABLE_SIZE` is `296`: the copies of the table carry
  four more bytes than the structure holds.  They are kept in the field `pad`.
* The MRAM primitives of `MRAM_rom.h` are not part of the sources.  Whether a
  call succeeds is read from the fields of `HW`; a failing call is taken to
  leave memory as it was.
-/

namespace BLFilesys

/-! ## Bytes, memory, little-endian fields -/

/-- An eight-bit memory cell. -/
abbrev Byte := Fin 256

/-- Conversion of an integer to `uint8_t`. -/
def toByte (n : Nat) : Byte := ⟨n % 256, Nat.mod_lt n (by decide)⟩

/-- Byte-addressable memory, also used for buffers indexed by offset. -/
abbrev Mem := Nat → Byte

/-- The `uint16_t` stored little-endian at offset `off`. -/
def rd16 (b : Mem) (off : Nat) : Nat :=
  (b off).val + 256 * (b (off + 1)).val

/-- The `uint32_t` stored little-endian at offset `off`. -/
def rd32 (b : Mem) (off : Nat) : Nat :=
  (b off).val + 256 * (b (off + 1)).val + 65536 * (b (off + 2)).val
    + 16777216 * (b (off + 3)).val

/-- Byte number `j` (little-endian) of the integer `v`. -/
def leByte (v j : Nat) : Byte := toByte (v / 256 ^ j)

/-- The buffer `b` seen from offset `off` on (pointer addition). -/
def shiftBuf (b : Mem) (off : Nat) : Mem := fun i => b (off + i)

/-- The effect of `memcpy(dst, src, n)` on the destination map `m`. -/
def memcpy (m : Mem) (dst : Nat) (src : Mem) (n : Nat) : Mem :=
  fun a => if dst ≤ a ∧ a < dst + n then src (a - dst) else m a

/-- The effect of filling `n` bytes at `dst` with the byte `v`. -/
def memfill (m : Mem) (dst : Nat) (v : Byte) (n : Nat) : Mem :=
  fun a => if dst ≤ a ∧ a < dst + n then v else m a

/-! ## Status codes and constants of `bl_filesys_api.h` -/

/-- The status values of the file store. -/
inductive BL_FStoreStatus_t where
  | BL_FS_NO_ERROR
  | BL_FS_VALIDATE_FAILURE
  | BL_FS_FS_FULL
  | BL_FS_MISSING_FILE
  | BL_FS_DUPLICATE_FILE
  | BL_FS_INVALID_OPERATION
  | BL_FS_ENCRYPTION_FAILURE
  | BL_FS_MRAM_READ_FAILURE
  | BL_FS_MRAM_WRITE_FAILURE
  | BL_FS_MRAM_ERASE_FAILURE
  | BL_FS_CRC_MISMATCH
  deriving DecidableEq, Repr

open BL_FStoreStatus_t

def BL_FS_CAN_READ : Nat := 1
def BL_FS_CAN_WRITE : Nat := 2
def BL_FS_CAN_DELETE : Nat := 4

def BL_FS_NOFILE : Nat := 0
def BL_FS_MAX_RESERVED_FILE : Nat := 8
def BL_FS_SIZE_AND_CRC_ID : Nat := 1

def BL_FS_INODE_START_BYTES : Nat := 0x55EC
def BL_FS_INODE_END_BYTES : Nat := 0x5EC5

/-- The value of `sizeof(BL_FSINode_t)`: a packed record of 4 + 1 + 1 + 1 + 2 bytes. -/
def BL_FS_INODE_SIZE : Nat := 9

/-- The value of `sizeof(uint64_t)`. -/
def BL_FS_MIN_FILE_SIZE : Nat := 8

def BL_FS_INODE_START_END_BYTES_SIZE : Nat := 4
def BL_FS_INODE_64_BIT_ALIGN_PAD : Nat := 4
def BL_FS_BOOT_INFO_INODE_COUNT : Nat := 32

def BL_FS_BOOT_INFO_INODE_TABLE_SIZE : Nat :=
  BL_FS_BOOT_INFO_INODE_COUNT * BL_FS_INODE_SIZE
    + BL_FS_INODE_START_END_BYTES_SIZE + BL_FS_INODE_64_BIT_ALIGN_PAD

def BL_CODE_SECTOR_SIZE : Nat := 1024
def BL_FS_MAX_FILE_SIZE : Nat := BL_CODE_SECTOR_SIZE
def BL_RECOVERY_BOOTLOADER_SIZE : Nat := 7 * 1024
def BL_BOOT_INFO_STORAGE_SIZE : Nat := 1 * 1024

def BL_FS_BOOT_INFO_SIZE : Nat :=
  BL_BOOT_INFO_STORAGE_SIZE - BL_FS_BOOT_INFO_INODE_TABLE_SIZE

/-- The value of `sizeof(BL_FSINodeTableBootInfo_t)`: two markers and 32 inodes. -/
def sizeofINodeTable : Nat := 2 + BL_FS_BOOT_INFO_INODE_COUNT * BL_FS_INODE_SIZE + 2

/-! ## The hardware the file store runs on -/

/-- What the sources leave to `hw.h` and `MRAM_rom.h`: the base address of main
MRAM, the content of an erased byte, and the outcome of each primitive call as
a function of its address and word count. -/
structure HW where
  MRAM_MAIN_BASE : Nat
  erasedByte : Byte
  eraseSeqOk : Nat → Nat → Bool
  writeSeqOk : Nat → Nat → Bool
  eraseNonSeqOk : Nat → Nat → Bool
  writeNonSeqOk : Nat → Nat → Bool
  readDoubleOk : Nat → Bool

/-- Every memory primitive succeeds. -/
def HW.AllSucceed (hw : HW) : Prop :=
  (∀ a n, hw.eraseSeqOk a n = true) ∧ (∀ a n, hw.writeSeqOk a n = true) ∧
  (∀ a n, hw.eraseNonSeqOk a n = true) ∧ (∀ a n, hw.writeNonSeqOk a n = true) ∧
  (∀ a, hw.readDoubleOk a = true)

def BL_RECOVERY_BASE (hw : HW) : Nat := hw.MRAM_MAIN_BASE

def BL_BOOT_INFO_STORAGE_BASE (hw : HW) : Nat :=
  BL_RECOVERY_BASE hw + BL_RECOVERY_BOOTLOADER_SIZE

def BL_FS_BOOT_INFO_INODE_TABLE (hw : HW) : Nat := BL_BOOT_INFO_STORAGE_BASE hw

def BL_FS_BOOT_INFO_DATA_SPACE (hw : HW) : Nat :=
  BL_FS_BOOT_INFO_INODE_TABLE hw + BL_FS_BOOT_INFO_INODE_TABLE_SIZE

/-- The boot-info storage region lies inside the 32-bit address space. -/
def HW.AddressesFit (hw : HW) : Prop :=
  BL_BOOT_INFO_STORAGE_BASE hw + BL_BOOT_INFO_STORAGE_SIZE ≤ 2 ^ 32

instance (hw : HW) : Decidable hw.AddressesFit := by
  unfold HW.AddressesFit
  exact inferInstance

/-- `MRAM_Erase_Sequential(addr, words)`: status and memory afterwards. -/
def MRAM_Erase_Sequential (hw : HW) (m : Mem) (addr words : Nat) : Bool × Mem :=
  if hw.eraseSeqOk addr words then (true, memfill m addr hw.erasedByte (4 * words))
  else (false, m)

/-- `MRAM_WriteBuffer_Sequential(addr, words, src)`: status and memory afterwards. -/
def MRAM_WriteBuffer_Sequential (hw : HW) (m : Mem) (addr words : Nat) (src : Mem) :
    Bool × Mem :=
  if hw.writeSeqOk addr words then (true, memcpy m addr src (4 * words))
  else (false, m)

/-- `MRAM_Erase_NonSequential(addr, words)`: status and memory afterwards. -/
def MRAM_Erase_NonSequential (hw : HW) (m : Mem) (addr words : Nat) : Bool × Mem :=
  if hw.eraseNonSeqOk addr words then (true, memfill m addr hw.erasedByte (4 * words))
  else (false, m)

/-- `MRAM_WriteBuffer_NonSequential(addr, words, src)`: status and memory afterwards. -/
def MRAM_WriteBuffer_NonSequential (hw : HW) (m : Mem) (addr words : Nat) (src : Mem) :
    Bool × Mem :=
  if hw.writeNonSeqOk addr words then (true, memcpy m addr src (4 * words))
  else (false, m)

/-- `MRAM_ReadDoubleWord(addr, out)`: the eight bytes left in `out`, which the
caller has set to zero beforehand. -/
def MRAM_ReadDoubleWord (hw : HW) (m : Mem) (addr : Nat) : Mem :=
  if hw.readDoubleOk addr then fun i => if i < 8 then m (addr + i) else 0
  else fun _ => 0

/-! ## The CRC engine -/

/-- The CCITT initial value loaded into `CRC->VALUE`. -/
def CRC_CCITT_INIT_VALUE : Nat := 0xFFFF

/-- Modelled from the spec: the CRC engine (registers of `hw.h`, absent from the
sources) computes CRC-16/CCITT.  One shift of the 16-bit register with input
bit `b`, generator polynomial `0x1021`. -/
def crcShift (s : Nat) (b : Bool) : Nat :=
  if (s.testBit 15 != b) then ((2 * s) % 65536) ^^^ 0x1021 else (2 * s) % 65536

/-- Modelled from the spec: the bits of a byte in standard bit order, most
significant first. -/
def byteBits (x : Nat) : List Bool :=
  [x.testBit 7, x.testBit 6, x.testBit 5, x.testBit 4,
   x.testBit 3, x.testBit 2, x.testBit 1, x.testBit 0]

/-- Modelled from the spec: the bits of a 32-bit word as the engine consumes
them in little-endian mode, lowest-addressed byte first. -/
def wordBits (w : Nat) : List Bool :=
  byteBits (w % 256) ++ byteBits (w / 256 % 256) ++ byteBits (w / 65536 % 256)
    ++ byteBits (w / 16777216 % 256)

/-- Modelled from the spec: a write of the word `w` to `CRC->ADD_32` with the
register holding `s`. -/
def CRC_ADD_32 (s w : Nat) : Nat := (wordBits w).foldl crcShift s

/-- Modelled from the spec: `CRC->FINAL` is the register value. -/
def CRC_FINAL (s : Nat) : Nat := s

/-- The loop of `BL_FSCalculateFileCRC`: `n` words left, `i` words consumed. -/
def crcLoop (p_File : Mem) : Nat → Nat → Nat → Nat
  | 0, _, s => s
  | n + 1, i, s => crcLoop p_File n (i + 1) (CRC_ADD_32 s (rd32 p_File (4 * i)))

/-- `BL_FSCalculateFileCRC(p_File, size_words)`; the parameter `size_words` is a
`uint8_t` and the result is stored in a `uint16_t`. -/
def BL_FSCalculateFileCRC (p_File : Mem) (size_words : Nat) : Nat :=
  CRC_FINAL (crcLoop p_File (size_words % 256) 0 CRC_CCITT_INIT_VALUE) % 65536

/-! ## Inodes and the inode table -/

/-- The record `BL_FSINode_t`. -/
structure BL_FSINode_t where
  p_fileStartAddr : Nat
  id : Nat
  flags : Nat
  size : Nat
  crc : Nat
  deriving DecidableEq, Repr

/-- An inode after `memset(p_inode, 0, sizeof(BL_FSINode_t))`. -/
def zeroINode : BL_FSINode_t :=
  { p_fileStartAddr := 0, id := 0, flags := 0, size := 0, crc := 0 }

/-- The structure `BL_FSINodeTableBootInfo_t`, followed by the four bytes that
copies of `FSINodeTableSize` bytes carry along. -/
structure BL_FSINodeTableBootInfo_t where
  startBytes : Nat
  inodes : List BL_FSINode_t
  endBytes : Nat
  pad : Nat
  deriving DecidableEq, Repr

/-- The element `inodes[index]` of a table. -/
def inodeAt (t : BL_FSINodeTableBootInfo_t) (index : Nat) : BL_FSINode_t :=
  t.inodes.getD index zeroINode

/-- Byte `j` of the packed representation of an inode. -/
def encodeINode (n : BL_FSINode_t) (j : Nat) : Byte :=
  if j < 4 then leByte n.p_fileStartAddr j
  else if j = 4 then toByte n.id
  else if j = 5 then toByte n.flags
  else if j = 6 then toByte n.size
  else leByte n.crc (j - 7)

/-- The inode whose packed representation starts at offset `off` of `b`. -/
def decodeINode (b : Mem) (off : Nat) : BL_FSINode_t :=
  { p_fileStartAddr := rd32 b off
    id := (b (off + 4)).val
    flags := (b (off + 5)).val
    size := (b (off + 6)).val
    crc := rd16 b (off + 7) }

/-- Byte `off` of the table as it lies in RAM, for `off < 296`. -/
def encodeTable (t : BL_FSINodeTableBootInfo_t) : Mem := fun off =>
  if off < 2 then leByte t.startBytes off
  else if off < 2 + BL_FS_BOOT_INFO_INODE_COUNT * BL_FS_INODE_SIZE then
    encodeINode (inodeAt t ((off - 2) / BL_FS_INODE_SIZE)) ((off - 2) % BL_FS_INODE_SIZE)
  else if off < sizeofINodeTable then leByte t.endBytes (off - 290)
  else leByte t.pad (off - sizeofINodeTable)

/-- The table held by a RAM image of `FSINodeTableSize` bytes. -/
def decodeTable (b : Mem) : BL_FSINodeTableBootInfo_t :=
  { startBytes := rd16 b 0
    inodes := (List.range BL_FS_BOOT_INFO_INODE_COUNT).map
      (fun i => decodeINode b (2 + BL_FS_INODE_SIZE * i))
    endBytes := rd16 b 290
    pad := rd32 b sizeofINodeTable }

/-- The state the file store works on: the non-volatile memory and the copy of
the inode table cached in `Info_Storage.inode_table`. -/
structure FS where
  mram : Mem
  inode_table : BL_FSINodeTableBootInfo_t

/-! ## Internal operations -/

/-- `BL_FSRead(p_dst, p_src, size, encrypted)` without encryption: the
destination after `memcpy(p_dst, p_src, size)`; the status is always
`BL_FS_NO_ERROR`. -/
def BL_FSRead (p_dst : Mem) (m : Mem) (p_src size : Nat) : BL_FStoreStatus_t × Mem :=
  (BL_FS_NO_ERROR, memcpy p_dst 0 (shiftBuf m p_src) size)

/-- `BL_FSWrite(p_dst, p_src, size, encrypted)` with `encrypted == false`:
erase and program `size >> 2` words. -/
def BL_FSWrite (hw : HW) (m : Mem) (p_dst : Nat) (p_src : Mem) (size : Nat) :
    BL_FStoreStatus_t × Mem :=
  let e := MRAM_Erase_Sequential hw m p_dst (size >>> 2)
  if e.1 = false then (BL_FS_MRAM_WRITE_FAILURE, e.2)
  else
    let w := MRAM_WriteBuffer_Sequential hw e.2 p_dst (size >>> 2) p_src
    if w.1 = false then (BL_FS_MRAM_WRITE_FAILURE, w.2)
    else (BL_FS_NO_ERROR, w.2)

/-- `BL_FSHasValidFileSystem`: reload the cached table from MRAM and compare
both markers. -/
def BL_FSHasValidFileSystem (hw : HW) (st : FS) : BL_FStoreStatus_t × FS :=
  let img := (BL_FSRead (encodeTable st.inode_table) st.mram
    (BL_FS_BOOT_INFO_INODE_TABLE hw) BL_FS_BOOT_INFO_INODE_TABLE_SIZE).2
  let st1 : FS := { st with inode_table := decodeTable img }
  if st1.inode_table.startBytes = BL_FS_INODE_START_BYTES
      ∧ st1.inode_table.endBytes = BL_FS_INODE_END_BYTES then
    (BL_FS_NO_ERROR, st1)
  else (BL_FS_VALIDATE_FAILURE, st1)

/-- `BL_FStoreSaveInodeTable`: write the cached table back to MRAM. -/
def BL_FStoreSaveInodeTable (hw : HW) (st : FS) : BL_FStoreStatus_t × FS :=
  let r := BL_FSWrite hw st.mram (BL_FS_BOOT_INFO_INODE_TABLE hw)
    (encodeTable st.inode_table) BL_FS_BOOT_INFO_INODE_TABLE_SIZE
  if r.1 ≠ BL_FS_NO_ERROR then (BL_FS_ENCRYPTION_FAILURE, { st with mram := r.2 })
  else (BL_FS_NO_ERROR, { st with mram := r.2 })

/-- A counting loop `for (index = i; index < i + n; index++)` that returns the
first index at which `p` holds. -/
def firstIndex (p : Nat → Bool) : Nat → Nat → Option Nat
  | 0, _ => none
  | n + 1, i => if p i then some i else firstIndex p n (i + 1)

/-- `BL_FStoreFindFile`: the index of the inode found, if any. -/
def BL_FStoreFindFile (hw : HW) (st : FS) (id : Nat) : Option Nat × FS :=
  let v := BL_FSHasValidFileSystem hw st
  if v.1 = BL_FS_NO_ERROR then
    (firstIndex (fun index => (inodeAt v.2.inode_table index).id == id)
      BL_FS_BOOT_INFO_INODE_COUNT 0, v.2)
  else (none, v.2)

/-- `BL_FStoreIsFlagSet`. -/
def BL_FStoreIsFlagSet (hw : HW) (st : FS) (id flag : Nat) : Bool × FS :=
  let r := BL_FStoreFindFile hw st id
  match r.1 with
  | none => (false, r.2)
  | some k => ((inodeAt r.2.inode_table k).flags &&& flag == flag, r.2)

/-- The cached table with `inodes[k]` replaced. -/
def setINode (st : FS) (k : Nat) (n : BL_FSINode_t) : FS :=
  { st with inode_table := { st.inode_table with inodes := st.inode_table.inodes.set k n } }

/-- `BL_FStoreFindFreeInode`: the index of the first unused inode, which is
cleared in the cache. -/
def BL_FStoreFindFreeInode (st : FS) : Option Nat × FS :=
  match firstIndex (fun index => (inodeAt st.inode_table index).id == 0
      && (inodeAt st.inode_table index).size == 0) BL_FS_BOOT_INFO_INODE_COUNT 0 with
  | none => (none, st)
  | some k => (some k, setINode st k zeroINode)

/-- `BL_FStoreFindFreeBlock`: the start address for the inode at index
`p_inode`; the argument `size` is not used by the code. -/
def BL_FStoreFindFreeBlock (hw : HW) (st : FS) (p_inode : Nat) (_size : Nat) :
    BL_FStoreStatus_t × Nat :=
  match firstIndex (fun index => index == p_inode) BL_FS_BOOT_INFO_INODE_COUNT 0 with
  | none => (BL_FS_FS_FULL, 0)
  | some index =>
    if index ≠ 0 then
      let previousInodeIndex := index - 1
      let previousFileSize := (inodeAt st.inode_table previousInodeIndex).size
      let p_previousFileAddr := (inodeAt st.inode_table previousInodeIndex).p_fileStartAddr
      (BL_FS_NO_ERROR, (p_previousFileAddr + 4 * (previousFileSize >>> 2)) % 2 ^ 32)
    else (BL_FS_NO_ERROR, BL_FS_BOOT_INFO_DATA_SPACE hw % 2 ^ 32)

/-- `BL_FStoreUpdateExistingFile`; the status of saving the table is dropped,
and neither `flags` nor the inode size is touched. -/
def BL_FStoreUpdateExistingFile (hw : HW) (st : FS) (id : Nat) (p_buffer : Mem)
    (size _flags : Nat) : BL_FStoreStatus_t × FS :=
  let r := BL_FStoreFindFile hw st id
  match r.1 with
  | none => (BL_FS_MISSING_FILE, r.2)
  | some k =>
    let p_inode := inodeAt r.2.inode_table k
    if p_inode.flags &&& BL_FS_CAN_WRITE = BL_FS_CAN_WRITE then
      let w := BL_FSWrite hw r.2.mram p_inode.p_fileStartAddr p_buffer size
      let st1 : FS := { r.2 with mram := w.2 }
      if w.1 ≠ BL_FS_NO_ERROR then (BL_FS_MRAM_WRITE_FAILURE, st1)
      else
        let st2 := setINode st1 k
          { p_inode with crc := BL_FSCalculateFileCRC p_buffer (size >>> 2) }
        (BL_FS_NO_ERROR, (BL_FStoreSaveInodeTable hw st2).2)
    else (BL_FS_INVALID_OPERATION, r.2)

/-- `BL_FStoreNewFile`; `working.flags` and `working.size` are `uint8_t`. -/
def BL_FStoreNewFile (hw : HW) (st : FS) (id : Nat) (p_buffer : Mem)
    (size flags : Nat) : BL_FStoreStatus_t × FS :=
  let f := BL_FStoreFindFreeInode st
  match f.1 with
  | none => (BL_FS_FS_FULL, f.2)
  | some p_inode =>
    let size := if size < BL_FS_MIN_FILE_SIZE then BL_FS_MIN_FILE_SIZE else size
    let b := BL_FStoreFindFreeBlock hw f.2 p_inode size
    if b.1 ≠ BL_FS_NO_ERROR then (BL_FS_FS_FULL, f.2)
    else
      let working : BL_FSINode_t :=
        { p_fileStartAddr := b.2
          id := id
          flags := flags % 256
          size := size % 256
          crc := BL_FSCalculateFileCRC p_buffer (size >>> 2) }
      let w := BL_FSWrite hw f.2.mram working.p_fileStartAddr p_buffer size
      let st1 : FS := { f.2 with mram := w.2 }
      if w.1 ≠ BL_FS_NO_ERROR then (BL_FS_MRAM_WRITE_FAILURE, st1)
      else BL_FStoreSaveInodeTable hw (setINode st1 p_inode working)

/-! ## Public operations -/

/-- `BL_FStoreValidate(BL_FS_INFO_STORAGE)`. -/
def BL_FStoreValidate (hw : HW) (st : FS) : BL_FStoreStatus_t × FS :=
  let v := BL_FSHasValidFileSystem hw st
  if v.1 ≠ BL_FS_NO_ERROR then (BL_FS_VALIDATE_FAILURE, v.2) else (BL_FS_NO_ERROR, v.2)

/-- The table after `memset(&inode_table, 0, sizeof(BL_FSINodeTableBootInfo_t))`
and the assignment of both markers; the four bytes past the structure keep
their content `pad`. -/
def emptyTable (pad : Nat) : BL_FSINodeTableBootInfo_t :=
  { startBytes := BL_FS_INODE_START_BYTES
    inodes := List.replicate BL_FS_BOOT_INFO_INODE_COUNT zeroINode
    endBytes := BL_FS_INODE_END_BYTES
    pad := pad }

/-- `BL_FStoreMakeInfoFilesystem(BL_FS_INFO_STORAGE)`; the results of writing
the empty table and of saving the seeded one are dropped. -/
def BL_FStoreMakeInfoFilesystem (hw : HW) (st : FS) : BL_FStoreStatus_t × FS :=
  let e1 := MRAM_Erase_NonSequential hw st.mram (BL_FS_BOOT_INFO_INODE_TABLE hw)
    (BL_FS_BOOT_INFO_INODE_TABLE_SIZE >>> 2)
  if e1.1 = false then (BL_FS_MRAM_ERASE_FAILURE, { st with mram := e1.2 })
  else
    let e2 := MRAM_Erase_NonSequential hw e1.2 (BL_FS_BOOT_INFO_DATA_SPACE hw + 8)
      ((BL_FS_BOOT_INFO_SIZE - 8) >>> 2)
    if e2.1 = false then (BL_FS_MRAM_ERASE_FAILURE, { st with mram := e2.2 })
    else
      let empty := emptyTable st.inode_table.pad
      let w := MRAM_WriteBuffer_NonSequential hw e2.2 (BL_FS_BOOT_INFO_INODE_TABLE hw)
        (BL_FS_BOOT_INFO_INODE_TABLE_SIZE >>> 2) (encodeTable empty)
      let f := BL_FStoreFindFreeInode { mram := w.2, inode_table := empty }
      match f.1 with
      | none => (BL_FS_FS_FULL, f.2)
      | some p_inode =>
        let size_and_CRC := MRAM_ReadDoubleWord hw f.2.mram (BL_FS_BOOT_INFO_DATA_SPACE hw)
        let seeded : BL_FSINode_t :=
          { crc := BL_FSCalculateFileCRC size_and_CRC (8 >>> 2)
            p_fileStartAddr := BL_FS_BOOT_INFO_DATA_SPACE hw % 2 ^ 32
            id := BL_FS_SIZE_AND_CRC_ID
            flags := BL_FS_CAN_READ ||| BL_FS_CAN_WRITE
            size := 8 }
        let s := BL_FStoreSaveInodeTable hw (setINode f.2 p_inode seeded)
        BL_FStoreValidate hw s.2

/-- `BL_FStoreInitializeInfoStorage()`. -/
def BL_FStoreInitializeInfoStorage (hw : HW) (st : FS) : BL_FStoreStatus_t × FS :=
  let v := BL_FStoreValidate hw st
  if v.1 = BL_FS_VALIDATE_FAILURE then BL_FStoreMakeInfoFilesystem hw v.2 else v

/-- `BL_FStoreFileSize(BL_FS_INFO_STORAGE, id)`. -/
def BL_FStoreFileSize (hw : HW) (st : FS) (id : Nat) : Nat × FS :=
  let r := BL_FStoreFindFile hw st id
  match r.1 with
  | none => (0xFFFF, r.2)
  | some k => ((inodeAt r.2.inode_table k).size, r.2)

/-- `BL_FStoreFileExists(BL_FS_INFO_STORAGE, id)`. -/
def BL_FStoreFileExists (hw : HW) (st : FS) (id : Nat) : Bool × FS :=
  let r := BL_FStoreFindFile hw st id
  (r.1.isSome, r.2)

/-- `BL_FStoreFileCanRead(BL_FS_INFO_STORAGE, id)`. -/
def BL_FStoreFileCanRead (hw : HW) (st : FS) (id : Nat) : Bool × FS :=
  BL_FStoreIsFlagSet hw st id BL_FS_CAN_READ

/-- `BL_FStoreFileCanWrite(BL_FS_INFO_STORAGE, id)`. -/
def BL_FStoreFileCanWrite (hw : HW) (st : FS) (id : Nat) : Bool × FS :=
  BL_FStoreIsFlagSet hw st id BL_FS_CAN_WRITE

/-- `BL_FStoreFileCanDelete(BL_FS_INFO_STORAGE, id)`. -/
def BL_FStoreFileCanDelete (hw : HW) (st : FS) (id : Nat) : Bool × FS :=
  BL_FStoreIsFlagSet hw st id BL_FS_CAN_DELETE

/-- `BL_FStoreWrite(BL_FS_INFO_STORAGE, id, p_buffer, size, flags)`. -/
def BL_FStoreWrite (hw : HW) (st : FS) (id : Nat) (p_buffer : Mem) (size flags : Nat) :
    BL_FStoreStatus_t × FS :=
  let e := BL_FStoreFileExists hw st id
  if e.1 then BL_FStoreUpdateExistingFile hw e.2 id p_buffer size flags
  else BL_FStoreNewFile hw e.2 id p_buffer size flags

/-- What `BL_FStoreRead` leaves behind: the status, the caller buffer, the
value of `*p_max_size`, and the state. -/
structure ReadResult where
  status : BL_FStoreStatus_t
  buffer : Mem
  max_size : Nat
  fs : FS

/-- `BL_FStoreRead(BL_FS_INFO_STORAGE, id, p_buffer, p_max_size)`. -/
def BL_FStoreRead (hw : HW) (st : FS) (id : Nat) (p_buffer : Mem) (max_size : Nat) :
    ReadResult :=
  let r := BL_FStoreFindFile hw st id
  match r.1 with
  | none => { status := BL_FS_MISSING_FILE, buffer := p_buffer, max_size := 0, fs := r.2 }
  | some k =>
    let p_inode := inodeAt r.2.inode_table k
    if p_inode.size > max_size then
      { status := BL_FS_INVALID_OPERATION, buffer := p_buffer, max_size := 0, fs := r.2 }
    else
      let rd := BL_FSRead p_buffer r.2.mram p_inode.p_fileStartAddr p_inode.size
      if rd.1 ≠ BL_FS_NO_ERROR then
        { status := BL_FS_MRAM_READ_FAILURE, buffer := rd.2, max_size := max_size, fs := r.2 }
      else
        let calculatedCRC := BL_FSCalculateFileCRC rd.2 (p_inode.size >>> 2)
        if calculatedCRC ≠ p_inode.crc then
          { status := BL_FS_CRC_MISMATCH, buffer := rd.2, max_size := max_size, fs := r.2 }
        else
          { status := BL_FS_NO_ERROR, buffer := rd.2, max_size := p_inode.size, fs := r.2 }

/-- The `while (remaining > 0)` loop of `BL_FStoreDelete`, with `fuel` bounding
the number of iterations: `none` when the fuel runs out before the loop exits.
The body advances `p_sector`, `mask` and `word`; no statement of it assigns to
`remaining`. -/
def deleteLoop (remaining : Nat) : Nat → Nat → Nat → Nat → Option (Nat × Nat × Nat)
  | 0, p_sector, mask, word =>
    if remaining > 0 then none else some (p_sector, mask, word)
  | fuel + 1, p_sector, mask, word =>
    if remaining > 0 then
      let mask1 := (mask <<< 1) % 2 ^ 32
      if mask1 > 0x8000 then
        deleteLoop remaining fuel ((p_sector + BL_FS_MIN_FILE_SIZE) % 2 ^ 32) 0x0001
          ((word + 1) % 2 ^ 32)
      else deleteLoop remaining fuel ((p_sector + BL_FS_MIN_FILE_SIZE) % 2 ^ 32) mask1 word
    else some (p_sector, mask, word)

/-- `BL_FStoreDelete(BL_FS_INFO_STORAGE, id)` run with `fuel` loop iterations
available: `none` when the call has not returned within them. -/
def BL_FStoreDelete (fuel : Nat) (hw : HW) (st : FS) (id : Nat) :
    Option (BL_FStoreStatus_t × FS) :=
  let r := BL_FStoreFindFile hw st id
  match r.1 with
  | none => some (BL_FS_MISSING_FILE, r.2)
  | some k =>
    let remaining := (inodeAt r.2.inode_table k).size
    match deleteLoop remaining fuel (BL_FS_BOOT_INFO_DATA_SPACE hw % 2 ^ 32) 0x0001 0 with
    | none => none
    | some _ => some (BL_FStoreSaveInodeTable hw (setINode r.2 k zeroINode))

/-- The integer value of a status, as the C enumeration assigns it. -/
def statusCode : BL_FStoreStatus_t → Nat
  | BL_FS_NO_ERROR => 0
  | BL_FS_VALIDATE_FAILURE => 1
  | BL_FS_FS_FULL => 2
  | BL_FS_MISSING_FILE => 3
  | BL_FS_DUPLICATE_FILE => 4
  | BL_FS_INVALID_OPERATION => 5
  | BL_FS_ENCRYPTION_FAILURE => 6
  | BL_FS_MRAM_READ_FAILURE => 7
  | BL_FS_MRAM_WRITE_FAILURE => 8
  | BL_FS_MRAM_ERASE_FAILURE => 9
  | BL_FS_CRC_MISMATCH => 10

/-- What `BL_FStoreFileList` leaves behind: the status, the caller buffer, the
value of `*p_max_size`, and the state. -/
structure ListResult where
  status : BL_FStoreStatus_t
  buffer : Mem
  max_size : Nat
  fs : FS

/-- The copying loop of `BL_FStoreFileList`: `n` inodes left, the next one at
`index`; `off` is `p_ptr - p_buffer`.  It returns the buffer and the final
offset. -/
def fileListLoop (t : BL_FSINodeTableBootInfo_t) (show_hidden : Bool) :
    Nat → Nat → Mem → Nat → Mem × Nat
  | 0, _, buf, off => (buf, off)
  | n + 1, index, buf, off =>
    if (inodeAt t index).id > BL_FS_NOFILE
        ∧ ((inodeAt t index).id ≥ BL_FS_MAX_RESERVED_FILE ∨ show_hidden = true) then
      fileListLoop t show_hidden n (index + 1)
        (memcpy buf off (encodeINode (inodeAt t index)) BL_FS_INODE_SIZE)
        (off + BL_FS_INODE_SIZE)
    else fileListLoop t show_hidden n (index + 1) buf off

/-- `BL_FStoreFileList(BL_FS_INFO_STORAGE, p_buffer, p_max_size, show_hidden)`.
The first test is `!BL_FSHasValidFileSystem(p_storage)`: it holds when the
status returned has the value 0, which is `BL_FS_NO_ERROR`.  The second
compares with `FSINodeCount * sizeof(BL_FSINodeTableBootInfo_t)`. -/
def BL_FStoreFileList (hw : HW) (st : FS) (p_buffer : Mem) (max_size : Nat)
    (show_hidden : Bool) : ListResult :=
  let v := BL_FSHasValidFileSystem hw st
  if statusCode v.1 = 0 then
    { status := BL_FS_INVALID_OPERATION, buffer := p_buffer, max_size := max_size, fs := v.2 }
  else if max_size < BL_FS_BOOT_INFO_INODE_COUNT * sizeofINodeTable then
    { status := BL_FS_INVALID_OPERATION, buffer := p_buffer, max_size := max_size, fs := v.2 }
  else
    let l := fileListLoop v.2.inode_table show_hidden BL_FS_BOOT_INFO_INODE_COUNT 0 p_buffer 0
    { status := BL_FS_NO_ERROR, buffer := l.1, max_size := l.2 % 65536, fs := v.2 }

/-! ## Notions used to state the properties -/

/-- An inode with every field reduced to the width of its C type. -/
def normINode (n : BL_FSINode_t) : BL_FSINode_t :=
  { p_fileStartAddr := n.p_fileStartAddr % 2 ^ 32
    id := n.id % 256
    flags := n.flags % 256
    size := n.size % 256
    crc := n.crc % 65536 }

/-- The inode table held by the non-volatile memory `m`. -/
def persisted (hw : HW) (m : Mem) : BL_FSINodeTableBootInfo_t :=
  decodeTable (shiftBuf m (BL_FS_BOOT_INFO_INODE_TABLE hw))

/-- Both guard markers of the table held by `m` have their fixed values. -/
def ValidTable (hw : HW) (m : Mem) : Prop :=
  (persisted hw m).startBytes = BL_FS_INODE_START_BYTES
    ∧ (persisted hw m).endBytes = BL_FS_INODE_END_BYTES

instance (hw : HW) (m : Mem) : Decidable (ValidTable hw m) := by
  unfold ValidTable
  exact inferInstance

/-- Inode `k` is the first inode of the table held by `m` that carries `id`:
the file `id` exists and `k` is the inode a lookup returns. -/
def FileAt (hw : HW) (m : Mem) (id k : Nat) : Prop :=
  k < BL_FS_BOOT_INFO_INODE_COUNT ∧ (inodeAt (persisted hw m) k).id = id
    ∧ ∀ j, j < k → (inodeAt (persisted hw m) j).id ≠ id

instance (hw : HW) (m : Mem) (id k : Nat) : Decidable (FileAt hw m id k) := by
  unfold FileAt
  exact inferInstance

/-- No inode of the table held by `m` carries `id`. -/
def NoFile (hw : HW) (m : Mem) (id : Nat) : Prop :=
  ∀ k, k < BL_FS_BOOT_INFO_INODE_COUNT → (inodeAt (persisted hw m) k).id ≠ id

instance (hw : HW) (m : Mem) (id : Nat) : Decidable (NoFile hw m id) := by
  unfold NoFile
  exact inferInstance

/-- The address `a` lies in the inode-table region of MRAM. -/
def InTableRegion (hw : HW) (a : Nat) : Prop :=
  BL_FS_BOOT_INFO_INODE_TABLE hw ≤ a
    ∧ a < BL_FS_BOOT_INFO_INODE_TABLE hw + BL_FS_BOOT_INFO_INODE_TABLE_SIZE

instance (hw : HW) (a : Nat) : Decidable (InTableRegion hw a) := by
  unfold InTableRegion
  exact inferInstance

/-- The address `a` lies in the data region of MRAM. -/
def InDataRegion (hw : HW) (a : Nat) : Prop :=
  BL_FS_BOOT_INFO_DATA_SPACE hw ≤ a
    ∧ a < BL_FS_BOOT_INFO_DATA_SPACE hw + BL_FS_BOOT_INFO_SIZE

/-- The memory `m` with bit `bit` of the byte at address `a` inverted. -/
def flipBit (m : Mem) (a bit : Nat) : Mem :=
  fun x => if x = a then toByte ((m a).val ^^^ 2 ^ bit) else m x

/-- The table region of `m` overwritten with the image of the table `t`. -/
def withTable (hw : HW) (m : Mem) (t : BL_FSINodeTableBootInfo_t) : Mem :=
  memcpy (memfill m (BL_FS_BOOT_INFO_INODE_TABLE hw) hw.erasedByte
    BL_FS_BOOT_INFO_INODE_TABLE_SIZE) (BL_FS_BOOT_INFO_INODE_TABLE hw) (encodeTable t)
    BL_FS_BOOT_INFO_INODE_TABLE_SIZE

/-- The inode that `BL_FStoreMakeInfoFilesystem` seeds for the double word at the
base of the data space of `m`. -/
def seededINode (hw : HW) (m : Mem) : BL_FSINode_t :=
  { p_fileStartAddr := BL_FS_BOOT_INFO_DATA_SPACE hw % 2 ^ 32
    id := BL_FS_SIZE_AND_CRC_ID
    flags := BL_FS_CAN_READ ||| BL_FS_CAN_WRITE
    size := 8
    crc := BL_FSCalculateFileCRC (shiftBuf m (BL_FS_BOOT_INFO_DATA_SPACE hw)) 2 }

/-- The table that `BL_FStoreMakeInfoFilesystem` builds in RAM from the memory
`m`: both markers, the seeded inode, 31 cleared inodes. -/
def seededTable (hw : HW) (m : Mem) (pad : Nat) : BL_FSINodeTableBootInfo_t :=
  { startBytes := BL_FS_INODE_START_BYTES
    inodes := seededINode hw m :: List.replicate 31 zeroINode
    endBytes := BL_FS_INODE_END_BYTES
    pad := pad }

/-- The memory after the two erasures and the write of the empty table in
`BL_FStoreMakeInfoFilesystem`, every primitive succeeding. -/
def erasedMem (hw : HW) (m : Mem) (pad : Nat) : Mem :=
  memcpy
    (memfill (memfill m (BL_FS_BOOT_INFO_INODE_TABLE hw) hw.erasedByte 296)
      (BL_FS_BOOT_INFO_DATA_SPACE hw + 8) hw.erasedByte 720)
    (BL_FS_BOOT_INFO_INODE_TABLE hw) (encodeTable (emptyTable pad)) 296

/-- The memory `BL_FStoreMakeInfoFilesystem` leaves when every primitive
succeeds: both regions erased, the seeded table written. -/
def madeMem (hw : HW) (m : Mem) (pad : Nat) : Mem :=
  withTable hw (erasedMem hw m pad) (seededTable hw (erasedMem hw m pad) pad)

/-- Inode `p` is the first unused inode of the table held by `m`. -/
def FreeAt (hw : HW) (m : Mem) (p : Nat) : Prop :=
  p < BL_FS_BOOT_INFO_INODE_COUNT
    ∧ ((inodeAt (persisted hw m) p).id = 0 ∧ (inodeAt (persisted hw m) p).size = 0)
    ∧ ∀ j, j < p →
        ¬ ((inodeAt (persisted hw m) j).id = 0 ∧ (inodeAt (persisted hw m) j).size = 0)

instance (hw : HW) (m : Mem) (p : Nat) : Decidable (FreeAt hw m p) := by
  unfold FreeAt
  exact inferInstance

/-- No inode of the table held by `m` is unused. -/
def NoFree (hw : HW) (m : Mem) : Prop :=
  ∀ k, k < BL_FS_BOOT_INFO_INODE_COUNT →
    ¬ ((inodeAt (persisted hw m) k).id = 0 ∧ (inodeAt (persisted hw m) k).size = 0)

instance (hw : HW) (m : Mem) : Decidable (NoFree hw m) := by
  unfold NoFree
  exact inferInstance

/-- The start address `BL_FStoreFindFreeBlock` computes for the inode at index
`p` of the table `t`. -/
def allocAddr (hw : HW) (t : BL_FSINodeTableBootInfo_t) (p : Nat) : Nat :=
  if p ≠ 0 then
    ((inodeAt t (p - 1)).p_fileStartAddr + 4 * ((inodeAt t (p - 1)).size >>> 2)) % 2 ^ 32
  else BL_FS_BOOT_INFO_DATA_SPACE hw % 2 ^ 32

/-- The size a new file is stored with: at least `BL_FS_MIN_FILE_SIZE`. -/
def clampSize (size : Nat) : Nat :=
  if size < BL_FS_MIN_FILE_SIZE then BL_FS_MIN_FILE_SIZE else size

/-- The memory after a successful `BL_FSWrite` of `size` bytes at `addr`. -/
def dataWrite (hw : HW) (m : Mem) (addr : Nat) (buf : Mem) (size : Nat) : Mem :=
  memcpy (memfill m addr hw.erasedByte (4 * (size >>> 2))) addr buf (4 * (size >>> 2))

/-- The inode `BL_FStoreNewFile` commits for a file placed at `addr`. -/
def workingINode (addr id : Nat) (buf : Mem) (size flags : Nat) : BL_FSINode_t :=
  { p_fileStartAddr := addr
    id := id
    flags := flags % 256
    size := clampSize size % 256
    crc := BL_FSCalculateFileCRC buf (clampSize size >>> 2) }

/-- The cached table after `BL_FStoreFindFreeInode` has cleared inode `p` and
`BL_FStoreNewFile` has copied the inode `n` into it. -/
def committedTable (t : BL_FSINodeTableBootInfo_t) (p : Nat) (n : BL_FSINode_t) :
    BL_FSINodeTableBootInfo_t :=
  { t with inodes := (t.inodes.set p zeroINode).set p n }

/-- The cached table after `BL_FStoreUpdateExistingFile` has stored the new CRC
in inode `k`. -/
def updatedTable (t : BL_FSINodeTableBootInfo_t) (k crc : Nat) : BL_FSINodeTableBootInfo_t :=
  { t with inodes := t.inodes.set k { inodeAt t k with crc := crc } }

/-- A sequence of `BL_FStoreWrite` calls, each given as (id, buffer, size,
flags): the statuses returned, in order, and the final state. -/
def writeAll (hw : HW) : FS → List (Nat × Mem × Nat × Nat) → List BL_FStoreStatus_t × FS
  | st, [] => ([], st)
  | st, r :: rest =>
    let w := BL_FStoreWrite hw st r.1 r.2.1 r.2.2.1 r.2.2.2
    let q := writeAll hw w.2 rest
    (w.1 :: q.1, q.2)

/-! ## Concrete instances -/

/-- A platform on which every memory primitive succeeds. -/
def okHW : HW :=
  { MRAM_MAIN_BASE := 0x00100000
    erasedByte := 0xFF
    eraseSeqOk := fun _ _ => true
    writeSeqOk := fun _ _ => true
    eraseNonSeqOk := fun _ _ => true
    writeNonSeqOk := fun _ _ => true
    readDoubleOk := fun _ => true }

/-- A memory content that holds no file system: both markers are wrong. -/
def rawMem : Mem := fun a => toByte (7 * a + 3)

/-- The state before the first bring-up, with nothing cached. -/
def rawFS : FS :=
  { mram := rawMem
    inode_table := { startBytes := 0, inodes := [], endBytes := 0, pad := 0 } }

/-- The file system made by `BL_FStoreInitializeInfoStorage` on `rawFS`. -/
def freshFS : FS := (BL_FStoreInitializeInfoStorage okHW rawFS).2

/-- A valid table whose first inode carries id 5 with a size field of zero. -/
def zeroSizeFS : FS :=
  { mram := withTable okHW rawMem
      { startBytes := BL_FS_INODE_START_BYTES
        inodes := { p_fileStartAddr := BL_FS_BOOT_INFO_DATA_SPACE okHW, id := 5, flags := 3,
                    size := 0, crc := 0 } :: List.replicate 31 zeroINode
        endBytes := BL_FS_INODE_END_BYTES
        pad := 0 }
    inode_table := { startBytes := 0, inodes := [], endBytes := 0, pad := 0 } }

/-- The first `k` inodes of the table held by `m` carry non-zero ids taken from
`written`, the others are unused, and the table is valid. -/
def FilledTo (hw : HW) (m : Mem) (k : Nat) (written : List Nat) : Prop :=
  ValidTable hw m
    ∧ (∀ j, j < k → (inodeAt (persisted hw m) j).id ≠ 0
        ∧ (inodeAt (persisted hw m) j).id ∈ written)
    ∧ ∀ j, k ≤ j → j < BL_FS_BOOT_INFO_INODE_COUNT →
        (inodeAt (persisted hw m) j).id = 0 ∧ (inodeAt (persisted hw m) j).size = 0

/-- An empty valid table on `okHW`. -/
def emptyFS : FS :=
  { mram := withTable okHW rawMem (emptyTable 0)
    inode_table := { startBytes := 0, inodes := [], endBytes := 0, pad := 0 } }

/-- Thirty-three write requests with the ids 1 to 33, eight bytes each. -/
def manyWrites : List (Nat × Mem × Nat × Nat) :=
  (List.range 33).map (fun i => (i + 1, fun _ => toByte i, 8, 3))

/-- A buffer holding the bytes 1, 2, 3, ... -/
def cntBuf : Mem := fun i => toByte (i + 1)

/-- A buffer of zero bytes. -/
def zeroBuf : Mem := fun _ => 0

/-- A valid table whose first inode places its 8-byte file right below the
inode table, so that the next file is allocated on top of the table. -/
def overlapFS : FS :=
  { mram := withTable okHW rawMem
      { startBytes := BL_FS_INODE_START_BYTES
        inodes := { p_fileStartAddr := BL_FS_BOOT_INFO_INODE_TABLE okHW - 8, id := 1,
                    flags := 3, size := 8, crc := 0 } :: List.replicate 31 zeroINode
        endBytes := BL_FS_INODE_END_BYTES
        pad := 0 }
    inode_table := { startBytes := 0, inodes := [], endBytes := 0, pad := 0 } }

/-- The fresh file system after a successful write of the 10-byte file 5. -/
def tenByteFS : FS := (BL_FStoreWrite okHW freshFS 5 cntBuf 10 3).2

/-- The state `tenByteFS` with the lowest bit of the last byte of file 5 inverted. -/
def corruptedFS : FS :=
  { tenByteFS with
    mram := flipBit tenByteFS.mram
      ((inodeAt (persisted okHW tenByteFS.mram) 1).p_fileStartAddr + 9) 0 }

/-- A buffer filled with the byte `0xAA`. -/
def bufAA : Mem := fun _ => 0xAA

/-- The fresh file system after the write of file 5: 64 bytes `0xAA`, flags
read and write. -/
def scenarioFS : FS :=
  (BL_FStoreWrite okHW freshFS 5 bufAA 64 (BL_FS_CAN_READ ||| BL_FS_CAN_WRITE)).2

/-- The fresh file system after a write of the 8-byte file 5 with the flag
`BL_FS_CAN_READ` only. -/
def readOnlyFS : FS := (BL_FStoreWrite okHW freshFS 5 cntBuf 8 BL_FS_CAN_READ).2

/-- A valid table whose 32 inodes carry the ids 1 to 32. -/
def fullFS : FS :=
  { mram := withTable okHW rawMem
      { startBytes := BL_FS_INODE_START_BYTES
        inodes := (List.range 32).map (fun i =>
          { p_fileStartAddr := BL_FS_BOOT_INFO_DATA_SPACE okHW + 8 * i, id := i + 1,
            flags := 3, size := 8, crc := 0 })
        endBytes := BL_FS_INODE_END_BYTES
        pad := 0 }
    inode_table := { startBytes := 0, inodes := [], endBytes := 0, pad := 0 } }

/-- A state whose cached table has a first inode that ends 4 bytes below `2 ^ 32`. -/
def wrapFS : FS :=
  { mram := rawMem
    inode_table :=
      { startBytes := BL_FS_INODE_START_BYTES
        inodes := { p_fileStartAddr := 2 ^ 32 - 12, id := 1, flags := 3, size := 16,
                    crc := 0 } :: List.replicate 31 zeroINode
        endBytes := BL_FS_INODE_END_BYTES
        pad := 0 } }

/-- The inodes with index `index` to `index + n - 1` of the table `t` whose id
is not zero and which are shown: id at least `BL_FS_MAX_RESERVED_FILE`, or
`show_hidden`. -/
def listedFrom (t : BL_FSINodeTableBootInfo_t) (show_hidden : Bool) (index n : Nat) :
    List BL_FSINode_t :=
  ((List.range' index n).map (inodeAt t)).filter (fun x =>
    decide (x.id > BL_FS_NOFILE ∧ (x.id ≥ BL_FS_MAX_RESERVED_FILE ∨ show_hidden = true)))

/-- The inodes of the table `t` that a file list shows, in table order. -/
def listedINodes (t : BL_FSINodeTableBootInfo_t) (show_hidden : Bool) : List BL_FSINode_t :=
  listedFrom t show_hidden 0 BL_FS_BOOT_INFO_INODE_COUNT

/-- A memory with invalid markers whose table holds inodes with the ids 9, 0, 3
and 12, followed by unused inodes. -/
def unmarkedFS : FS :=
  { mram := withTable okHW rawMem
      { startBytes := 0
        inodes := [{ p_fileStartAddr := 16, id := 9, flags := 3, size := 8, crc := 7 },
                   zeroINode,
                   { p_fileStartAddr := 24, id := 3, flags := 1, size := 8, crc := 5 },
                   { p_fileStartAddr := 32, id := 12, flags := 2, size := 16, crc := 1 }]
                  ++ List.replicate 28 zeroINode
        endBytes := 0
        pad := 0 }
    inode_table := { startBytes := 0, inodes := [], endBytes := 0, pad := 0 } }

/-- Thirty-two files of the largest size an inode can describe, placed one
after the other from the base of the data space, end below `2 ^ 32`. -/
def HW.RoomForFiles (hw : HW) : Prop :=
  BL_FS_BOOT_INFO_DATA_SPACE hw + 252 * 32 ≤ 2 ^ 32

instance (hw : HW) : Decidable hw.RoomForFiles := by
  unfold HW.RoomForFiles
  exact inferInstance

/-- The end of the whole words stored for inode `j` of the table `t`. -/
def wordsEnd (t : BL_FSINodeTableBootInfo_t) (j : Nat) : Nat :=
  (inodeAt t j).p_fileStartAddr + 4 * ((inodeAt t j).size / 4)

/-- The inodes 0 to `n` of the table held by `m` are packed: the first starts at
the base of the data space and each next one right behind the whole words of
its predecessor. -/
def PackedTo (hw : HW) (m : Mem) (n : Nat) : Prop :=
  (inodeAt (persisted hw m) 0).p_fileStartAddr = BL_FS_BOOT_INFO_DATA_SPACE hw
    ∧ (∀ j, j < n →
        (inodeAt (persisted hw m) (j + 1)).p_fileStartAddr = wordsEnd (persisted hw m) j)
    ∧ wordsEnd (persisted hw m) n ≤ BL_FS_BOOT_INFO_DATA_SPACE hw + 252 * (n + 1)

/-- The request used where a list of requests has none. -/
def noRequest : Nat × Mem × Nat × Nat := (0, fun _ => 0, 0, 0)

/-- Two writes on the fresh file system: file 5 with 12 bytes, file 6 with 8. -/
def twelveThenEight : List BL_FStoreStatus_t × FS :=
  writeAll okHW freshFS [(5, cntBuf, 12, 3), (6, cntBuf, 8, 3)]

/-- Two writes on the fresh file system: file 5 with 260 bytes, file 6 with 8. -/
def bigThenEight : List BL_FStoreStatus_t × FS :=
  writeAll okHW freshFS [(5, cntBuf, 260, 3), (6, cntBuf, 8, 3)]

/-- A platform on which every primitive succeeds except the sequential erase of
the inode-table region. -/
def noTableEraseHW : HW :=
  { okHW with eraseSeqOk := fun a _ => a != BL_FS_BOOT_INFO_INODE_TABLE okHW }

/-- A platform on which every primitive succeeds except the sequential write of
the inode-table region. -/
def noTableWriteHW : HW :=
  { okHW with writeSeqOk := fun a _ => a != BL_FS_BOOT_INFO_INODE_TABLE okHW }

/-- A memory filled with zero bytes: no markers, every inode unused. -/
def blankFS : FS :=
  { mram := fun _ => 0
    inode_table := { startBytes := 0, inodes := [], endBytes := 0, pad := 0 } }

/-- Four writes on the fresh file system: files 5 to 8 with 200 bytes each. -/
def fourFiles : List BL_FStoreStatus_t × FS :=
  writeAll okHW freshFS
    [(5, cntBuf, 200, 3), (6, cntBuf, 200, 3), (7, cntBuf, 200, 3), (8, cntBuf, 200, 3)]

/-- The address of the `flags` byte of inode `k` in the table held by memory. -/
def flagsAddr (hw : HW) (k : Nat) : Nat :=
  BL_FS_BOOT_INFO_INODE_TABLE hw + 2 + BL_FS_INODE_SIZE * k + 5

/-- The fresh file system with the flag `BL_FS_CAN_READ` of inode 0 cleared. -/
def unreadableFS : FS :=
  { freshFS with mram := flipBit freshFS.mram (flagsAddr okHW 0) 0 }

/-! ## The circular buffer of `common/code/fifo.c`

Indices and sizes are `fifo_type` (`uint32_t`): natural numbers below `2 ^ 32`,
with every arithmetic result reduced modulo `2 ^ 32`.  Words are `word_type`
(`int32_t`); they are only stored and returned.  The array behind `p_buffer`
is a map from the word index to the word.  `DEBUG_FIFO_BUFFER` is 0. -/

/-- The record `FIFO_t`. -/
structure FIFO_t where
  write_i : Nat
  read_i : Nat
  buffer_words : Nat
  p_buffer : Nat → Int

/-- The array `b` after the assignment `b[i] = w`. -/
def setWord (b : Nat → Int) (i : Nat) (w : Int) : Nat → Int :=
  fun j => if j = i then w else b j

/-- `FIFO_MaxWords`. -/
def FIFO_MaxWords (p_fifo : FIFO_t) : Nat :=
  (p_fifo.buffer_words + 2 ^ 32 - 1) % 2 ^ 32

/-- `FIFO_IsEmpty`. -/
def FIFO_IsEmpty (p_fifo : FIFO_t) : Bool :=
  p_fifo.read_i == p_fifo.write_i

/-- `FIFO_IsFull`. -/
def FIFO_IsFull (p_fifo : FIFO_t) : Bool :=
  if p_fifo.read_i ≠ 0 then p_fifo.read_i == (p_fifo.write_i + 1) % 2 ^ 32
  else p_fifo.buffer_words == (p_fifo.write_i + 1) % 2 ^ 32

/-- `FIFO_WordsFull`. -/
def FIFO_WordsFull (p_fifo : FIFO_t) : Nat :=
  let words := (p_fifo.write_i + p_fifo.buffer_words + 2 ^ 32 - p_fifo.read_i) % 2 ^ 32
  if words ≥ p_fifo.buffer_words then words - p_fifo.buffer_words else words

/-- `FIFO_WordsEmpty`. -/
def FIFO_WordsEmpty (p_fifo : FIFO_t) : Nat :=
  ((p_fifo.buffer_words + 2 ^ 32 - 1) % 2 ^ 32 + 2 ^ 32 - FIFO_WordsFull p_fifo) % 2 ^ 32

/-- `FIFO_Init`. -/
def FIFO_Init (p_fifo : FIFO_t) (fifo_words : Nat) (fifo_bufptr : Nat → Int) : FIFO_t :=
  { p_fifo with
    write_i := 0
    read_i := 0
    buffer_words := fifo_words
    p_buffer := fifo_bufptr }

/-- `FIFO_Reset`. -/
def FIFO_Reset (p_fifo : FIFO_t) : FIFO_t :=
  { p_fifo with write_i := 0, read_i := 0 }

/-- `FIFO_EnqueueWord`: store at `write_i`, increment, wrap at `buffer_words`. -/
def FIFO_EnqueueWord (p_fifo : FIFO_t) (word : Int) : FIFO_t :=
  let f1 : FIFO_t :=
    { p_fifo with
      p_buffer := setWord p_fifo.p_buffer p_fifo.write_i word
      write_i := (p_fifo.write_i + 1) % 2 ^ 32 }
  if f1.buffer_words = f1.write_i then { f1 with write_i := 0 } else f1

/-- `FIFO_DequeueWord`: the word returned and the FIFO afterwards. -/
def FIFO_DequeueWord (p_fifo : FIFO_t) : Int × FIFO_t :=
  let word := p_fifo.p_buffer p_fifo.read_i
  let f1 : FIFO_t := { p_fifo with read_i := (p_fifo.read_i + 1) % 2 ^ 32 }
  (word, if f1.buffer_words = f1.read_i then { f1 with read_i := 0 } else f1)

/-- A copying loop of `FIFO_DequeueWords`, `while (count--)`: each round stores
`p_buffer[read_i++]` at `*wordp++`; `off` is the offset reached in `wordp`. -/
def dequeueLoop : Nat → FIFO_t → (Nat → Int) → Nat → FIFO_t × (Nat → Int) × Nat
  | 0, p_fifo, wordp, off => (p_fifo, wordp, off)
  | count + 1, p_fifo, wordp, off =>
    dequeueLoop count { p_fifo with read_i := (p_fifo.read_i + 1) % 2 ^ 32 }
      (setWord wordp off (p_fifo.p_buffer p_fifo.read_i)) (off + 1)

/-- `FIFO_DequeueWords`: the number of words dequeued, the FIFO and the caller
buffer afterwards. -/
def FIFO_DequeueWords (p_fifo : FIFO_t) (wordp : Nat → Int) (n : Nat) :
    Nat × FIFO_t × (Nat → Int) :=
  let words_in_fifo := FIFO_WordsFull p_fifo
  let words_to_dequeue := if n > words_in_fifo then words_in_fifo else n
  let words_til_wrap := (p_fifo.buffer_words + 2 ^ 32 - p_fifo.read_i) % 2 ^ 32
  let n := words_to_dequeue
  if n ≥ words_til_wrap then
    let n := n - words_til_wrap
    let l1 := dequeueLoop words_til_wrap p_fifo wordp 0
    let l2 := dequeueLoop n { l1.1 with read_i := 0 } l1.2.1 l1.2.2
    (words_to_dequeue, l2.1, l2.2.1)
  else
    let l2 := dequeueLoop n p_fifo wordp 0
    (words_to_dequeue, l2.1, l2.2.1)

/-- The loop `while (buffer_words <= read_i) read_i -= buffer_words` of
`FIFO_DumpWords` with `fuel` rounds available: `none` when they do not
suffice. -/
def dumpLoop (buffer_words : Nat) : Nat → Nat → Option Nat
  | 0, read_i => if buffer_words ≤ read_i then none else some read_i
  | fuel + 1, read_i =>
    if buffer_words ≤ read_i then dumpLoop buffer_words fuel (read_i - buffer_words)
    else some read_i

/-- `FIFO_DumpWords` run with `fuel` loop rounds available: the number of words
dumped and the FIFO afterwards, `none` when the call has not returned. -/
def FIFO_DumpWords (fuel : Nat) (p_fifo : FIFO_t) (n : Nat) : Option (Nat × FIFO_t) :=
  let words_in_fifo := FIFO_WordsFull p_fifo
  let words_to_erase := if n > words_in_fifo then words_in_fifo else n
  match dumpLoop p_fifo.buffer_words fuel ((p_fifo.read_i + words_to_erase) % 2 ^ 32) with
  | none => none
  | some r => some (words_to_erase, { p_fifo with read_i := r })

/-! ### Notions used to state the properties of the circular buffer -/

/-- Both indices of the FIFO are below its size `N`. -/
def FifoInv (N : Nat) (f : FIFO_t) : Prop :=
  f.buffer_words = N ∧ f.read_i < N ∧ f.write_i < N

instance (N : Nat) (f : FIFO_t) : Decidable (FifoInv N f) := by
  unfold FifoInv
  exact inferInstance

/-- The words the FIFO holds, oldest first: `FIFO_WordsFull` words from `read_i`
on, wrapping at `buffer_words`. -/
def fifoContents (f : FIFO_t) : List Int :=
  (List.range (FIFO_WordsFull f)).map
    (fun i => f.p_buffer ((f.read_i + i) % f.buffer_words))

/-- A call made on a FIFO. -/
inductive FifoOp where
  | enqueue (word : Int)
  | dequeue

/-- A sequence of calls on the FIFO: the FIFO afterwards and the words returned
by the `FIFO_DequeueWord` calls, in order. -/
def fifoExec : FIFO_t → List FifoOp → FIFO_t × List Int
  | f, [] => (f, [])
  | f, FifoOp.enqueue word :: ops => fifoExec (FIFO_EnqueueWord f word) ops
  | f, FifoOp.dequeue :: ops =>
    ((fifoExec (FIFO_DequeueWord f).2 ops).1,
      (FIFO_DequeueWord f).1 :: (fifoExec (FIFO_DequeueWord f).2 ops).2)

/-- Every call of the sequence is made only when allowed: `FIFO_EnqueueWord`
when the FIFO is not full, `FIFO_DequeueWord` when it is not empty. -/
def fifoAllowed : FIFO_t → List FifoOp → Bool
  | _, [] => true
  | f, FifoOp.enqueue word :: ops =>
    !FIFO_IsFull f && fifoAllowed (FIFO_EnqueueWord f word) ops
  | f, FifoOp.dequeue :: ops =>
    !FIFO_IsEmpty f && fifoAllowed (FIFO_DequeueWord f).2 ops

/-- One call on a queue: a word is appended at the tail, or the oldest word is
removed and returned. -/
def queueStep (q : List Int) : FifoOp → List Int × List Int
  | FifoOp.enqueue word => (q ++ [word], [])
  | FifoOp.dequeue => (q.tail, q.head?.toList)

/-- A sequence of calls on a queue: the queue afterwards and the words
returned. -/
def queueRun : List Int → List FifoOp → List Int × List Int
  | q, [] => (q, [])
  | q, op :: ops =>
    ((queueRun (queueStep q op).1 ops).1, (queueStep q op).2 ++ (queueRun (queueStep q op).1 ops).2)

/-- The FIFO after `m` successive calls of `FIFO_DequeueWord`, and the words
they return stored at the offsets `off`, `off + 1`, ... of `out`. -/
def dequeueTimes : Nat → FIFO_t → (Nat → Int) → Nat → FIFO_t × (Nat → Int)
  | 0, f, out, _ => (f, out)
  | m + 1, f, out, off =>
    dequeueTimes m (FIFO_DequeueWord f).2 (setWord out off (FIFO_DequeueWord f).1) (off + 1)

/-- A FIFO of four words whose write index has wrapped: it holds the words at
the indices 3 and 0. -/
def wrappedFifo : FIFO_t :=
  { write_i := 1, read_i := 3, buffer_words := 4, p_buffer := fun i => 10 * i }

/-- A FIFO with nothing set up. -/
def blankFifo : FIFO_t :=
  { write_i := 0, read_i := 0, buffer_words := 0, p_buffer := fun _ => 0 }

/-- Eight calls on a FIFO of four words, during which both indices wrap. -/
def eightCalls : List FifoOp :=
  [FifoOp.enqueue 11, FifoOp.enqueue 12, FifoOp.dequeue, FifoOp.enqueue 13, FifoOp.enqueue 14,
    FifoOp.dequeue, FifoOp.dequeue, FifoOp.enqueue 15]

/-! ## Statements and proofs -/

theorem toByte_val (n : Nat) : (toByte n).val = n % 256 := rfl
theorem leByte_val (v j : Nat) : (leByte v j).val = v / 256 ^ j % 256 := rfl

theorem rd16_lt (b : Mem) (off : Nat) : rd16 b off < 65536 := by
  unfold rd16
  have h0 := (b off).isLt
  have h1 := (b (off + 1)).isLt
  omega

theorem rd32_lt (b : Mem) (off : Nat) : rd32 b off < 2 ^ 32 := by
  unfold rd32
  have h0 := (b off).isLt
  have h1 := (b (off + 1)).isLt
  have h2 := (b (off + 2)).isLt
  have h3 := (b (off + 3)).isLt
  omega

theorem leByte_rd16 (b : Mem) (off j : Nat) (hj : j < 2) :
    leByte (rd16 b off) j = b (off + j) := by
  apply Fin.ext
  rw [leByte_val]
  unfold rd16
  have h0 := (b off).isLt
  have h1 := (b (off + 1)).isLt
  interval_cases j <;> simp
  omega

theorem leByte_rd32 (b : Mem) (off j : Nat) (hj : j < 4) :
    leByte (rd32 b off) j = b (off + j) := by
  apply Fin.ext
  rw [leByte_val]
  unfold rd32
  have h0 := (b off).isLt
  have h1 := (b (off + 1)).isLt
  have h2 := (b (off + 2)).isLt
  have h3 := (b (off + 3)).isLt
  interval_cases j <;> simp <;> omega

theorem inodeAt_decodeTable (b : Mem) (k : Nat) (hk : k < 32) :
    inodeAt (decodeTable b) k = decodeINode b (2 + 9 * k) := by
  unfold inodeAt decodeTable
  simp [BL_FS_BOOT_INFO_INODE_COUNT, BL_FS_INODE_SIZE, List.getD_eq_getElem?_getD, hk]

theorem inodeAt_decodeTable_ge (b : Mem) (k : Nat) (hk : 32 ≤ k) :
    inodeAt (decodeTable b) k = zeroINode := by
  unfold inodeAt decodeTable
  rw [List.getD_eq_getElem?_getD, List.getElem?_eq_none (by simpa [BL_FS_BOOT_INFO_INODE_COUNT] using hk)]
  rfl

theorem encodeTable_inode (t : BL_FSINodeTableBootInfo_t) (k j : Nat) (hk : k < 32)
    (hj : j < 9) : encodeTable t (2 + 9 * k + j) = encodeINode (inodeAt t k) j := by
  unfold encodeTable
  simp only [BL_FS_BOOT_INFO_INODE_COUNT, BL_FS_INODE_SIZE, sizeofINodeTable]
  rw [if_neg (by omega), if_pos (by omega)]
  have h1 : (2 + 9 * k + j - 2) / 9 = k := by omega
  have h2 : (2 + 9 * k + j - 2) % 9 = j := by omega
  rw [h1, h2]

theorem decodeINode_encodeINode (n : BL_FSINode_t) (b : Mem) (off : Nat)
    (h : ∀ j, j < 9 → b (off + j) = encodeINode n j) :
    decodeINode b off = normINode n := by
  have e0 := h 0 (by omega)
  have e1 := h 1 (by omega)
  have e2 := h 2 (by omega)
  have e3 := h 3 (by omega)
  have e4 := h 4 (by omega)
  have e5 := h 5 (by omega)
  have e6 := h 6 (by omega)
  have e7 := h 7 (by omega)
  have e8 := h 8 (by omega)
  simp only [Nat.add_zero] at e0
  unfold decodeINode normINode rd32 rd16
  rw [e0, e1, e2, e3, e4, e5, e6, show off + 7 + 1 = off + 8 from rfl, e7, e8]
  simp [encodeINode, leByte_val, toByte_val]
  constructor <;> omega

theorem encodeINode_decodeINode (b : Mem) (off j : Nat) (hj : j < 9) :
    encodeINode (decodeINode b off) j = b (off + j) := by
  unfold encodeINode decodeINode
  simp only
  by_cases h4 : j < 4
  · rw [if_pos h4]; exact leByte_rd32 b off j h4
  · rw [if_neg h4]
    by_cases h5 : j = 4
    · subst h5; simp; exact Fin.ext (by simp [toByte_val])
    · rw [if_neg h5]
      by_cases h6 : j = 5
      · subst h6; simp; exact Fin.ext (by simp [toByte_val])
      · rw [if_neg h6]
        by_cases h7 : j = 6
        · subst h7; simp; exact Fin.ext (by simp [toByte_val])
        · rw [if_neg h7]
          have := leByte_rd16 b (off + 7) (j - 7) (by omega)
          rw [this]
          exact congrArg b (by omega)

theorem encodeTable_decodeTable (b : Mem) (o : Nat) (ho : o < 296) :
    encodeTable (decodeTable b) o = b o := by
  unfold encodeTable
  simp only [BL_FS_BOOT_INFO_INODE_COUNT, BL_FS_INODE_SIZE, sizeofINodeTable]
  by_cases h1 : o < 2
  · rw [if_pos h1]
    have := leByte_rd16 b 0 o h1
    simpa [decodeTable] using this
  · rw [if_neg h1]
    by_cases h2 : o < 2 + 32 * 9
    · rw [if_pos h2, inodeAt_decodeTable b _ (by omega),
        encodeINode_decodeINode b _ _ (Nat.mod_lt _ (by decide))]
      exact congrArg b (by omega)
    · rw [if_neg h2]
      by_cases h3 : o < 2 + 32 * 9 + 2
      · rw [if_pos h3]
        have := leByte_rd16 b 290 (o - 290) (by omega)
        show leByte (rd16 b 290) (o - 290) = b o
        rw [this]
        exact congrArg b (by omega)
      · rw [if_neg h3]
        have := leByte_rd32 b 292 (o - 292) (by omega)
        show leByte (rd32 b 292) (o - 292) = b o
        rw [this]
        exact congrArg b (by omega)

theorem decodeINode_congr (b c : Mem) (off : Nat) (h : ∀ j, j < 9 → b (off + j) = c (off + j)) :
    decodeINode b off = decodeINode c off := by
  have e0 := h 0 (by omega)
  have e1 := h 1 (by omega)
  have e2 := h 2 (by omega)
  have e3 := h 3 (by omega)
  have e4 := h 4 (by omega)
  have e5 := h 5 (by omega)
  have e6 := h 6 (by omega)
  have e7 := h 7 (by omega)
  have e8 := h 8 (by omega)
  simp only [Nat.add_zero] at e0
  unfold decodeINode rd32 rd16
  rw [e0, e1, e2, e3, e4, e5, e6, show off + 7 + 1 = off + 8 from rfl, e7, e8]

theorem decodeTable_congr (b c : Mem) (h : ∀ o, o < 296 → b o = c o) :
    decodeTable b = decodeTable c := by
  unfold decodeTable rd16 rd32
  simp only [sizeofINodeTable, BL_FS_BOOT_INFO_INODE_COUNT, BL_FS_INODE_SIZE]
  rw [h 0 (by omega), h (0 + 1) (by omega), h 290 (by omega), h (290 + 1) (by omega),
    h (2 + 32 * 9 + 2) (by omega), h (2 + 32 * 9 + 2 + 1) (by omega),
    h (2 + 32 * 9 + 2 + 2) (by omega), h (2 + 32 * 9 + 2 + 3) (by omega)]
  congr 1
  apply List.map_congr_left
  intro i hi
  have hi32 : i < 32 := by simpa using hi
  exact decodeINode_congr b c _ (fun j hj => h _ (by omega))

theorem inodeAt_decode_encode (t : BL_FSINodeTableBootInfo_t) (k : Nat) (hk : k < 32) :
    inodeAt (decodeTable (encodeTable t)) k = normINode (inodeAt t k) := by
  rw [inodeAt_decodeTable _ _ hk]
  exact decodeINode_encodeINode _ _ _ (fun j hj => encodeTable_inode t k j hk hj)

theorem startBytes_decode_encode (t : BL_FSINodeTableBootInfo_t) :
    (decodeTable (encodeTable t)).startBytes = t.startBytes % 65536 := by
  show rd16 (encodeTable t) 0 = _
  unfold rd16 encodeTable
  simp [leByte_val]
  omega

theorem endBytes_decode_encode (t : BL_FSINodeTableBootInfo_t) :
    (decodeTable (encodeTable t)).endBytes = t.endBytes % 65536 := by
  show rd16 (encodeTable t) 290 = _
  unfold rd16 encodeTable
  simp [leByte_val, BL_FS_BOOT_INFO_INODE_COUNT, BL_FS_INODE_SIZE, sizeofINodeTable]
  omega

theorem pad_decode_encode (t : BL_FSINodeTableBootInfo_t) :
    (decodeTable (encodeTable t)).pad = t.pad % 2 ^ 32 := by
  show rd32 (encodeTable t) sizeofINodeTable = _
  unfold rd32 encodeTable
  simp [leByte_val, BL_FS_BOOT_INFO_INODE_COUNT, BL_FS_INODE_SIZE, sizeofINodeTable]
  omega

theorem normINode_decodeINode (b : Mem) (off : Nat) :
    normINode (decodeINode b off) = decodeINode b off := by
  unfold normINode decodeINode
  have h1 := rd32_lt b off
  have h2 := rd16_lt b (off + 7)
  have h3 := (b (off + 4)).isLt
  have h4 := (b (off + 5)).isLt
  have h5 := (b (off + 6)).isLt
  simp only [Nat.mod_eq_of_lt h1, Nat.mod_eq_of_lt h2, Nat.mod_eq_of_lt h3,
    Nat.mod_eq_of_lt h4, Nat.mod_eq_of_lt h5]

theorem normINode_zero : normINode zeroINode = zeroINode := rfl

theorem normINode_inodeAt_decodeTable (b : Mem) (k : Nat) :
    normINode (inodeAt (decodeTable b) k) = inodeAt (decodeTable b) k := by
  by_cases hk : k < 32
  · rw [inodeAt_decodeTable b k hk]; exact normINode_decodeINode _ _
  · rw [inodeAt_decodeTable_ge b k (by omega)]; rfl

theorem length_inodes_decodeTable (b : Mem) : (decodeTable b).inodes.length = 32 := by
  simp [decodeTable, BL_FS_BOOT_INFO_INODE_COUNT]

/-! ### The counting loop -/

theorem firstIndex_eq_some_iff (p : Nat → Bool) (n i k : Nat) :
    firstIndex p n i = some k ↔
      i ≤ k ∧ k < i + n ∧ p k = true ∧ ∀ j, i ≤ j → j < k → p j = false := by
  induction n generalizing i with
  | zero =>
    simp only [firstIndex]
    constructor
    · intro h; cases h
    · intro h; omega
  | succ n ih =>
    simp only [firstIndex]
    by_cases hp : p i = true
    · rw [if_pos hp]
      constructor
      · intro h
        injection h with h
        subst h
        exact ⟨le_refl _, by omega, hp, fun j h1 h2 => by omega⟩
      · rintro ⟨h1, _, _, h4⟩
        by_cases hik : i = k
        · rw [hik]
        · have := h4 i (le_refl _) (by omega)
          rw [hp] at this
          cases this
    · rw [if_neg hp, ih]
      constructor
      · rintro ⟨h1, h2, h3, h4⟩
        refine ⟨by omega, by omega, h3, fun j hj1 hj2 => ?_⟩
        by_cases hij : j = i
        · subst hij; simpa using hp
        · exact h4 j (by omega) hj2
      · rintro ⟨h1, h2, h3, h4⟩
        have hne : i ≠ k := by
          intro h; subst h; exact hp h3
        exact ⟨by omega, by omega, h3, fun j hj1 hj2 => h4 j (by omega) hj2⟩

theorem firstIndex_eq_none_iff (p : Nat → Bool) (n i : Nat) :
    firstIndex p n i = none ↔ ∀ j, i ≤ j → j < i + n → p j = false := by
  induction n generalizing i with
  | zero =>
    simp only [firstIndex]
    constructor
    · intro _ j h1 h2; omega
    · intro _; trivial
  | succ n ih =>
    simp only [firstIndex]
    by_cases hp : p i = true
    · rw [if_pos hp]
      constructor
      · intro h; cases h
      · intro h
        have := h i (le_refl _) (by omega)
        rw [hp] at this
        cases this
    · rw [if_neg hp, ih]
      constructor
      · intro h j hj1 hj2
        by_cases hij : j = i
        · subst hij; simpa using hp
        · exact h j (by omega) (by omega)
      · intro h j hj1 hj2
        exact h j (by omega) (by omega)

/-! ### Loading, looking up and saving the table -/

theorem hasValid_fs (hw : HW) (st : FS) :
    (BL_FSHasValidFileSystem hw st).2 =
      { st with inode_table := persisted hw st.mram } := by
  have h : decodeTable (BL_FSRead (encodeTable st.inode_table) st.mram
      (BL_FS_BOOT_INFO_INODE_TABLE hw) BL_FS_BOOT_INFO_INODE_TABLE_SIZE).2
      = persisted hw st.mram := by
    apply decodeTable_congr
    intro o ho
    simp [BL_FSRead, memcpy, BL_FS_BOOT_INFO_INODE_TABLE_SIZE, BL_FS_BOOT_INFO_INODE_COUNT,
      BL_FS_INODE_SIZE, BL_FS_INODE_START_END_BYTES_SIZE, BL_FS_INODE_64_BIT_ALIGN_PAD, ho]
  unfold BL_FSHasValidFileSystem
  simp only [h]
  split <;> rfl

theorem hasValid_status (hw : HW) (st : FS) :
    (BL_FSHasValidFileSystem hw st).1 =
      if ValidTable hw st.mram then BL_FS_NO_ERROR else BL_FS_VALIDATE_FAILURE := by
  have h : decodeTable (BL_FSRead (encodeTable st.inode_table) st.mram
      (BL_FS_BOOT_INFO_INODE_TABLE hw) BL_FS_BOOT_INFO_INODE_TABLE_SIZE).2
      = persisted hw st.mram := by
    apply decodeTable_congr
    intro o ho
    simp [BL_FSRead, memcpy, BL_FS_BOOT_INFO_INODE_TABLE_SIZE, BL_FS_BOOT_INFO_INODE_COUNT,
      BL_FS_INODE_SIZE, BL_FS_INODE_START_END_BYTES_SIZE, BL_FS_INODE_64_BIT_ALIGN_PAD, ho]
  unfold BL_FSHasValidFileSystem
  simp only [h]
  unfold ValidTable
  split <;> rfl

theorem findFile_eq (hw : HW) (st : FS) (id : Nat) :
    BL_FStoreFindFile hw st id =
      (if ValidTable hw st.mram then
          firstIndex (fun index => (inodeAt (persisted hw st.mram) index).id == id)
            BL_FS_BOOT_INFO_INODE_COUNT 0
        else none, { st with inode_table := persisted hw st.mram }) := by
  unfold BL_FStoreFindFile
  simp only [hasValid_status, hasValid_fs]
  by_cases hv : ValidTable hw st.mram
  · simp only [if_pos hv, if_true]
  · simp only [if_neg hv]
    rfl

theorem findFile_fs (hw : HW) (st : FS) (id : Nat) :
    (BL_FStoreFindFile hw st id).2 = { st with inode_table := persisted hw st.mram } := by
  rw [findFile_eq]

theorem findFile_some (hw : HW) (st : FS) (id k : Nat) (hv : ValidTable hw st.mram)
    (hf : FileAt hw st.mram id k) : (BL_FStoreFindFile hw st id).1 = some k := by
  rw [findFile_eq]
  simp only [if_pos hv]
  rw [firstIndex_eq_some_iff]
  obtain ⟨h1, h2, h3⟩ := hf
  refine ⟨Nat.zero_le _, by omega, by simpa using h2, fun j _ hj => ?_⟩
  simpa using h3 j hj

theorem findFile_none (hw : HW) (st : FS) (id : Nat) (hn : NoFile hw st.mram id) :
    (BL_FStoreFindFile hw st id).1 = none := by
  rw [findFile_eq]
  by_cases hv : ValidTable hw st.mram
  · simp only [if_pos hv]
    rw [firstIndex_eq_none_iff]
    intro j _ hj
    simpa using hn j (by omega)
  · simp only [if_neg hv]

theorem findFile_invalid (hw : HW) (st : FS) (id : Nat) (hv : ¬ ValidTable hw st.mram) :
    (BL_FStoreFindFile hw st id).1 = none := by
  rw [findFile_eq]
  simp only [if_neg hv]

theorem findFile_some_inv (hw : HW) (st : FS) (id k : Nat)
    (h : (BL_FStoreFindFile hw st id).1 = some k) :
    ValidTable hw st.mram ∧ FileAt hw st.mram id k := by
  rw [findFile_eq] at h
  by_cases hv : ValidTable hw st.mram
  · simp only [if_pos hv] at h
    rw [firstIndex_eq_some_iff] at h
    obtain ⟨_, h2, h3, h4⟩ := h
    refine ⟨hv, by omega, by simpa using h3, fun j hj => ?_⟩
    simpa using h4 j (Nat.zero_le _) hj
  · simp only [if_neg hv] at h
    cases h

theorem findFile_none_inv (hw : HW) (st : FS) (id : Nat) (hv : ValidTable hw st.mram)
    (h : (BL_FStoreFindFile hw st id).1 = none) : NoFile hw st.mram id := by
  rw [findFile_eq] at h
  simp only [if_pos hv] at h
  rw [firstIndex_eq_none_iff] at h
  intro k hk
  simpa using h k (Nat.zero_le _) (by omega)

/-! ### Memory after a save of the table -/

theorem withTable_outside (hw : HW) (m : Mem) (t : BL_FSINodeTableBootInfo_t) (a : Nat)
    (h : ¬ InTableRegion hw a) : withTable hw m t a = m a := by
  unfold InTableRegion at h
  unfold withTable memcpy memfill
  simp only [if_neg h]

theorem withTable_inside (hw : HW) (m : Mem) (t : BL_FSINodeTableBootInfo_t) (o : Nat)
    (h : o < 296) : withTable hw m t (BL_FS_BOOT_INFO_INODE_TABLE hw + o) = encodeTable t o := by
  unfold withTable memcpy
  have : BL_FS_BOOT_INFO_INODE_TABLE_SIZE = 296 := rfl
  rw [if_pos (by omega)]
  exact congrArg (encodeTable t) (by omega)

theorem persisted_withTable (hw : HW) (m : Mem) (t : BL_FSINodeTableBootInfo_t) :
    persisted hw (withTable hw m t) = decodeTable (encodeTable t) := by
  unfold persisted
  apply decodeTable_congr
  intro o ho
  exact withTable_inside hw m t o ho

theorem withTable_persisted (hw : HW) (m : Mem) :
    withTable hw m (persisted hw m) = m := by
  funext a
  by_cases h : InTableRegion hw a
  · obtain ⟨h1, h2⟩ := h
    have h296 : BL_FS_BOOT_INFO_INODE_TABLE_SIZE = 296 := rfl
    have ha : a = BL_FS_BOOT_INFO_INODE_TABLE hw + (a - BL_FS_BOOT_INFO_INODE_TABLE hw) := by
      omega
    rw [ha, withTable_inside hw m _ _ (by omega)]
    unfold persisted
    rw [encodeTable_decodeTable _ _ (by omega)]
    rfl
  · exact withTable_outside hw m _ a h

theorem save_eq (hw : HW) (st : FS)
    (he : hw.eraseSeqOk (BL_FS_BOOT_INFO_INODE_TABLE hw) 74 = true)
    (hwr : hw.writeSeqOk (BL_FS_BOOT_INFO_INODE_TABLE hw) 74 = true) :
    BL_FStoreSaveInodeTable hw st =
      (BL_FS_NO_ERROR, { st with mram := withTable hw st.mram st.inode_table }) := by
  have h74 : BL_FS_BOOT_INFO_INODE_TABLE_SIZE >>> 2 = 74 := by decide
  unfold BL_FStoreSaveInodeTable BL_FSWrite MRAM_Erase_Sequential MRAM_WriteBuffer_Sequential
  simp only [h74, he, hwr, if_true]
  rfl

theorem save_no_error_inv (hw : HW) (st : FS)
    (h : (BL_FStoreSaveInodeTable hw st).1 = BL_FS_NO_ERROR) :
    hw.eraseSeqOk (BL_FS_BOOT_INFO_INODE_TABLE hw) 74 = true
      ∧ hw.writeSeqOk (BL_FS_BOOT_INFO_INODE_TABLE hw) 74 = true := by
  have h74 : BL_FS_BOOT_INFO_INODE_TABLE_SIZE >>> 2 = 74 := by decide
  unfold BL_FStoreSaveInodeTable BL_FSWrite MRAM_Erase_Sequential MRAM_WriteBuffer_Sequential
    at h
  simp only [h74] at h
  by_cases he : hw.eraseSeqOk (BL_FS_BOOT_INFO_INODE_TABLE hw) 74 = true
  · by_cases hwr : hw.writeSeqOk (BL_FS_BOOT_INFO_INODE_TABLE hw) 74 = true
    · exact ⟨he, hwr⟩
    · simp [he, hwr] at h
  · simp [he] at h

/-! ### Reading -/

theorem read_of_noFile (hw : HW) (st : FS) (id : Nat) (hn : NoFile hw st.mram id)
    (p_buffer : Mem) (max_size : Nat) :
    BL_FStoreRead hw st id p_buffer max_size =
      { status := BL_FS_MISSING_FILE, buffer := p_buffer, max_size := 0,
        fs := { st with inode_table := persisted hw st.mram } } := by
  unfold BL_FStoreRead
  simp only [findFile_none hw st id hn, findFile_fs]

theorem read_of_fileAt (hw : HW) (st : FS) (id k : Nat) (hv : ValidTable hw st.mram)
    (hf : FileAt hw st.mram id k) (p_buffer : Mem) (max_size : Nat) :
    BL_FStoreRead hw st id p_buffer max_size =
      if (inodeAt (persisted hw st.mram) k).size > max_size then
        { status := BL_FS_INVALID_OPERATION, buffer := p_buffer, max_size := 0,
          fs := { st with inode_table := persisted hw st.mram } }
      else if BL_FSCalculateFileCRC
          (memcpy p_buffer 0 (shiftBuf st.mram (inodeAt (persisted hw st.mram) k).p_fileStartAddr)
            (inodeAt (persisted hw st.mram) k).size)
          ((inodeAt (persisted hw st.mram) k).size >>> 2)
          ≠ (inodeAt (persisted hw st.mram) k).crc then
        { status := BL_FS_CRC_MISMATCH
          buffer := memcpy p_buffer 0
            (shiftBuf st.mram (inodeAt (persisted hw st.mram) k).p_fileStartAddr)
            (inodeAt (persisted hw st.mram) k).size
          max_size := max_size
          fs := { st with inode_table := persisted hw st.mram } }
      else
        { status := BL_FS_NO_ERROR
          buffer := memcpy p_buffer 0
            (shiftBuf st.mram (inodeAt (persisted hw st.mram) k).p_fileStartAddr)
            (inodeAt (persisted hw st.mram) k).size
          max_size := (inodeAt (persisted hw st.mram) k).size
          fs := { st with inode_table := persisted hw st.mram } } := by
  unfold BL_FStoreRead
  simp only [findFile_some hw st id k hv hf, findFile_fs, BL_FSRead, ne_eq,
    not_true_eq_false, if_false]

theorem memcpy_zero_lt (p src : Mem) (n i : Nat) (h : i < n) : memcpy p 0 src n i = src i := by
  unfold memcpy
  rw [if_pos (by omega)]
  rfl

theorem memcpy_zero_ge (p src : Mem) (n i : Nat) (h : n ≤ i) : memcpy p 0 src n i = p i := by
  unfold memcpy
  rw [if_neg (by omega)]

/-! ### Replacing an inode of the cached table -/

theorem inodeAt_set_same (t : BL_FSINodeTableBootInfo_t) (k : Nat) (n : BL_FSINode_t)
    (hk : k < t.inodes.length) :
    inodeAt { t with inodes := t.inodes.set k n } k = n := by
  unfold inodeAt
  simp [List.getD_eq_getElem?_getD, hk]

theorem inodeAt_set_other (t : BL_FSINodeTableBootInfo_t) (k j : Nat) (n : BL_FSINode_t)
    (hj : j ≠ k) :
    inodeAt { t with inodes := t.inodes.set k n } j = inodeAt t j := by
  unfold inodeAt
  simp [List.getD_eq_getElem?_getD, List.getElem?_set, Ne.symm hj]

/-- The persisted table after the table `persisted hw m` with inode `k` replaced
by `n` has been written back. -/
theorem inodeAt_persisted_withTable_set (hw : HW) (m m0 : Mem) (k j : Nat) (n : BL_FSINode_t)
    (hk : k < 32) (hj : j < 32) :
    inodeAt (persisted hw (withTable hw m
        { persisted hw m0 with inodes := (persisted hw m0).inodes.set k n })) j
      = if j = k then normINode n else inodeAt (persisted hw m0) j := by
  rw [persisted_withTable, inodeAt_decode_encode _ _ hj]
  by_cases hjk : j = k
  · subst hjk
    rw [if_pos rfl, inodeAt_set_same]
    unfold persisted
    rw [length_inodes_decodeTable]
    exact hj
  · rw [if_neg hjk, inodeAt_set_other _ _ _ _ hjk]
    exact normINode_inodeAt_decodeTable _ _

theorem markers_persisted_withTable_set (hw : HW) (m m0 : Mem) (l : List BL_FSINode_t) :
    (persisted hw (withTable hw m { persisted hw m0 with inodes := l })).startBytes
        = (persisted hw m0).startBytes
      ∧ (persisted hw (withTable hw m { persisted hw m0 with inodes := l })).endBytes
        = (persisted hw m0).endBytes := by
  rw [persisted_withTable, startBytes_decode_encode, endBytes_decode_encode]
  constructor
  · exact Nat.mod_eq_of_lt (rd16_lt _ _)
  · exact Nat.mod_eq_of_lt (rd16_lt _ _)

theorem validTable_withTable_set (hw : HW) (m m0 : Mem) (l : List BL_FSINode_t)
    (hv : ValidTable hw m0) :
    ValidTable hw (withTable hw m { persisted hw m0 with inodes := l }) := by
  obtain ⟨h1, h2⟩ := markers_persisted_withTable_set hw m m0 l
  unfold ValidTable
  rw [h1, h2]
  exact hv

theorem not_inTable_of_inData (hw : HW) (a : Nat) (h : InDataRegion hw a) :
    ¬ InTableRegion hw a := by
  unfold InDataRegion BL_FS_BOOT_INFO_DATA_SPACE at h
  unfold InTableRegion
  omega

/-! ### Deleting -/

theorem deleteLoop_pos (remaining : Nat) (h : remaining > 0) (fuel p_sector mask word : Nat) :
    deleteLoop remaining fuel p_sector mask word = none := by
  induction fuel generalizing p_sector mask word with
  | zero => simp [deleteLoop, h]
  | succ fuel ih =>
    unfold deleteLoop
    simp only [if_pos h]
    split
    · exact ih _ _ _
    · exact ih _ _ _

theorem deleteLoop_zero (fuel p_sector mask word : Nat) :
    deleteLoop 0 fuel p_sector mask word = some (p_sector, mask, word) := by
  cases fuel <;> simp [deleteLoop]

theorem delete_of_noFile (fuel : Nat) (hw : HW) (st : FS) (id : Nat)
    (hn : NoFile hw st.mram id) :
    BL_FStoreDelete fuel hw st id =
      some (BL_FS_MISSING_FILE, { st with inode_table := persisted hw st.mram }) := by
  unfold BL_FStoreDelete
  simp only [findFile_none hw st id hn, findFile_fs]

theorem delete_of_size_pos (fuel : Nat) (hw : HW) (st : FS) (id k : Nat)
    (hv : ValidTable hw st.mram) (hf : FileAt hw st.mram id k)
    (hs : (inodeAt (persisted hw st.mram) k).size ≠ 0) :
    BL_FStoreDelete fuel hw st id = none := by
  unfold BL_FStoreDelete
  simp only [findFile_some hw st id k hv hf, findFile_fs]
  rw [deleteLoop_pos _ (Nat.pos_of_ne_zero hs)]

theorem delete_of_size_zero (fuel : Nat) (hw : HW) (st : FS) (id k : Nat)
    (hv : ValidTable hw st.mram) (hf : FileAt hw st.mram id k)
    (hs : (inodeAt (persisted hw st.mram) k).size = 0) :
    BL_FStoreDelete fuel hw st id =
      some (BL_FStoreSaveInodeTable hw
        (setINode { st with inode_table := persisted hw st.mram } k zeroINode)) := by
  unfold BL_FStoreDelete
  simp only [findFile_some hw st id k hv hf, findFile_fs, hs, deleteLoop_zero]

/-! ### Missing files, small buffers, the integrity decision -/

/-- C7. On a valid table, for an id that no inode carries: `BL_FStoreRead` returns
`BL_FS_MISSING_FILE` and reports 0 bytes, `BL_FStoreDelete` returns
`BL_FS_MISSING_FILE` (whatever the fuel), `BL_FStoreFileSize` returns `0xFFFF`,
`BL_FStoreFileExists` returns false, and none of the four calls changes the
non-volatile memory. -/
theorem missing_file (hw : HW) (st : FS) (id : Nat) (_hv : ValidTable hw st.mram)
    (_hid : id ≠ 0) (hno : NoFile hw st.mram id) (p_buffer : Mem) (max_size fuel : Nat) :
    (BL_FStoreRead hw st id p_buffer max_size).status = BL_FS_MISSING_FILE
      ∧ (BL_FStoreRead hw st id p_buffer max_size).max_size = 0
      ∧ (BL_FStoreRead hw st id p_buffer max_size).buffer = p_buffer
      ∧ (BL_FStoreRead hw st id p_buffer max_size).fs.mram = st.mram
      ∧ (BL_FStoreDelete fuel hw st id).map Prod.fst = some BL_FS_MISSING_FILE
      ∧ (BL_FStoreDelete fuel hw st id).map (fun r => r.2.mram) = some st.mram
      ∧ (BL_FStoreFileSize hw st id).1 = 0xFFFF
      ∧ (BL_FStoreFileSize hw st id).2.mram = st.mram
      ∧ (BL_FStoreFileExists hw st id).1 = false
      ∧ (BL_FStoreFileExists hw st id).2.mram = st.mram := by
  rw [read_of_noFile hw st id hno, delete_of_noFile fuel hw st id hno]
  unfold BL_FStoreFileSize BL_FStoreFileExists
  simp only [findFile_none hw st id hno, findFile_fs]
  simp

theorem missing_file_witness :
    (BL_FStoreRead okHW freshFS 5 (fun _ => 0) 16).status = BL_FS_MISSING_FILE
      ∧ (BL_FStoreFileSize okHW freshFS 5).1 = 0xFFFF :=
  have h := missing_file okHW freshFS 5 (by decide!) (by decide) (by decide!) (fun _ => 0) 16 0
  ⟨h.1, h.2.2.2.2.2.2.1⟩

/-- C10. On a valid table, reading an existing file whose size field exceeds
`*p_max_size` returns `BL_FS_INVALID_OPERATION`, leaves the caller buffer as it
was and sets `*p_max_size` to 0. -/
theorem read_buffer_too_small (hw : HW) (st : FS) (id k : Nat) (hv : ValidTable hw st.mram)
    (hf : FileAt hw st.mram id k) (p_buffer : Mem) (max_size : Nat)
    (hs : (inodeAt (persisted hw st.mram) k).size > max_size) :
    (BL_FStoreRead hw st id p_buffer max_size).status = BL_FS_INVALID_OPERATION
      ∧ (BL_FStoreRead hw st id p_buffer max_size).buffer = p_buffer
      ∧ (BL_FStoreRead hw st id p_buffer max_size).max_size = 0 := by
  rw [read_of_fileAt hw st id k hv hf, if_pos hs]
  exact ⟨rfl, rfl, rfl⟩

theorem read_buffer_too_small_witness :
    (BL_FStoreRead okHW freshFS 1 (fun _ => 0) 4).status = BL_FS_INVALID_OPERATION
      ∧ (BL_FStoreRead okHW freshFS 1 (fun _ => 0) 4).max_size = 0 :=
  have h := read_buffer_too_small okHW freshFS 1 0 (by decide!) (by decide!) (fun _ => 0) 4
    (by decide!)
  ⟨h.1, h.2.2⟩

/-- C9. On a valid table, reading an existing file whose size field is at most
`*p_max_size` copies the `size` bytes stored at the start address into the
buffer; it returns `BL_FS_CRC_MISMATCH` if the CRC computed over the buffer
differs from the crc field, and otherwise `BL_FS_NO_ERROR` with `*p_max_size`
set to the size field. -/
theorem read_integrity_decision (hw : HW) (st : FS) (id k : Nat) (hv : ValidTable hw st.mram)
    (hf : FileAt hw st.mram id k) (p_buffer : Mem) (max_size : Nat)
    (hs : (inodeAt (persisted hw st.mram) k).size ≤ max_size) :
    (∀ i, i < (inodeAt (persisted hw st.mram) k).size →
        (BL_FStoreRead hw st id p_buffer max_size).buffer i
          = st.mram ((inodeAt (persisted hw st.mram) k).p_fileStartAddr + i))
      ∧ (BL_FSCalculateFileCRC (BL_FStoreRead hw st id p_buffer max_size).buffer
            ((inodeAt (persisted hw st.mram) k).size >>> 2)
          ≠ (inodeAt (persisted hw st.mram) k).crc →
        (BL_FStoreRead hw st id p_buffer max_size).status = BL_FS_CRC_MISMATCH)
      ∧ (BL_FSCalculateFileCRC (BL_FStoreRead hw st id p_buffer max_size).buffer
            ((inodeAt (persisted hw st.mram) k).size >>> 2)
          = (inodeAt (persisted hw st.mram) k).crc →
        (BL_FStoreRead hw st id p_buffer max_size).status = BL_FS_NO_ERROR
          ∧ (BL_FStoreRead hw st id p_buffer max_size).max_size
            = (inodeAt (persisted hw st.mram) k).size) := by
  rw [read_of_fileAt hw st id k hv hf, if_neg (by omega)]
  by_cases hc : BL_FSCalculateFileCRC
      (memcpy p_buffer 0 (shiftBuf st.mram (inodeAt (persisted hw st.mram) k).p_fileStartAddr)
        (inodeAt (persisted hw st.mram) k).size)
      ((inodeAt (persisted hw st.mram) k).size >>> 2) = (inodeAt (persisted hw st.mram) k).crc
  · rw [if_neg (not_not.mpr hc)]
    refine ⟨fun i hi => memcpy_zero_lt _ _ _ _ hi, fun h => absurd hc h, fun _ => ⟨rfl, rfl⟩⟩
  · rw [if_pos hc]
    refine ⟨fun i hi => memcpy_zero_lt _ _ _ _ hi, fun _ => rfl, fun h => absurd h hc⟩

theorem read_integrity_decision_witness :
    (BL_FStoreRead okHW freshFS 1 (fun _ => 0) 8).status = BL_FS_NO_ERROR
      ∧ (BL_FStoreRead okHW freshFS 1 (fun _ => 0) 8).max_size = 8 :=
  (read_integrity_decision okHW freshFS 1 0 (by decide!) (by decide!) (fun _ => 0) 8
    (by decide!)).2.2 (by decide!)

/-! ### Deleting a file -/

/-- C3 (the code diverges). On a valid table, `BL_FStoreDelete` of an existing
file whose size field is not zero does not return, whatever the number of loop
iterations granted: the loop `while (remaining > 0)` never changes `remaining`. -/
theorem delete_never_returns (hw : HW) (st : FS) (id k : Nat) (hv : ValidTable hw st.mram)
    (hf : FileAt hw st.mram id k) (hs : (inodeAt (persisted hw st.mram) k).size ≠ 0)
    (fuel : Nat) : BL_FStoreDelete fuel hw st id = none :=
  delete_of_size_pos fuel hw st id k hv hf hs

theorem delete_never_returns_witness : BL_FStoreDelete 1000000 okHW freshFS 1 = none :=
  delete_never_returns okHW freshFS 1 0 (by decide!) (by decide!) (by decide!) 1000000

/-- C8. On a valid table, whenever `BL_FStoreDelete` of an existing file returns
`BL_FS_NO_ERROR`, the persisted inode of that file is all zero, every other
persisted inode and both markers are unchanged, and so is every byte of the
data region. -/
theorem delete_frame (fuel : Nat) (hw : HW) (st : FS) (id k : Nat)
    (r : BL_FStoreStatus_t × FS) (hv : ValidTable hw st.mram) (_hid : id ≠ 0)
    (hf : FileAt hw st.mram id k) (hr : BL_FStoreDelete fuel hw st id = some r)
    (hok : r.1 = BL_FS_NO_ERROR) :
    inodeAt (persisted hw r.2.mram) k = zeroINode
      ∧ (∀ j, j < BL_FS_BOOT_INFO_INODE_COUNT → j ≠ k →
          inodeAt (persisted hw r.2.mram) j = inodeAt (persisted hw st.mram) j)
      ∧ (persisted hw r.2.mram).startBytes = (persisted hw st.mram).startBytes
      ∧ (persisted hw r.2.mram).endBytes = (persisted hw st.mram).endBytes
      ∧ ∀ a, InDataRegion hw a → r.2.mram a = st.mram a := by
  have hk : k < 32 := hf.1
  by_cases hs : (inodeAt (persisted hw st.mram) k).size = 0
  · rw [delete_of_size_zero fuel hw st id k hv hf hs] at hr
    injection hr with hr
    subst hr
    obtain ⟨he, hwr⟩ := save_no_error_inv hw _ hok
    rw [save_eq hw _ he hwr]
    simp only [setINode]
    refine ⟨?_, ?_, ?_, ?_, ?_⟩
    · rw [inodeAt_persisted_withTable_set hw _ _ k k _ hk hk, if_pos rfl]
      rfl
    · intro j hj hjk
      rw [inodeAt_persisted_withTable_set hw _ _ k j _ hk hj, if_neg hjk]
    · exact (markers_persisted_withTable_set hw _ _ _).1
    · exact (markers_persisted_withTable_set hw _ _ _).2
    · intro a ha
      exact withTable_outside hw _ _ a (not_inTable_of_inData hw a ha)
  · rw [delete_of_size_pos fuel hw st id k hv hf hs] at hr
    cases hr

theorem delete_frame_witness :
    inodeAt (persisted okHW (BL_FStoreSaveInodeTable okHW
        (setINode { zeroSizeFS with inode_table := persisted okHW zeroSizeFS.mram } 0
          zeroINode)).2.mram) 0 = zeroINode :=
  (delete_frame 0 okHW zeroSizeFS 5 0 _ (by decide!) (by decide)
    (by decide!) (delete_of_size_zero 0 okHW zeroSizeFS 5 0 (by decide!) (by decide!)
      (by decide!)) (by decide!)).1

/-! ### The CRC of a buffer -/

theorem crcShift_lt (s : Nat) (b : Bool) : crcShift s b < 65536 := by
  unfold crcShift
  have h : (2 * s) % 65536 < 2 ^ 16 := Nat.mod_lt _ (by decide)
  split
  · exact Nat.xor_lt_two_pow h (by decide)
  · exact h

theorem foldl_crcShift_lt (l : List Bool) (s : Nat) (hs : s < 65536) :
    l.foldl crcShift s < 65536 := by
  induction l generalizing s with
  | nil => exact hs
  | cons b l ih => exact ih _ (crcShift_lt s b)

theorem CRC_ADD_32_lt (s w : Nat) (hs : s < 65536) : CRC_ADD_32 s w < 65536 :=
  foldl_crcShift_lt _ s hs

theorem crcLoop_lt (p : Mem) (n i s : Nat) (hs : s < 65536) : crcLoop p n i s < 65536 := by
  induction n generalizing i s with
  | zero => exact hs
  | succ n ih => exact ih _ _ (CRC_ADD_32_lt _ _ hs)

theorem BL_FSCalculateFileCRC_lt (p : Mem) (n : Nat) : BL_FSCalculateFileCRC p n < 65536 :=
  Nat.mod_lt _ (by decide)

theorem rd32_congr (b c : Mem) (off : Nat) (h : ∀ j, j < 4 → b (off + j) = c (off + j)) :
    rd32 b off = rd32 c off := by
  have e0 := h 0 (by omega)
  have e1 := h 1 (by omega)
  have e2 := h 2 (by omega)
  have e3 := h 3 (by omega)
  simp only [Nat.add_zero] at e0
  unfold rd32
  rw [e0, e1, e2, e3]

theorem crcLoop_congr (b c : Mem) (n i s : Nat)
    (h : ∀ j, 4 * i ≤ j → j < 4 * (i + n) → b j = c j) :
    crcLoop b n i s = crcLoop c n i s := by
  induction n generalizing i s with
  | zero => rfl
  | succ n ih =>
    unfold crcLoop
    rw [rd32_congr b c (4 * i) (fun j hj => h _ (by omega) (by omega))]
    exact ih _ _ (fun j h1 h2 => h j (by omega) (by omega))

theorem BL_FSCalculateFileCRC_congr (b c : Mem) (n : Nat) (hn : n < 256)
    (h : ∀ j, j < 4 * n → b j = c j) :
    BL_FSCalculateFileCRC b n = BL_FSCalculateFileCRC c n := by
  unfold BL_FSCalculateFileCRC
  rw [Nat.mod_eq_of_lt hn, crcLoop_congr b c n 0 _ (fun j _ hj => h j (by omega))]

/-! ### Making the file system -/

theorem readDoubleWord_crc (hw : HW) (m : Mem) (a : Nat) (h : hw.readDoubleOk a = true) :
    BL_FSCalculateFileCRC (MRAM_ReadDoubleWord hw m a) 2
      = BL_FSCalculateFileCRC (shiftBuf m a) 2 := by
  apply BL_FSCalculateFileCRC_congr _ _ 2 (by decide)
  intro j hj
  unfold MRAM_ReadDoubleWord shiftBuf
  rw [if_pos h]
  show (if j < 8 then m (a + j) else 0) = m (a + j)
  rw [if_pos (by omega)]

theorem findFreeInode_empty (m : Mem) (pad : Nat) :
    BL_FStoreFindFreeInode { mram := m, inode_table := emptyTable pad }
      = (some 0, { mram := m, inode_table := emptyTable pad }) := rfl

theorem validate_eq (hw : HW) (st : FS) :
    BL_FStoreValidate hw st =
      (if ValidTable hw st.mram then BL_FS_NO_ERROR else BL_FS_VALIDATE_FAILURE,
        { st with inode_table := persisted hw st.mram }) := by
  unfold BL_FStoreValidate
  simp only [hasValid_status, hasValid_fs]
  by_cases hv : ValidTable hw st.mram
  · simp [hv]
  · simp [hv]

theorem make_eq (hw : HW) (hall : hw.AllSucceed) (st : FS) :
    BL_FStoreMakeInfoFilesystem hw st =
      (BL_FS_NO_ERROR,
        { mram := madeMem hw st.mram st.inode_table.pad
          inode_table := persisted hw (madeMem hw st.mram st.inode_table.pad) }) := by
  obtain ⟨h1, h2, h3, h4, h5⟩ := hall
  have hv : ValidTable hw (madeMem hw st.mram st.inode_table.pad) := by
    unfold ValidTable madeMem
    rw [persisted_withTable, startBytes_decode_encode, endBytes_decode_encode]
    exact ⟨rfl, rfl⟩
  unfold BL_FStoreMakeInfoFilesystem MRAM_Erase_NonSequential MRAM_WriteBuffer_NonSequential
  simp only [h3, h4, if_true]
  have e1 : 4 * (BL_FS_BOOT_INFO_INODE_TABLE_SIZE >>> 2) = 296 := by decide
  have e2 : 4 * ((BL_FS_BOOT_INFO_SIZE - 8) >>> 2) = 720 := by decide
  rw [e1, e2]
  rw [findFreeInode_empty]
  simp only [Bool.true_eq_false, if_false]
  rw [show (8 : Nat) >>> 2 = 2 from rfl,
    readDoubleWord_crc hw _ _ (h5 _), save_eq hw _ (h1 _ _) (h2 _ _), validate_eq]
  simp only [setINode]
  show (if ValidTable hw (madeMem hw st.mram st.inode_table.pad) then BL_FS_NO_ERROR
      else BL_FS_VALIDATE_FAILURE, _) = _
  rw [if_pos hv]
  rfl

theorem inodeAt_seededTable_zero (hw : HW) (m : Mem) (pad : Nat) :
    inodeAt (seededTable hw m pad) 0 = seededINode hw m := rfl

theorem getD_replicate_self (n k : Nat) (a : BL_FSINode_t) :
    (List.replicate n a).getD k a = a := by
  rw [List.getD_eq_getElem?_getD, List.getElem?_replicate]
  split <;> rfl

theorem inodeAt_seededTable_succ (hw : HW) (m : Mem) (pad k : Nat) :
    inodeAt (seededTable hw m pad) (k + 1) = zeroINode := by
  simp only [inodeAt, seededTable, List.getD_cons_succ]
  exact getD_replicate_self 31 k zeroINode

theorem initialize_eq (hw : HW) (hall : hw.AllSucceed) (st : FS)
    (hinv : ¬ ValidTable hw st.mram) :
    BL_FStoreInitializeInfoStorage hw st =
      (BL_FS_NO_ERROR,
        { mram := madeMem hw st.mram (persisted hw st.mram).pad
          inode_table := persisted hw (madeMem hw st.mram (persisted hw st.mram).pad) }) := by
  unfold BL_FStoreInitializeInfoStorage
  simp only [validate_eq, if_neg hinv, if_true]
  rw [make_eq hw hall]

theorem initialize_valid (hw : HW) (st : FS) (hv : ValidTable hw st.mram) :
    BL_FStoreInitializeInfoStorage hw st =
      (BL_FS_NO_ERROR, { st with inode_table := persisted hw st.mram }) := by
  unfold BL_FStoreInitializeInfoStorage
  simp only [validate_eq, if_pos hv]
  rfl

theorem validTable_madeMem (hw : HW) (m : Mem) (pad : Nat) : ValidTable hw (madeMem hw m pad) := by
  unfold ValidTable madeMem
  rw [persisted_withTable, startBytes_decode_encode, endBytes_decode_encode]
  exact ⟨rfl, rfl⟩

theorem dataSpace_lt (hw : HW) (hfit : hw.AddressesFit) :
    BL_FS_BOOT_INFO_DATA_SPACE hw < 2 ^ 32 := by
  unfold HW.AddressesFit BL_BOOT_INFO_STORAGE_SIZE at hfit
  unfold BL_FS_BOOT_INFO_DATA_SPACE BL_FS_BOOT_INFO_INODE_TABLE
  have : BL_FS_BOOT_INFO_INODE_TABLE_SIZE = 296 := rfl
  omega

theorem inodeAt_madeMem_zero (hw : HW) (hfit : hw.AddressesFit) (m : Mem) (pad : Nat) :
    inodeAt (persisted hw (madeMem hw m pad)) 0 =
      { p_fileStartAddr := BL_FS_BOOT_INFO_DATA_SPACE hw
        id := BL_FS_SIZE_AND_CRC_ID
        flags := BL_FS_CAN_READ ||| BL_FS_CAN_WRITE
        size := 8
        crc := BL_FSCalculateFileCRC (shiftBuf m (BL_FS_BOOT_INFO_DATA_SPACE hw)) 2 } := by
  unfold madeMem
  rw [persisted_withTable, inodeAt_decode_encode _ _ (by decide), inodeAt_seededTable_zero]
  unfold normINode seededINode
  have hD := dataSpace_lt hw hfit
  have hcrc : BL_FSCalculateFileCRC (shiftBuf (erasedMem hw m pad) (BL_FS_BOOT_INFO_DATA_SPACE hw)) 2
      = BL_FSCalculateFileCRC (shiftBuf m (BL_FS_BOOT_INFO_DATA_SPACE hw)) 2 := by
    apply BL_FSCalculateFileCRC_congr _ _ 2 (by decide)
    intro j hj
    unfold shiftBuf erasedMem memcpy memfill BL_FS_BOOT_INFO_DATA_SPACE
    have : BL_FS_BOOT_INFO_INODE_TABLE_SIZE = 296 := rfl
    rw [if_neg (by omega), if_neg (by omega), if_neg (by omega)]
  simp only [Nat.mod_mod, Nat.mod_eq_of_lt hD, hcrc,
    Nat.mod_eq_of_lt (BL_FSCalculateFileCRC_lt _ _)]
  rfl

theorem inodeAt_madeMem_succ (hw : HW) (m : Mem) (pad k : Nat) (hk : k + 1 < 32) :
    inodeAt (persisted hw (madeMem hw m pad)) (k + 1) = zeroINode := by
  unfold madeMem
  rw [persisted_withTable, inodeAt_decode_encode _ _ hk, inodeAt_seededTable_succ]
  rfl

theorem madeMem_dataBase (hw : HW) (m : Mem) (pad j : Nat) (hj : j < 8) :
    madeMem hw m pad (BL_FS_BOOT_INFO_DATA_SPACE hw + j) = m (BL_FS_BOOT_INFO_DATA_SPACE hw + j) := by
  unfold madeMem
  rw [withTable_outside]
  · unfold erasedMem memcpy memfill BL_FS_BOOT_INFO_DATA_SPACE
    have : BL_FS_BOOT_INFO_INODE_TABLE_SIZE = 296 := rfl
    rw [if_neg (by omega), if_neg (by omega), if_neg (by omega)]
  · unfold InTableRegion BL_FS_BOOT_INFO_DATA_SPACE
    omega

theorem okHW_allSucceed : okHW.AllSucceed :=
  ⟨fun _ _ => rfl, fun _ _ => rfl, fun _ _ => rfl, fun _ _ => rfl, fun _ => rfl⟩

theorem okHW_addressesFit : okHW.AddressesFit := by decide

/-- C6. With every memory primitive succeeding, on a memory whose table markers
are invalid `BL_FStoreInitializeInfoStorage` returns `BL_FS_NO_ERROR`;
afterwards `BL_FStoreValidate` succeeds, inode 0 carries id 1, the base of the
data space as start address, size 8 and the flags read and write, the inodes
1 to 31 are all zero, and `BL_FStoreRead` of id 1 into a buffer of at least 8
bytes returns `BL_FS_NO_ERROR`. -/
theorem fresh_bring_up (hw : HW) (hall : hw.AllSucceed) (hfit : hw.AddressesFit) (st : FS)
    (hinv : ¬ ValidTable hw st.mram) :
    (BL_FStoreInitializeInfoStorage hw st).1 = BL_FS_NO_ERROR
      ∧ (BL_FStoreValidate hw (BL_FStoreInitializeInfoStorage hw st).2).1 = BL_FS_NO_ERROR
      ∧ (inodeAt (persisted hw (BL_FStoreInitializeInfoStorage hw st).2.mram) 0).id
          = BL_FS_SIZE_AND_CRC_ID
      ∧ (inodeAt (persisted hw (BL_FStoreInitializeInfoStorage hw st).2.mram) 0).p_fileStartAddr
          = BL_FS_BOOT_INFO_DATA_SPACE hw
      ∧ (inodeAt (persisted hw (BL_FStoreInitializeInfoStorage hw st).2.mram) 0).size = 8
      ∧ (inodeAt (persisted hw (BL_FStoreInitializeInfoStorage hw st).2.mram) 0).flags
          = BL_FS_CAN_READ ||| BL_FS_CAN_WRITE
      ∧ (∀ k, 1 ≤ k → k < BL_FS_BOOT_INFO_INODE_COUNT →
          inodeAt (persisted hw (BL_FStoreInitializeInfoStorage hw st).2.mram) k = zeroINode)
      ∧ ∀ (p_buffer : Mem) (max_size : Nat), 8 ≤ max_size →
          (BL_FStoreRead hw (BL_FStoreInitializeInfoStorage hw st).2 1 p_buffer max_size).status
            = BL_FS_NO_ERROR := by
  rw [initialize_eq hw hall st hinv]
  simp only
  have hv := validTable_madeMem hw st.mram (persisted hw st.mram).pad
  have h0 := inodeAt_madeMem_zero hw hfit st.mram (persisted hw st.mram).pad
  refine ⟨trivial, ?_, ?_, ?_, ?_, ?_, ?_, ?_⟩
  · rw [validate_eq]
    simp only [if_pos hv]
  · rw [h0]
  · rw [h0]
  · rw [h0]
  · rw [h0]
  · intro k hk1 hk2
    obtain ⟨j, rfl⟩ : ∃ j, k = j + 1 := ⟨k - 1, by omega⟩
    exact inodeAt_madeMem_succ hw _ _ j hk2
  · intro p_buffer max_size hcap
    have hf : FileAt hw (madeMem hw st.mram (persisted hw st.mram).pad) 1 0 := by
      refine ⟨by decide, ?_, fun j hj => absurd hj (Nat.not_lt_zero j)⟩
      rw [h0]
      rfl
    rw [read_of_fileAt hw
      { mram := madeMem hw st.mram (persisted hw st.mram).pad
        inode_table := persisted hw (madeMem hw st.mram (persisted hw st.mram).pad) }
      1 0 hv hf]
    simp only [h0]
    have hsz : ¬ (8 > max_size) := by omega
    rw [if_neg hsz, if_neg]
    rw [not_not]
    apply BL_FSCalculateFileCRC_congr _ _ _ (by decide)
    intro j hj
    have hj8 : j < 8 := hj
    rw [memcpy_zero_lt _ _ _ _ hj8]
    exact madeMem_dataBase hw _ _ j hj8

theorem fresh_bring_up_witness :
    (BL_FStoreInitializeInfoStorage okHW rawFS).1 = BL_FS_NO_ERROR
      ∧ (BL_FStoreValidate okHW (BL_FStoreInitializeInfoStorage okHW rawFS).2).1
          = BL_FS_NO_ERROR :=
  have h := fresh_bring_up okHW okHW_allSucceed okHW_addressesFit rawFS (by decide!)
  ⟨h.1, h.2.1⟩

/-! ### Creating a file -/

theorem findFreeInode_some (hw : HW) (m : Mem) (p : Nat) (hf : FreeAt hw m p) :
    BL_FStoreFindFreeInode { mram := m, inode_table := persisted hw m }
      = (some p, setINode { mram := m, inode_table := persisted hw m } p zeroINode) := by
  obtain ⟨h1, h2, h3⟩ := hf
  have h : firstIndex (fun index => (inodeAt (persisted hw m) index).id == 0
      && (inodeAt (persisted hw m) index).size == 0) BL_FS_BOOT_INFO_INODE_COUNT 0 = some p := by
    rw [firstIndex_eq_some_iff]
    refine ⟨Nat.zero_le _, by omega, by simpa using h2, fun j _ hj => ?_⟩
    have := h3 j hj
    simpa using this
  unfold BL_FStoreFindFreeInode
  simp only [h]

theorem findFreeInode_none (hw : HW) (m : Mem) (hn : NoFree hw m) :
    BL_FStoreFindFreeInode { mram := m, inode_table := persisted hw m }
      = (none, { mram := m, inode_table := persisted hw m }) := by
  have h : firstIndex (fun index => (inodeAt (persisted hw m) index).id == 0
      && (inodeAt (persisted hw m) index).size == 0) BL_FS_BOOT_INFO_INODE_COUNT 0 = none := by
    rw [firstIndex_eq_none_iff]
    intro j _ hj
    have := hn j (by omega)
    simpa using this
  unfold BL_FStoreFindFreeInode
  simp only [h]

theorem findFreeBlock_eq (hw : HW) (st : FS) (p size : Nat)
    (hp : p < BL_FS_BOOT_INFO_INODE_COUNT) :
    BL_FStoreFindFreeBlock hw st p size = (BL_FS_NO_ERROR, allocAddr hw st.inode_table p) := by
  have h : firstIndex (fun index => index == p) BL_FS_BOOT_INFO_INODE_COUNT 0 = some p := by
    rw [firstIndex_eq_some_iff]
    refine ⟨Nat.zero_le _, by omega, by simp, fun j _ hj => ?_⟩
    simp
    omega
  unfold BL_FStoreFindFreeBlock allocAddr
  simp only [h]
  split <;> rfl

theorem BL_FSWrite_ok (hw : HW) (m : Mem) (addr : Nat) (buf : Mem) (size : Nat)
    (he : hw.eraseSeqOk addr (size >>> 2) = true) (hwr : hw.writeSeqOk addr (size >>> 2) = true) :
    BL_FSWrite hw m addr buf size = (BL_FS_NO_ERROR, dataWrite hw m addr buf size) := by
  unfold BL_FSWrite MRAM_Erase_Sequential MRAM_WriteBuffer_Sequential dataWrite
  simp only [he, hwr, if_true]
  rfl

theorem allocAddr_set (hw : HW) (t : BL_FSINodeTableBootInfo_t) (p : Nat) (n : BL_FSINode_t) :
    allocAddr hw { t with inodes := t.inodes.set p n } p = allocAddr hw t p := by
  unfold allocAddr
  by_cases hp : p = 0
  · simp [hp]
  · rw [if_pos hp, if_pos hp, inodeAt_set_other _ _ _ _ (by omega)]

theorem newFile_eq (hw : HW) (hall : hw.AllSucceed) (m : Mem) (p id : Nat) (buf : Mem)
    (size flags : Nat) (hf : FreeAt hw m p) :
    BL_FStoreNewFile hw { mram := m, inode_table := persisted hw m } id buf size flags =
      (BL_FS_NO_ERROR,
        { mram := withTable hw
            (dataWrite hw m (allocAddr hw (persisted hw m) p) buf (clampSize size))
            (committedTable (persisted hw m) p
              (workingINode (allocAddr hw (persisted hw m) p) id buf size flags))
          inode_table := committedTable (persisted hw m) p
            (workingINode (allocAddr hw (persisted hw m) p) id buf size flags) }) := by
  obtain ⟨h1, h2, _, _, _⟩ := hall
  unfold BL_FStoreNewFile
  simp only [findFreeInode_some hw m p hf, findFreeBlock_eq hw _ p _ hf.1, setINode,
    allocAddr_set, ne_eq, not_true_eq_false, if_false]
  rw [BL_FSWrite_ok hw _ _ _ _ (h1 _ _) (h2 _ _)]
  simp only [ne_eq, not_true_eq_false, if_false]
  rw [save_eq hw _ (h1 _ _) (h2 _ _)]
  rfl

theorem newFile_full (hw : HW) (m : Mem) (id : Nat) (buf : Mem) (size flags : Nat)
    (hn : NoFree hw m) :
    BL_FStoreNewFile hw { mram := m, inode_table := persisted hw m } id buf size flags =
      (BL_FS_FS_FULL, { mram := m, inode_table := persisted hw m }) := by
  unfold BL_FStoreNewFile
  simp only [findFreeInode_none hw m hn]

theorem fileExists_eq (hw : HW) (st : FS) (id : Nat) :
    BL_FStoreFileExists hw st id =
      ((BL_FStoreFindFile hw st id).1.isSome, { st with inode_table := persisted hw st.mram }) := by
  simp only [BL_FStoreFileExists, findFile_fs]

theorem write_new (hw : HW) (st : FS) (id : Nat) (buf : Mem) (size flags : Nat)
    (hn : NoFile hw st.mram id) :
    BL_FStoreWrite hw st id buf size flags =
      BL_FStoreNewFile hw { mram := st.mram, inode_table := persisted hw st.mram } id buf size
        flags := by
  unfold BL_FStoreWrite
  simp only [fileExists_eq, findFile_none hw st id hn]
  rfl

theorem write_existing (hw : HW) (st : FS) (id k : Nat) (buf : Mem) (size flags : Nat)
    (hv : ValidTable hw st.mram) (hf : FileAt hw st.mram id k) :
    BL_FStoreWrite hw st id buf size flags =
      BL_FStoreUpdateExistingFile hw { mram := st.mram, inode_table := persisted hw st.mram }
        id buf size flags := by
  unfold BL_FStoreWrite
  simp only [fileExists_eq, findFile_some hw st id k hv hf]
  rfl

theorem inodeAt_committedTable (t : BL_FSINodeTableBootInfo_t) (p j : Nat) (n : BL_FSINode_t)
    (hp : p < t.inodes.length) :
    inodeAt (committedTable t p n) j = if j = p then n else inodeAt t j := by
  unfold committedTable
  by_cases hj : j = p
  · subst hj
    rw [if_pos rfl]
    unfold inodeAt
    simp [List.getD_eq_getElem?_getD, hp]
  · rw [if_neg hj]
    unfold inodeAt
    simp [List.getD_eq_getElem?_getD, List.getElem?_set, Ne.symm hj]

theorem inodeAt_persisted_committed (hw : HW) (m m0 : Mem) (p j : Nat) (n : BL_FSINode_t)
    (hp : p < 32) (hj : j < 32) :
    inodeAt (persisted hw (withTable hw m (committedTable (persisted hw m0) p n))) j
      = if j = p then normINode n else inodeAt (persisted hw m0) j := by
  rw [persisted_withTable, inodeAt_decode_encode _ _ hj, inodeAt_committedTable]
  · by_cases hjp : j = p
    · rw [if_pos hjp, if_pos hjp]
    · rw [if_neg hjp, if_neg hjp]
      exact normINode_inodeAt_decodeTable _ _
  · unfold persisted
    rw [length_inodes_decodeTable]
    exact hp

theorem validTable_committed (hw : HW) (m m0 : Mem) (p : Nat) (n : BL_FSINode_t)
    (hv : ValidTable hw m0) :
    ValidTable hw (withTable hw m (committedTable (persisted hw m0) p n)) :=
  validTable_withTable_set hw m m0 _ hv

/-! ### Filling the table -/

theorem write_fills (hw : HW) (hall : hw.AllSucceed) (st : FS) (k : Nat) (written : List Nat)
    (id : Nat) (buf : Mem) (size flags : Nat) (hinv : FilledTo hw st.mram k written)
    (hk : k < BL_FS_BOOT_INFO_INODE_COUNT) (hid0 : id ≠ 0) (hid : id < 256)
    (hnew : id ∉ written) :
    (BL_FStoreWrite hw st id buf size flags).1 = BL_FS_NO_ERROR
      ∧ FilledTo hw (BL_FStoreWrite hw st id buf size flags).2.mram (k + 1) (id :: written) := by
  obtain ⟨hv, hused, hfree⟩ := hinv
  have hk32 : k < 32 := hk
  have hno : NoFile hw st.mram id := by
    intro j hj
    by_cases hjk : j < k
    · intro h
      exact hnew (h ▸ (hused j hjk).2)
    · rw [(hfree j (by omega) hj).1]
      exact Ne.symm hid0
  have hfr : FreeAt hw st.mram k :=
    ⟨hk, hfree k (le_refl _) hk, fun j hj h => (hused j hj).1 h.1⟩
  rw [write_new hw st id buf size flags hno, newFile_eq hw hall st.mram k id buf size flags hfr]
  refine ⟨rfl, validTable_committed hw _ _ _ _ hv, ?_, ?_⟩
  · intro j hj
    simp only
    rw [inodeAt_persisted_committed hw _ _ k j _ hk32 (by omega)]
    by_cases hjk : j = k
    · rw [if_pos hjk]
      have : (normINode (workingINode (allocAddr hw (persisted hw st.mram) k) id buf size
          flags)).id = id := Nat.mod_eq_of_lt hid
      rw [this]
      exact ⟨hid0, List.mem_cons_self _ _⟩
    · rw [if_neg hjk]
      exact ⟨(hused j (by omega)).1, List.mem_cons_of_mem _ (hused j (by omega)).2⟩
  · intro j hj1 hj2
    simp only
    rw [inodeAt_persisted_committed hw _ _ k j _ hk32 hj2, if_neg (by omega)]
    exact hfree j (by omega) hj2

theorem write_full (hw : HW) (st : FS) (written : List Nat)
    (id : Nat) (buf : Mem) (size flags : Nat)
    (hinv : FilledTo hw st.mram BL_FS_BOOT_INFO_INODE_COUNT written) (hnew : id ∉ written) :
    (BL_FStoreWrite hw st id buf size flags).1 = BL_FS_FS_FULL
      ∧ (BL_FStoreWrite hw st id buf size flags).2.mram = st.mram := by
  obtain ⟨_, hused, _⟩ := hinv
  have hno : NoFile hw st.mram id := fun j hj h => hnew (h ▸ (hused j hj).2)
  have hnf : NoFree hw st.mram := fun j hj h => (hused j hj).1 h.1
  rw [write_new hw st id buf size flags hno, newFile_full hw st.mram id buf size flags hnf]
  exact ⟨rfl, rfl⟩

theorem filledTo_mono (hw : HW) (m : Mem) (k : Nat) (w1 w2 : List Nat)
    (h : FilledTo hw m k w1) (hsub : ∀ x, x ∈ w1 → x ∈ w2) : FilledTo hw m k w2 :=
  ⟨h.1, fun j hj => ⟨(h.2.1 j hj).1, hsub _ (h.2.1 j hj).2⟩, h.2.2⟩

theorem writeAll_statuses (hw : HW) (hall : hw.AllSucceed)
    (reqs : List (Nat × Mem × Nat × Nat)) :
    ∀ (st : FS) (k : Nat) (written : List Nat), FilledTo hw st.mram k written →
      k ≤ BL_FS_BOOT_INFO_INODE_COUNT →
      (reqs.map (fun r => r.1)).Nodup →
      (∀ r, r ∈ reqs → r.1 ≠ 0 ∧ r.1 < 256 ∧ r.1 ∉ written) →
      (writeAll hw st reqs).1 =
        List.replicate (min (BL_FS_BOOT_INFO_INODE_COUNT - k) reqs.length) BL_FS_NO_ERROR
          ++ List.replicate (reqs.length - (BL_FS_BOOT_INFO_INODE_COUNT - k)) BL_FS_FS_FULL := by
  induction reqs with
  | nil =>
    intro st k written _ _ _ _
    simp [writeAll]
  | cons r rest ih =>
    intro st k written hinv hk hnd hids
    have hr := hids r (List.mem_cons_self _ _)
    rw [List.map_cons, List.nodup_cons] at hnd
    have hrest : ∀ w : List Nat, (∀ x, x ∈ written → x ∈ w) → (∀ x, x ∈ w → x = r.1 ∨ x ∈ written) →
        ∀ q, q ∈ rest → q.1 ≠ 0 ∧ q.1 < 256 ∧ q.1 ∉ w := by
      intro w _ hw2 q hq
      have h := hids q (List.mem_cons_of_mem _ hq)
      refine ⟨h.1, h.2.1, fun hmem => ?_⟩
      rcases hw2 _ hmem with h1 | h1
      · exact hnd.1 (h1 ▸ List.mem_map_of_mem (fun r => r.1) hq)
      · exact h.2.2 h1
    simp only [writeAll, List.length_cons]
    by_cases hk32 : k < BL_FS_BOOT_INFO_INODE_COUNT
    · obtain ⟨hst, hinv1⟩ := write_fills hw hall st k written r.1 r.2.1 r.2.2.1 r.2.2.2 hinv
        hk32 hr.1 hr.2.1 hr.2.2
      rw [hst, ih _ (k + 1) (r.1 :: written) hinv1 hk32 hnd.2
        (hrest (r.1 :: written) (fun x hx => List.mem_cons_of_mem _ hx)
          (fun x hx => by simpa using hx))]
      have e1 : min (BL_FS_BOOT_INFO_INODE_COUNT - k) (rest.length + 1)
          = min (BL_FS_BOOT_INFO_INODE_COUNT - (k + 1)) rest.length + 1 := by omega
      have e2 : rest.length + 1 - (BL_FS_BOOT_INFO_INODE_COUNT - k)
          = rest.length - (BL_FS_BOOT_INFO_INODE_COUNT - (k + 1)) := by omega
      rw [e1, e2, List.replicate_succ, List.cons_append]
    · have hk_eq : k = BL_FS_BOOT_INFO_INODE_COUNT := by omega
      subst hk_eq
      obtain ⟨hst, hm⟩ := write_full hw st written r.1 r.2.1 r.2.2.1 r.2.2.2 hinv hr.2.2
      have hinv1 : FilledTo hw (BL_FStoreWrite hw st r.1 r.2.1 r.2.2.1 r.2.2.2).2.mram
          BL_FS_BOOT_INFO_INODE_COUNT written := by
        rw [hm]; exact hinv
      rw [hst, ih _ _ written hinv1 (le_refl _) hnd.2
        (hrest written (fun x hx => hx) (fun x hx => Or.inr hx))]
      simp only [Nat.sub_self, Nat.zero_min, List.replicate_zero, List.nil_append, Nat.sub_zero,
        List.replicate_succ]

/-- C5. With every memory primitive succeeding, starting from a valid table whose
32 inodes are all unused, 33 successive `BL_FStoreWrite` calls with pairwise
distinct non-zero ids return `BL_FS_NO_ERROR` 32 times and then
`BL_FS_FS_FULL`, whatever the buffers, sizes and flags. -/
theorem capacity_boundary (hw : HW) (hall : hw.AllSucceed) (st : FS)
    (hv : ValidTable hw st.mram)
    (hfree : ∀ k, k < BL_FS_BOOT_INFO_INODE_COUNT →
      (inodeAt (persisted hw st.mram) k).id = 0 ∧ (inodeAt (persisted hw st.mram) k).size = 0)
    (reqs : List (Nat × Mem × Nat × Nat))
    (hlen : reqs.length = BL_FS_BOOT_INFO_INODE_COUNT + 1)
    (hnd : (reqs.map (fun r => r.1)).Nodup)
    (hids : ∀ r, r ∈ reqs → r.1 ≠ 0 ∧ r.1 < 256) :
    (writeAll hw st reqs).1 =
      List.replicate BL_FS_BOOT_INFO_INODE_COUNT BL_FS_NO_ERROR ++ [BL_FS_FS_FULL] := by
  have hinv : FilledTo hw st.mram 0 [] :=
    ⟨hv, fun j hj => absurd hj (Nat.not_lt_zero j), fun j _ hj => hfree j hj⟩
  rw [writeAll_statuses hw hall reqs st 0 [] hinv (Nat.zero_le _) hnd
    (fun r hr => ⟨(hids r hr).1, (hids r hr).2, List.not_mem_nil _⟩), hlen]
  rfl

theorem capacity_boundary_witness :
    (writeAll okHW emptyFS manyWrites).1 =
      List.replicate BL_FS_BOOT_INFO_INODE_COUNT BL_FS_NO_ERROR ++ [BL_FS_FS_FULL] :=
  capacity_boundary okHW okHW_allSucceed emptyFS (by decide!) (by decide!) manyWrites
    (by decide) (by decide!) (by decide!)

/-! ### Updating a file -/

theorem update_eq (hw : HW) (hall : hw.AllSucceed) (m : Mem) (id k : Nat) (buf : Mem)
    (size flags : Nat) (hv : ValidTable hw m) (hf : FileAt hw m id k)
    (hwr : (inodeAt (persisted hw m) k).flags &&& BL_FS_CAN_WRITE = BL_FS_CAN_WRITE) :
    BL_FStoreUpdateExistingFile hw { mram := m, inode_table := persisted hw m } id buf size flags
      = (BL_FS_NO_ERROR,
          { mram := withTable hw
              (dataWrite hw m (inodeAt (persisted hw m) k).p_fileStartAddr buf size)
              (updatedTable (persisted hw m) k (BL_FSCalculateFileCRC buf (size >>> 2)))
            inode_table :=
              updatedTable (persisted hw m) k (BL_FSCalculateFileCRC buf (size >>> 2)) }) := by
  obtain ⟨h1, h2, _, _, _⟩ := hall
  unfold BL_FStoreUpdateExistingFile
  simp only [findFile_some hw { mram := m, inode_table := persisted hw m } id k hv hf,
    findFile_fs, if_pos hwr]
  rw [BL_FSWrite_ok hw _ _ _ _ (h1 _ _) (h2 _ _)]
  simp only [ne_eq, not_true_eq_false, if_false, setINode]
  rw [save_eq hw _ (h1 _ _) (h2 _ _)]
  rfl

theorem update_denied (hw : HW) (m : Mem) (id k : Nat) (buf : Mem)
    (size flags : Nat) (hv : ValidTable hw m) (hf : FileAt hw m id k)
    (hwr : ¬ (inodeAt (persisted hw m) k).flags &&& BL_FS_CAN_WRITE = BL_FS_CAN_WRITE) :
    BL_FStoreUpdateExistingFile hw { mram := m, inode_table := persisted hw m } id buf size flags
      = (BL_FS_INVALID_OPERATION, { mram := m, inode_table := persisted hw m }) := by
  unfold BL_FStoreUpdateExistingFile
  simp only [findFile_some hw { mram := m, inode_table := persisted hw m } id k hv hf,
    findFile_fs, if_neg hwr]

theorem fileAt_or_noFile (hw : HW) (m : Mem) (id : Nat) :
    (∃ k, FileAt hw m id k) ∨ NoFile hw m id := by
  cases h : firstIndex (fun index => (inodeAt (persisted hw m) index).id == id)
      BL_FS_BOOT_INFO_INODE_COUNT 0 with
  | none =>
    right
    rw [firstIndex_eq_none_iff] at h
    intro k hk
    simpa using h k (Nat.zero_le _) (by omega)
  | some k =>
    left
    rw [firstIndex_eq_some_iff] at h
    obtain ⟨_, h2, h3, h4⟩ := h
    exact ⟨k, by omega, by simpa using h3, fun j hj => by simpa using h4 j (Nat.zero_le _) hj⟩

theorem freeAt_or_noFree (hw : HW) (m : Mem) : (∃ p, FreeAt hw m p) ∨ NoFree hw m := by
  cases h : firstIndex (fun index => (inodeAt (persisted hw m) index).id == 0
      && (inodeAt (persisted hw m) index).size == 0) BL_FS_BOOT_INFO_INODE_COUNT 0 with
  | none =>
    right
    rw [firstIndex_eq_none_iff] at h
    intro k hk
    simpa using h k (Nat.zero_le _) (by omega)
  | some p =>
    left
    rw [firstIndex_eq_some_iff] at h
    obtain ⟨_, h2, h3, h4⟩ := h
    exact ⟨p, by omega, by simpa using h3, fun j hj => by simpa using h4 j (Nat.zero_le _) hj⟩

theorem fileAt_unique (hw : HW) (m : Mem) (id k1 k2 : Nat) (h1 : FileAt hw m id k1)
    (h2 : FileAt hw m id k2) : k1 = k2 := by
  rcases Nat.lt_trichotomy k1 k2 with h | h | h
  · exact absurd h1.2.1 (h2.2.2 k1 h)
  · exact h
  · exact absurd h2.2.1 (h1.2.2 k2 h)

theorem allocAddr_lt (hw : HW) (t : BL_FSINodeTableBootInfo_t) (p : Nat) :
    allocAddr hw t p < 2 ^ 32 := by
  unfold allocAddr
  split <;> exact Nat.mod_lt _ (by decide)

theorem dataWrite_inside (hw : HW) (m : Mem) (addr : Nat) (buf : Mem) (size i : Nat)
    (hi : i < 4 * (size >>> 2)) : dataWrite hw m addr buf size (addr + i) = buf i := by
  unfold dataWrite memcpy
  rw [if_pos (by omega)]
  exact congrArg buf (by omega)

theorem shiftRight_two_of_mod (size : Nat) (h : size % 4 = 0) : 4 * (size >>> 2) = size := by
  rw [Nat.shiftRight_eq_div_pow]
  omega

/-! ### Reading back what was written -/

theorem read_back (hw : HW) (st : FS) (id k : Nat) (buf : Mem) (size : Nat)
    (hv : ValidTable hw st.mram) (hf : FileAt hw st.mram id k)
    (hsize : (inodeAt (persisted hw st.mram) k).size = size)
    (hcrc : (inodeAt (persisted hw st.mram) k).crc = BL_FSCalculateFileCRC buf (size >>> 2))
    (hdata : ∀ i, i < size →
      st.mram ((inodeAt (persisted hw st.mram) k).p_fileStartAddr + i) = buf i)
    (out : Mem) (cap : Nat) (hcap : size ≤ cap) :
    (BL_FStoreRead hw st id out cap).status = BL_FS_NO_ERROR
      ∧ (BL_FStoreRead hw st id out cap).max_size = size
      ∧ ∀ i, i < size → (BL_FStoreRead hw st id out cap).buffer i = buf i := by
  have hlt : size < 256 := by
    rw [← hsize]
    have := normINode_inodeAt_decodeTable (shiftBuf st.mram (BL_FS_BOOT_INFO_INODE_TABLE hw)) k
    have h2 := congrArg BL_FSINode_t.size this
    simp only [normINode] at h2
    unfold persisted
    rw [← h2]
    exact Nat.mod_lt _ (by decide)
  have hcrc2 : BL_FSCalculateFileCRC
      (memcpy out 0 (shiftBuf st.mram (inodeAt (persisted hw st.mram) k).p_fileStartAddr) size)
      (size >>> 2) = BL_FSCalculateFileCRC buf (size >>> 2) := by
    have h4 : size >>> 2 = size / 4 := by rw [Nat.shiftRight_eq_div_pow]
    apply BL_FSCalculateFileCRC_congr _ _ _ (by omega)
    intro j hj
    have hjs : j < size := by omega
    rw [memcpy_zero_lt _ _ _ _ hjs]
    exact hdata j hjs
  rw [read_of_fileAt hw st id k hv hf, hsize, hcrc, if_neg (by omega), if_neg (not_not.mpr hcrc2)]
  refine ⟨rfl, rfl, fun i hi => ?_⟩
  simp only
  rw [memcpy_zero_lt _ _ _ _ hi]
  exact hdata i hi

theorem normINode_with_crc (n : BL_FSINode_t) (c : Nat) (hn : normINode n = n)
    (hc : c < 65536) : normINode { n with crc := c } = { n with crc := c } := by
  have e1 := congrArg BL_FSINode_t.p_fileStartAddr hn
  have e2 := congrArg BL_FSINode_t.id hn
  have e3 := congrArg BL_FSINode_t.flags hn
  have e4 := congrArg BL_FSINode_t.size hn
  simp only [normINode] at e1 e2 e3 e4
  simp only [normINode, e1, e2, e3, e4, Nat.mod_eq_of_lt hc]

theorem inodeAt_persisted_updated (hw : HW) (m m0 : Mem) (k j c : Nat) (hk : k < 32)
    (hj : j < 32) (hc : c < 65536) :
    inodeAt (persisted hw (withTable hw m (updatedTable (persisted hw m0) k c))) j
      = if j = k then { inodeAt (persisted hw m0) k with crc := c }
        else inodeAt (persisted hw m0) j := by
  unfold updatedTable
  rw [inodeAt_persisted_withTable_set hw _ _ k j _ hk hj]
  by_cases hjk : j = k
  · rw [if_pos hjk, if_pos hjk]
    exact normINode_with_crc _ _ (normINode_inodeAt_decodeTable _ _) hc
  · rw [if_neg hjk, if_neg hjk]

/-- C1 (amended). With every memory primitive succeeding, on a valid table, let
`size` be a multiple of 4 that is at least 8 and below 256 when the file is
new, or equal to the size field of the inode when the file exists, and let the
bytes of the file lie outside the inode-table region.  If `BL_FStoreWrite`
returns `BL_FS_NO_ERROR`, a following `BL_FStoreRead` with `cap ≥ size` returns
`BL_FS_NO_ERROR`, reports `size`, and the first `size` bytes of the output are
those of the buffer written. -/
theorem write_read_round_trip (hw : HW) (hall : hw.AllSucceed) (st : FS)
    (hv : ValidTable hw st.mram) (id : Nat) (hid : id < 256) (buf : Mem) (size flags : Nat)
    (h4 : size % 4 = 0)
    (hpath : (NoFile hw st.mram id ∧ 8 ≤ size ∧ size < 256)
      ∨ ∃ k, FileAt hw st.mram id k ∧ (inodeAt (persisted hw st.mram) k).size = size)
    (hok : (BL_FStoreWrite hw st id buf size flags).1 = BL_FS_NO_ERROR)
    (hdis : ∀ k, FileAt hw (BL_FStoreWrite hw st id buf size flags).2.mram id k → ∀ i, i < size →
      ¬ InTableRegion hw
        ((inodeAt (persisted hw (BL_FStoreWrite hw st id buf size flags).2.mram) k).p_fileStartAddr
          + i))
    (out : Mem) (cap : Nat) (hcap : size ≤ cap) :
    (BL_FStoreRead hw (BL_FStoreWrite hw st id buf size flags).2 id out cap).status
        = BL_FS_NO_ERROR
      ∧ (BL_FStoreRead hw (BL_FStoreWrite hw st id buf size flags).2 id out cap).max_size = size
      ∧ ∀ i, i < size →
          (BL_FStoreRead hw (BL_FStoreWrite hw st id buf size flags).2 id out cap).buffer i
            = buf i := by
  have hs4 := shiftRight_two_of_mod size h4
  rcases hpath with ⟨hno, h8, h256⟩ | ⟨k, hf, hsz⟩
  · -- the new-file path
    rcases freeAt_or_noFree hw st.mram with ⟨p, hfr⟩ | hnf
    · have hp : p < 32 := hfr.1
      have hcl : clampSize size = size := by
        unfold clampSize BL_FS_MIN_FILE_SIZE
        rw [if_neg (by omega)]
      have hW := write_new hw st id buf size flags hno
      rw [newFile_eq hw hall st.mram p id buf size flags hfr, hcl] at hW
      have hm : (BL_FStoreWrite hw st id buf size flags).2.mram = withTable hw
          (dataWrite hw st.mram (allocAddr hw (persisted hw st.mram) p) buf size)
          (committedTable (persisted hw st.mram) p
            (workingINode (allocAddr hw (persisted hw st.mram) p) id buf size flags)) := by
        rw [hW]
      have hin : ∀ j, j < 32 →
          inodeAt (persisted hw (BL_FStoreWrite hw st id buf size flags).2.mram) j
          = if j = p then
              normINode (workingINode (allocAddr hw (persisted hw st.mram) p) id buf size flags)
            else inodeAt (persisted hw st.mram) j := by
        intro j hj
        rw [hm]
        exact inodeAt_persisted_committed hw _ _ p j _ hp hj
      have hf' : FileAt hw (BL_FStoreWrite hw st id buf size flags).2.mram id p := by
        refine ⟨hfr.1, ?_, fun j hj => ?_⟩
        · rw [hin p hp, if_pos rfl]
          exact Nat.mod_eq_of_lt hid
        · rw [hin j (by omega), if_neg (by omega)]
          exact hno j (by unfold BL_FS_BOOT_INFO_INODE_COUNT; omega)
      have hv' : ValidTable hw (BL_FStoreWrite hw st id buf size flags).2.mram := by
        rw [hm]
        exact validTable_committed hw _ _ _ _ hv
      have haddr : (normINode (workingINode (allocAddr hw (persisted hw st.mram) p) id buf size
          flags)).p_fileStartAddr = allocAddr hw (persisted hw st.mram) p :=
        Nat.mod_eq_of_lt (allocAddr_lt _ _ _)
      refine read_back hw (BL_FStoreWrite hw st id buf size flags).2 id p buf size hv' hf'
        ?_ ?_ ?_ out cap hcap
      · rw [hin p hp, if_pos rfl]
        show clampSize size % 256 % 256 = size
        rw [hcl]
        omega
      · rw [hin p hp, if_pos rfl]
        show BL_FSCalculateFileCRC buf (clampSize size >>> 2) % 65536 = _
        rw [hcl]
        exact Nat.mod_eq_of_lt (BL_FSCalculateFileCRC_lt _ _)
      · intro i hi
        have hd := hdis p hf' i hi
        rw [hin p hp, if_pos rfl, haddr] at hd ⊢
        rw [hm, withTable_outside hw _ _ _ hd]
        exact dataWrite_inside hw _ _ _ _ _ (by omega)
    · rw [write_new hw st id buf size flags hno, newFile_full hw st.mram id buf size flags hnf]
        at hok
      cases hok
  · -- the update path
    have hk : k < 32 := hf.1
    have hW := write_existing hw st id k buf size flags hv hf
    by_cases hwr : (inodeAt (persisted hw st.mram) k).flags &&& BL_FS_CAN_WRITE = BL_FS_CAN_WRITE
    · rw [update_eq hw hall st.mram id k buf size flags hv hf hwr] at hW
      have hm : (BL_FStoreWrite hw st id buf size flags).2.mram = withTable hw
          (dataWrite hw st.mram (inodeAt (persisted hw st.mram) k).p_fileStartAddr buf size)
          (updatedTable (persisted hw st.mram) k (BL_FSCalculateFileCRC buf (size >>> 2))) := by
        rw [hW]
      have hin : ∀ j, j < 32 →
          inodeAt (persisted hw (BL_FStoreWrite hw st id buf size flags).2.mram) j
          = if j = k then
              { inodeAt (persisted hw st.mram) k with
                crc := BL_FSCalculateFileCRC buf (size >>> 2) }
            else inodeAt (persisted hw st.mram) j := by
        intro j hj
        rw [hm]
        exact inodeAt_persisted_updated hw _ _ k j _ hk hj (BL_FSCalculateFileCRC_lt _ _)
      have hf' : FileAt hw (BL_FStoreWrite hw st id buf size flags).2.mram id k := by
        refine ⟨hf.1, ?_, fun j hj => ?_⟩
        · rw [hin k hk, if_pos rfl]
          exact hf.2.1
        · rw [hin j (by omega), if_neg (by omega)]
          exact hf.2.2 j hj
      have hv' : ValidTable hw (BL_FStoreWrite hw st id buf size flags).2.mram := by
        rw [hm]
        exact validTable_withTable_set hw _ _ _ hv
      refine read_back hw (BL_FStoreWrite hw st id buf size flags).2 id k buf size hv' hf'
        ?_ ?_ ?_ out cap hcap
      · rw [hin k hk, if_pos rfl]
        exact hsz
      · rw [hin k hk, if_pos rfl]
      · intro i hi
        have hd := hdis k hf' i hi
        rw [hin k hk, if_pos rfl] at hd ⊢
        simp only at hd ⊢
        rw [hm, withTable_outside hw _ _ _ hd]
        exact dataWrite_inside hw _ _ _ _ _ (by omega)
    · rw [update_denied hw st.mram id k buf size flags hv hf hwr] at hW
      rw [hW] at hok
      cases hok

theorem write_read_round_trip_witness :
    (BL_FStoreRead okHW (BL_FStoreWrite okHW freshFS 5 cntBuf 8 3).2 5 zeroBuf 16).status
        = BL_FS_NO_ERROR
      ∧ (BL_FStoreRead okHW (BL_FStoreWrite okHW freshFS 5 cntBuf 8 3).2 5 zeroBuf 16).max_size
        = 8 :=
  have h := write_read_round_trip okHW okHW_allSucceed freshFS (by decide!) 5 (by decide) cntBuf
    8 3 (by decide) (Or.inl ⟨by decide!, by decide, by decide⟩) (by decide!)
    (fun k hk => by
      have h1 : FileAt okHW (BL_FStoreWrite okHW freshFS 5 cntBuf 8 3).2.mram 5 1 := by decide!
      rw [fileAt_unique okHW _ 5 k 1 hk h1]
      decide!)
    zeroBuf 16 (by decide)
  ⟨h.1, h.2.1⟩

/-- C1 (as stated, refuted). Five successful writes on valid tables, every
memory primitive succeeding, after which a read with a large enough buffer
does not give the data back with the size written: a size that is not a
multiple of 4, a size below 8, a size of 1024, an update with a size other than
the stored one, and a file allocated on top of the inode table. -/
theorem round_trip_fails :
    ((BL_FStoreWrite okHW freshFS 5 cntBuf 10 3).1 = BL_FS_NO_ERROR
        ∧ (BL_FStoreRead okHW (BL_FStoreWrite okHW freshFS 5 cntBuf 10 3).2 5 zeroBuf 16).buffer 9
          ≠ cntBuf 9)
      ∧ ((BL_FStoreWrite okHW freshFS 5 cntBuf 4 3).1 = BL_FS_NO_ERROR
        ∧ (BL_FStoreRead okHW (BL_FStoreWrite okHW freshFS 5 cntBuf 4 3).2 5 zeroBuf 16).max_size
          ≠ 4)
      ∧ ((BL_FStoreWrite okHW freshFS 5 cntBuf 1024 3).1 = BL_FS_NO_ERROR
        ∧ (BL_FStoreRead okHW (BL_FStoreWrite okHW freshFS 5 cntBuf 1024 3).2 5 zeroBuf
            1024).max_size ≠ 1024)
      ∧ ((BL_FStoreWrite okHW freshFS 1 cntBuf 16 3).1 = BL_FS_NO_ERROR
        ∧ (BL_FStoreRead okHW (BL_FStoreWrite okHW freshFS 1 cntBuf 16 3).2 1 zeroBuf 16).status
          ≠ BL_FS_NO_ERROR)
      ∧ ((BL_FStoreWrite okHW overlapFS 5 cntBuf 8 3).1 = BL_FS_NO_ERROR
        ∧ (BL_FStoreRead okHW (BL_FStoreWrite okHW overlapFS 5 cntBuf 8 3).2 5 zeroBuf 16).status
          ≠ BL_FS_NO_ERROR) := by
  refine ⟨⟨?_, ?_⟩, ⟨?_, ?_⟩, ⟨?_, ?_⟩, ⟨?_, ?_⟩, ⟨?_, ?_⟩⟩ <;> decide!

/-! ### The CRC detects a single inverted bit -/

theorem testBit_15 (s : Nat) (hs : s < 65536) : s.testBit 15 = decide (32768 ≤ s) := by
  rw [Nat.testBit_to_div_mod]
  congr 1
  apply propext
  constructor <;> intro h <;> omega

theorem crcShift_parity (s : Nat) (b : Bool) :
    crcShift s b % 2 = if (s.testBit 15 != b) then 1 else 0 := by
  unfold crcShift
  split
  · rw [Nat.xor_mod_two_eq]
    omega
  · omega

theorem crcShift_inj (s1 s2 : Nat) (b : Bool) (h1 : s1 < 65536) (h2 : s2 < 65536)
    (h : crcShift s1 b = crcShift s2 b) : s1 = s2 := by
  have hp1 := crcShift_parity s1 b
  have hp2 := crcShift_parity s2 b
  rw [h] at hp1
  have ht1 := testBit_15 s1 h1
  have ht2 := testBit_15 s2 h2
  unfold crcShift at h
  by_cases c1 : (s1.testBit 15 != b) = true
  · by_cases c2 : (s2.testBit 15 != b) = true
    · rw [if_pos c1, if_pos c2] at h
      have h' := Nat.xor_left_inj.mp h
      have e : s1.testBit 15 = s2.testBit 15 := by
        cases hb : b <;> simp [hb] at c1 c2 <;> rw [c1, c2]
      rw [ht1, ht2] at e
      have e' : (32768 ≤ s1) ↔ (32768 ≤ s2) := by simpa using e
      omega
    · simp only [if_pos c1] at hp1
      simp only [if_neg c2] at hp2
      omega
  · by_cases c2 : (s2.testBit 15 != b) = true
    · simp only [if_neg c1] at hp1
      simp only [if_pos c2] at hp2
      omega
    · rw [if_neg c1, if_neg c2] at h
      have e : s1.testBit 15 = s2.testBit 15 := by
        cases hb : b <;> simp [hb] at c1 c2 <;> rw [c1, c2]
      rw [ht1, ht2] at e
      have e' : (32768 ≤ s1) ↔ (32768 ≤ s2) := by simpa using e
      omega

theorem crcShift_flip (s : Nat) (b : Bool) : crcShift s (!b) ≠ crcShift s b := by
  intro h
  have hp1 := crcShift_parity s (!b)
  have hp2 := crcShift_parity s b
  rw [h] at hp1
  cases hb : b <;> cases ht : s.testBit 15 <;> simp [hb, ht] at hp1 hp2 <;> omega

theorem foldl_crcShift_ne (l : List Bool) (s1 s2 : Nat) (h1 : s1 < 65536) (h2 : s2 < 65536)
    (h : s1 ≠ s2) : l.foldl crcShift s1 ≠ l.foldl crcShift s2 := by
  induction l generalizing s1 s2 with
  | nil => exact h
  | cons b l ih =>
    exact ih _ _ (crcShift_lt s1 b) (crcShift_lt s2 b) (fun e => h (crcShift_inj s1 s2 b h1 h2 e))

theorem foldl_crcShift_flip (l : List Bool) (pos : Nat) (s : Nat) (hs : s < 65536)
    (hpos : pos < l.length) :
    (l.set pos (!(l.getD pos false))).foldl crcShift s ≠ l.foldl crcShift s := by
  induction l generalizing pos s with
  | nil => simp at hpos
  | cons b l ih =>
    cases pos with
    | zero =>
      simp only [List.set_cons_zero, List.getD_cons_zero, List.foldl_cons]
      exact foldl_crcShift_ne l _ _ (crcShift_lt _ _) (crcShift_lt _ _) (crcShift_flip s b)
    | succ pos =>
      simp only [List.set_cons_succ, List.getD_cons_succ, List.foldl_cons]
      exact ih pos _ (crcShift_lt _ _) (by simpa using hpos)

theorem testBit_flip (x k j : Nat) :
    (x ^^^ 2 ^ k).testBit j = (x.testBit j != decide (k = j)) := by
  rw [Nat.testBit_xor, Nat.testBit_two_pow]

theorem byteBits_flip (x k : Nat) (hk : k < 8) :
    byteBits (x ^^^ 2 ^ k) = (byteBits x).set (7 - k) (!((byteBits x).getD (7 - k) false)) := by
  simp only [byteBits, testBit_flip]
  interval_cases k <;> simp

theorem crcByte_flip (x k s : Nat) (hk : k < 8) (hs : s < 65536) :
    (byteBits (x ^^^ 2 ^ k)).foldl crcShift s ≠ (byteBits x).foldl crcShift s := by
  rw [byteBits_flip x k hk]
  exact foldl_crcShift_flip _ _ s hs (by simp [byteBits]; omega)

theorem wordBits_rd32 (b : Mem) (off : Nat) :
    wordBits (rd32 b off) = byteBits (b off).val ++ byteBits (b (off + 1)).val
      ++ byteBits (b (off + 2)).val ++ byteBits (b (off + 3)).val := by
  have h0 := (b off).isLt
  have h1 := (b (off + 1)).isLt
  have h2 := (b (off + 2)).isLt
  have h3 := (b (off + 3)).isLt
  have e0 : rd32 b off % 256 = (b off).val := by unfold rd32; omega
  have e1 : rd32 b off / 256 % 256 = (b (off + 1)).val := by unfold rd32; omega
  have e2 : rd32 b off / 65536 % 256 = (b (off + 2)).val := by unfold rd32; omega
  have e3 : rd32 b off / 16777216 % 256 = (b (off + 3)).val := by unfold rd32; omega
  unfold wordBits
  rw [e0, e1, e2, e3]

theorem CRC_ADD_32_ne (w s1 s2 : Nat) (h1 : s1 < 65536) (h2 : s2 < 65536) (h : s1 ≠ s2) :
    CRC_ADD_32 s1 w ≠ CRC_ADD_32 s2 w :=
  foldl_crcShift_ne _ s1 s2 h1 h2 h

theorem crcLoop_ne (b : Mem) (n i s1 s2 : Nat) (h1 : s1 < 65536) (h2 : s2 < 65536)
    (h : s1 ≠ s2) : crcLoop b n i s1 ≠ crcLoop b n i s2 := by
  induction n generalizing i s1 s2 with
  | zero => exact h
  | succ n ih =>
    exact ih _ _ _ (CRC_ADD_32_lt _ _ h1) (CRC_ADD_32_lt _ _ h2) (CRC_ADD_32_ne _ _ _ h1 h2 h)

theorem CRC_ADD_32_flip (b c : Mem) (off o k s : Nat) (hk : k < 8) (hs : s < 65536)
    (ho1 : off ≤ o) (ho2 : o < off + 4) (hsame : ∀ j, j ≠ o → c j = b j)
    (hflip : (c o).val = (b o).val ^^^ 2 ^ k) :
    CRC_ADD_32 s (rd32 c off) ≠ CRC_ADD_32 s (rd32 b off) := by
  unfold CRC_ADD_32
  rw [wordBits_rd32, wordBits_rd32]
  simp only [List.foldl_append]
  have hj : o = off ∨ o = off + 1 ∨ o = off + 2 ∨ o = off + 3 := by omega
  rcases hj with hj | hj | hj | hj
  · subst hj
    rw [hsame (o + 1) (by omega), hsame (o + 2) (by omega), hsame (o + 3) (by omega), hflip]
    refine foldl_crcShift_ne _ _ _ ?_ ?_ (foldl_crcShift_ne _ _ _ ?_ ?_
      (foldl_crcShift_ne _ _ _ ?_ ?_ (crcByte_flip _ k s hk hs)))
    all_goals (repeat (first | exact hs | apply foldl_crcShift_lt))
  · subst hj
    rw [hsame off (by omega), hsame (off + 2) (by omega), hsame (off + 3) (by omega), hflip]
    refine foldl_crcShift_ne _ _ _ ?_ ?_ (foldl_crcShift_ne _ _ _ ?_ ?_
      (crcByte_flip _ k _ hk (foldl_crcShift_lt _ _ hs)))
    all_goals (repeat (first | exact hs | apply foldl_crcShift_lt))
  · subst hj
    rw [hsame off (by omega), hsame (off + 1) (by omega), hsame (off + 3) (by omega), hflip]
    refine foldl_crcShift_ne _ _ _ ?_ ?_
      (crcByte_flip _ k _ hk (foldl_crcShift_lt _ _ (foldl_crcShift_lt _ _ hs)))
    all_goals (repeat (first | exact hs | apply foldl_crcShift_lt))
  · subst hj
    rw [hsame off (by omega), hsame (off + 1) (by omega), hsame (off + 2) (by omega), hflip]
    exact crcByte_flip _ k _ hk
      (foldl_crcShift_lt _ _ (foldl_crcShift_lt _ _ (foldl_crcShift_lt _ _ hs)))

theorem crcLoop_flip (b c : Mem) (o k : Nat) (hk : k < 8) (hsame : ∀ j, j ≠ o → c j = b j)
    (hflip : (c o).val = (b o).val ^^^ 2 ^ k) (n i s : Nat) (hs : s < 65536)
    (ho1 : 4 * i ≤ o) (ho2 : o < 4 * (i + n)) :
    crcLoop c n i s ≠ crcLoop b n i s := by
  induction n generalizing i s with
  | zero => omega
  | succ n ih =>
    unfold crcLoop
    by_cases hw : o < 4 * i + 4
    · have h1 := CRC_ADD_32_flip b c (4 * i) o k s hk hs ho1 hw hsame hflip
      rw [crcLoop_congr c b n (i + 1) _ (fun j hj1 _ => hsame j (by omega))]
      exact crcLoop_ne b n (i + 1) _ _ (CRC_ADD_32_lt _ _ hs) (CRC_ADD_32_lt _ _ hs) h1
    · rw [rd32_congr c b (4 * i) (fun j hj => hsame _ (by omega))]
      exact ih (i + 1) _ (CRC_ADD_32_lt _ _ hs) (by omega) (by omega)

theorem BL_FSCalculateFileCRC_flip (b c : Mem) (o k n : Nat) (hk : k < 8) (hn : n < 256)
    (ho : o < 4 * n) (hsame : ∀ j, j ≠ o → c j = b j)
    (hflip : (c o).val = (b o).val ^^^ 2 ^ k) :
    BL_FSCalculateFileCRC c n ≠ BL_FSCalculateFileCRC b n := by
  unfold BL_FSCalculateFileCRC CRC_FINAL
  rw [Nat.mod_eq_of_lt hn, Nat.mod_eq_of_lt (crcLoop_lt c n 0 _ (by decide)),
    Nat.mod_eq_of_lt (crcLoop_lt b n 0 _ (by decide))]
  exact crcLoop_flip b c o k hk hsame hflip n 0 _ (by decide) (by omega) (by omega)

theorem flipBit_val (m : Mem) (a k : Nat) (hk : k < 8) :
    (flipBit m a k a).val = (m a).val ^^^ 2 ^ k := by
  unfold flipBit
  rw [if_pos rfl, toByte_val]
  apply Nat.mod_eq_of_lt
  have h1 : (m a).val < 2 ^ 8 := (m a).isLt
  have h2 : 2 ^ k < 2 ^ 8 := Nat.pow_lt_pow_right (by decide) hk
  exact Nat.xor_lt_two_pow h1 h2

theorem flipBit_other (m : Mem) (a k x : Nat) (hx : x ≠ a) : flipBit m a k x = m x := by
  unfold flipBit
  rw [if_neg hx]

theorem persisted_flipBit (hw : HW) (m : Mem) (a k : Nat) (ha : ¬ InTableRegion hw a) :
    persisted hw (flipBit m a k) = persisted hw m := by
  unfold persisted
  apply decodeTable_congr
  intro o ho
  unfold shiftBuf
  apply flipBit_other
  intro h
  apply ha
  unfold InTableRegion
  have : BL_FS_BOOT_INFO_INODE_TABLE_SIZE = 296 := rfl
  omega

/-- C4 (amended). On a valid table, let an existing file read back without
error.  Inverting any single bit of a byte that lies in the whole words of the
file, `[start, start + 4 * (size / 4))`, and outside the inode-table region
makes the same `BL_FStoreRead` return `BL_FS_CRC_MISMATCH`. -/
theorem crc_detects_bit_flip (hw : HW) (st : FS) (id k : Nat) (hv : ValidTable hw st.mram)
    (hf : FileAt hw st.mram id k) (out : Mem) (cap : Nat)
    (hok : (BL_FStoreRead hw st id out cap).status = BL_FS_NO_ERROR)
    (a bit : Nat) (hbit : bit < 8)
    (ha1 : (inodeAt (persisted hw st.mram) k).p_fileStartAddr ≤ a)
    (ha2 : a < (inodeAt (persisted hw st.mram) k).p_fileStartAddr
      + 4 * ((inodeAt (persisted hw st.mram) k).size / 4))
    (hout : ¬ InTableRegion hw a) :
    (BL_FStoreRead hw { st with mram := flipBit st.mram a bit } id out cap).status
      = BL_FS_CRC_MISMATCH := by
  have hp := persisted_flipBit hw st.mram a bit hout
  have hv' : ValidTable hw (flipBit st.mram a bit) := by
    unfold ValidTable
    rw [hp]
    exact hv
  have hf' : FileAt hw (flipBit st.mram a bit) id k := by
    unfold FileAt
    rw [hp]
    exact hf
  have hlt : (inodeAt (persisted hw st.mram) k).size < 256 := by
    have h2 := congrArg BL_FSINode_t.size
      (normINode_inodeAt_decodeTable (shiftBuf st.mram (BL_FS_BOOT_INFO_INODE_TABLE hw)) k)
    simp only [normINode] at h2
    unfold persisted
    rw [← h2]
    exact Nat.mod_lt _ (by decide)
  have hdiv : (inodeAt (persisted hw st.mram) k).size >>> 2
      = (inodeAt (persisted hw st.mram) k).size / 4 := by
    rw [Nat.shiftRight_eq_div_pow]
  rw [read_of_fileAt hw st id k hv hf] at hok
  rw [read_of_fileAt hw { st with mram := flipBit st.mram a bit } id k hv' hf']
  simp only [hp]
  by_cases hsz : (inodeAt (persisted hw st.mram) k).size > cap
  · rw [if_pos hsz] at hok
    cases hok
  · rw [if_neg hsz] at hok
    rw [if_neg hsz]
    by_cases hc : BL_FSCalculateFileCRC
        (memcpy out 0 (shiftBuf st.mram (inodeAt (persisted hw st.mram) k).p_fileStartAddr)
          (inodeAt (persisted hw st.mram) k).size)
        ((inodeAt (persisted hw st.mram) k).size >>> 2) = (inodeAt (persisted hw st.mram) k).crc
    · have hne := BL_FSCalculateFileCRC_flip
        (memcpy out 0 (shiftBuf st.mram (inodeAt (persisted hw st.mram) k).p_fileStartAddr)
          (inodeAt (persisted hw st.mram) k).size)
        (memcpy out 0 (shiftBuf (flipBit st.mram a bit)
          (inodeAt (persisted hw st.mram) k).p_fileStartAddr)
          (inodeAt (persisted hw st.mram) k).size)
        (a - (inodeAt (persisted hw st.mram) k).p_fileStartAddr) bit
        ((inodeAt (persisted hw st.mram) k).size >>> 2) hbit (by omega) (by omega)
        (fun j hj => by
          unfold memcpy shiftBuf
          split
          · exact flipBit_other _ _ _ _ (by omega)
          · rfl)
        (by
          have hin : a - (inodeAt (persisted hw st.mram) k).p_fileStartAddr
              < (inodeAt (persisted hw st.mram) k).size := by omega
          rw [memcpy_zero_lt _ _ _ _ hin, memcpy_zero_lt _ _ _ _ hin]
          unfold shiftBuf
          have e : (inodeAt (persisted hw st.mram) k).p_fileStartAddr
              + (a - (inodeAt (persisted hw st.mram) k).p_fileStartAddr) = a := by omega
          rw [e]
          exact flipBit_val _ _ _ hbit)
      rw [hc] at hne
      rw [if_pos hne]
    · rw [if_pos hc] at hok
      cases hok

theorem crc_detects_bit_flip_witness :
    (BL_FStoreRead okHW
      { freshFS with mram := flipBit freshFS.mram (BL_FS_BOOT_INFO_DATA_SPACE okHW + 5) 3 }
      1 zeroBuf 8).status = BL_FS_CRC_MISMATCH :=
  crc_detects_bit_flip okHW freshFS 1 0 (by decide!) (by decide!) zeroBuf 8 (by decide!)
    (BL_FS_BOOT_INFO_DATA_SPACE okHW + 5) 3 (by decide) (by decide!) (by decide!) (by decide!)

/-- C4 (as stated, refuted). File 5 is stored by a successful `BL_FStoreWrite` of
10 bytes; the lowest bit of its last stored byte is inverted; `BL_FStoreRead`
then returns `BL_FS_NO_ERROR` and hands out the altered byte. -/
theorem crc_misses_trailing_byte :
    (BL_FStoreWrite okHW freshFS 5 cntBuf 10 3).1 = BL_FS_NO_ERROR
      ∧ FileAt okHW tenByteFS.mram 5 1
      ∧ (inodeAt (persisted okHW tenByteFS.mram) 1).size = 10
      ∧ (BL_FStoreRead okHW corruptedFS 5 zeroBuf 16).status = BL_FS_NO_ERROR
      ∧ (BL_FStoreRead okHW corruptedFS 5 zeroBuf 16).buffer 9
          ≠ (BL_FStoreRead okHW tenByteFS 5 zeroBuf 16).buffer 9 := by
  refine ⟨?_, ?_, ?_, ?_, ?_⟩ <;> decide!

/-- C2 (the scenario stops at the delete). On the freshly made file system, the
write of file 5 (64 bytes `0xAA`, flags read and write) returns
`BL_FS_NO_ERROR`, `BL_FStoreFileSize` returns 64, and `BL_FStoreRead` with a
capacity of 128 returns `BL_FS_NO_ERROR`, 64 bytes `0xAA` and the size 64; the
following `BL_FStoreDelete` of file 5 does not return, whatever the fuel, so
no `BL_FStoreFileExists` is reached. -/
theorem scenario_stops_at_delete (fuel : Nat) :
    (BL_FStoreWrite okHW freshFS 5 bufAA 64 (BL_FS_CAN_READ ||| BL_FS_CAN_WRITE)).1
        = BL_FS_NO_ERROR
      ∧ (BL_FStoreFileSize okHW scenarioFS 5).1 = 64
      ∧ (BL_FStoreRead okHW scenarioFS 5 zeroBuf 128).status = BL_FS_NO_ERROR
      ∧ (∀ i, i < 64 → (BL_FStoreRead okHW scenarioFS 5 zeroBuf 128).buffer i = 0xAA)
      ∧ (BL_FStoreRead okHW scenarioFS 5 zeroBuf 128).max_size = 64
      ∧ BL_FStoreDelete fuel okHW scenarioFS 5 = none := by
  refine ⟨by decide!, by decide!, by decide!, by decide!, by decide!, ?_⟩
  exact delete_of_size_pos fuel okHW scenarioFS 5 1 (by decide!) (by decide!) (by decide!)

/-! ### Refused writes -/

/-- C11. On a valid table, `BL_FStoreWrite` on an existing file whose
`BL_FS_CAN_WRITE` flag is clear returns `BL_FS_INVALID_OPERATION` and leaves
the non-volatile memory unchanged. -/
theorem write_denied (hw : HW) (st : FS) (id k : Nat) (buf : Mem) (size flags : Nat)
    (hv : ValidTable hw st.mram) (hf : FileAt hw st.mram id k)
    (hro : (inodeAt (persisted hw st.mram) k).flags &&& BL_FS_CAN_WRITE = 0) :
    (BL_FStoreWrite hw st id buf size flags).1 = BL_FS_INVALID_OPERATION
      ∧ (BL_FStoreWrite hw st id buf size flags).2.mram = st.mram := by
  have hne : ¬ (inodeAt (persisted hw st.mram) k).flags &&& BL_FS_CAN_WRITE = BL_FS_CAN_WRITE := by
    rw [hro]
    decide
  rw [write_existing hw st id k buf size flags hv hf,
    update_denied hw st.mram id k buf size flags hv hf hne]
  exact ⟨rfl, rfl⟩

theorem write_denied_witness :
    (BL_FStoreWrite okHW readOnlyFS 5 bufAA 8 3).1 = BL_FS_INVALID_OPERATION
      ∧ (BL_FStoreWrite okHW readOnlyFS 5 bufAA 8 3).2.mram = readOnlyFS.mram :=
  write_denied okHW readOnlyFS 5 1 bufAA 8 3 (by decide!) (by decide!) (by decide!)

/-- C12. On a valid table without an unused inode, `BL_FStoreWrite` of an id
that no inode carries returns `BL_FS_FS_FULL` and leaves the non-volatile
memory unchanged. -/
theorem write_full_table (hw : HW) (st : FS) (id : Nat) (buf : Mem) (size flags : Nat)
    (_hv : ValidTable hw st.mram) (hfull : NoFree hw st.mram) (hno : NoFile hw st.mram id) :
    (BL_FStoreWrite hw st id buf size flags).1 = BL_FS_FS_FULL
      ∧ (BL_FStoreWrite hw st id buf size flags).2.mram = st.mram := by
  rw [write_new hw st id buf size flags hno, newFile_full hw st.mram id buf size flags hfull]
  exact ⟨rfl, rfl⟩

theorem write_full_table_witness :
    (BL_FStoreWrite okHW fullFS 40 bufAA 8 3).1 = BL_FS_FS_FULL
      ∧ (BL_FStoreWrite okHW fullFS 40 bufAA 8 3).2.mram = fullFS.mram :=
  write_full_table okHW fullFS 40 bufAA 8 3 (by decide!) (by decide!) (by decide!)

/-! ### Queries -/

theorem fileSize_of_fileAt (hw : HW) (st : FS) (id k : Nat) (hv : ValidTable hw st.mram)
    (hf : FileAt hw st.mram id k) :
    (BL_FStoreFileSize hw st id).1 = (inodeAt (persisted hw st.mram) k).size := by
  unfold BL_FStoreFileSize
  simp only [findFile_some hw st id k hv hf, findFile_fs]

theorem isFlagSet_of_fileAt (hw : HW) (st : FS) (id k flag : Nat) (hv : ValidTable hw st.mram)
    (hf : FileAt hw st.mram id k) :
    (BL_FStoreIsFlagSet hw st id flag).1
      = ((inodeAt (persisted hw st.mram) k).flags &&& flag == flag) := by
  unfold BL_FStoreIsFlagSet
  simp only [findFile_some hw st id k hv hf, findFile_fs]

theorem isFlagSet_of_none (hw : HW) (st : FS) (id flag : Nat)
    (hn : (BL_FStoreFindFile hw st id).1 = none) :
    (BL_FStoreIsFlagSet hw st id flag).1 = false := by
  unfold BL_FStoreIsFlagSet
  simp only [hn]

theorem isFlagSet_iff (hw : HW) (st : FS) (id flag : Nat) (hv : ValidTable hw st.mram) :
    (BL_FStoreIsFlagSet hw st id flag).1 = true ↔
      ∃ k, FileAt hw st.mram id k ∧ (inodeAt (persisted hw st.mram) k).flags &&& flag = flag := by
  rcases fileAt_or_noFile hw st.mram id with ⟨k, hf⟩ | hno
  · rw [isFlagSet_of_fileAt hw st id k flag hv hf]
    constructor
    · intro h
      exact ⟨k, hf, by simpa using h⟩
    · rintro ⟨k2, hf2, h2⟩
      rw [fileAt_unique hw st.mram id k k2 hf hf2]
      simpa using h2
  · rw [isFlagSet_of_none hw st id flag (findFile_none hw st id hno)]
    constructor
    · intro h
      cases h
    · rintro ⟨k, hf, _⟩
      exact absurd hf.2.1 (hno k hf.1)

/-- C16. On a valid table, each of `BL_FStoreFileCanRead`, `BL_FStoreFileCanWrite`
and `BL_FStoreFileCanDelete` returns true exactly when the inode found for the
id exists and its flags contain the flag of the query; on an invalid table each
of them returns false. -/
theorem permission_queries (hw : HW) (st : FS) (id : Nat) (_hid : id ≠ 0) :
    (ValidTable hw st.mram →
        ((BL_FStoreFileCanRead hw st id).1 = true ↔
          ∃ k, FileAt hw st.mram id k
            ∧ (inodeAt (persisted hw st.mram) k).flags &&& BL_FS_CAN_READ = BL_FS_CAN_READ)
        ∧ ((BL_FStoreFileCanWrite hw st id).1 = true ↔
          ∃ k, FileAt hw st.mram id k
            ∧ (inodeAt (persisted hw st.mram) k).flags &&& BL_FS_CAN_WRITE = BL_FS_CAN_WRITE)
        ∧ ((BL_FStoreFileCanDelete hw st id).1 = true ↔
          ∃ k, FileAt hw st.mram id k
            ∧ (inodeAt (persisted hw st.mram) k).flags &&& BL_FS_CAN_DELETE = BL_FS_CAN_DELETE))
      ∧ (¬ ValidTable hw st.mram →
        (BL_FStoreFileCanRead hw st id).1 = false
          ∧ (BL_FStoreFileCanWrite hw st id).1 = false
          ∧ (BL_FStoreFileCanDelete hw st id).1 = false) := by
  constructor
  · intro hv
    exact ⟨isFlagSet_iff hw st id _ hv, isFlagSet_iff hw st id _ hv, isFlagSet_iff hw st id _ hv⟩
  · intro hinv
    have hn := findFile_invalid hw st id hinv
    exact ⟨isFlagSet_of_none hw st id _ hn, isFlagSet_of_none hw st id _ hn,
      isFlagSet_of_none hw st id _ hn⟩

theorem permission_queries_witness :
    (BL_FStoreFileCanRead okHW freshFS 1).1 = true
      ∧ (BL_FStoreFileCanRead okHW rawFS 1).1 = false :=
  have h := permission_queries okHW freshFS 1 (by decide)
  have h2 := permission_queries okHW rawFS 1 (by decide)
  ⟨((h.1 (by decide!)).1).mpr ⟨0, by decide!, by decide!⟩, (h2.2 (by decide!)).1⟩

/-- C18 (the code finds id 0). On a valid table with an inode whose id is 0, as
every unused inode is, `BL_FStoreFindFile` with id 0 returns that inode:
`BL_FStoreFileExists` is true and `BL_FStoreFileSize` returns its size field,
which is not the value `0xFFFF`. -/
theorem id_zero_is_found (hw : HW) (st : FS) (k : Nat) (hv : ValidTable hw st.mram)
    (hf : FileAt hw st.mram 0 k) :
    (BL_FStoreFindFile hw st 0).1 = some k
      ∧ (BL_FStoreFileExists hw st 0).1 = true
      ∧ (BL_FStoreFileSize hw st 0).1 = (inodeAt (persisted hw st.mram) k).size
      ∧ (BL_FStoreFileSize hw st 0).1 ≠ 0xFFFF := by
  have hfind := findFile_some hw st 0 k hv hf
  have hsize := fileSize_of_fileAt hw st 0 k hv hf
  refine ⟨hfind, ?_, hsize, ?_⟩
  · rw [fileExists_eq, hfind]
    rfl
  · rw [hsize]
    have h2 := congrArg BL_FSINode_t.size
      (normINode_inodeAt_decodeTable (shiftBuf st.mram (BL_FS_BOOT_INFO_INODE_TABLE hw)) k)
    simp only [normINode] at h2
    have hlt : (inodeAt (persisted hw st.mram) k).size < 256 := by
      unfold persisted
      rw [← h2]
      exact Nat.mod_lt _ (by decide)
    omega

theorem id_zero_is_found_witness :
    (BL_FStoreFileExists okHW freshFS 0).1 = true ∧ (BL_FStoreFileSize okHW freshFS 0).1 = 0 :=
  have h := id_zero_is_found okHW freshFS 1 (by decide!) (by decide!)
  ⟨h.2.1, h.2.2.1.trans (by decide!)⟩

/-! ### Bring-up twice -/

/-- C17. On a memory whose table is valid, `BL_FStoreInitializeInfoStorage`
returns `BL_FS_NO_ERROR` and leaves the non-volatile memory unchanged; with
every memory primitive succeeding, a second call from any initial state
returns the status of the first and leaves the memory the first has left. -/
theorem initialize_idempotent (hw : HW) (st : FS) :
    (ValidTable hw st.mram →
        (BL_FStoreInitializeInfoStorage hw st).1 = BL_FS_NO_ERROR
          ∧ (BL_FStoreInitializeInfoStorage hw st).2.mram = st.mram)
      ∧ (hw.AllSucceed →
        (BL_FStoreInitializeInfoStorage hw (BL_FStoreInitializeInfoStorage hw st).2).1
            = (BL_FStoreInitializeInfoStorage hw st).1
          ∧ (BL_FStoreInitializeInfoStorage hw (BL_FStoreInitializeInfoStorage hw st).2).2.mram
            = (BL_FStoreInitializeInfoStorage hw st).2.mram) := by
  constructor
  · intro hv
    rw [initialize_valid hw st hv]
    exact ⟨rfl, rfl⟩
  · intro hall
    by_cases hv : ValidTable hw st.mram
    · rw [initialize_valid hw st hv]
      simp only
      rw [initialize_valid hw { mram := st.mram, inode_table := persisted hw st.mram } hv]
      exact ⟨rfl, rfl⟩
    · rw [initialize_eq hw hall st hv]
      simp only
      rw [initialize_valid hw
        { mram := madeMem hw st.mram (persisted hw st.mram).pad
          inode_table := persisted hw (madeMem hw st.mram (persisted hw st.mram).pad) }
        (validTable_madeMem hw st.mram (persisted hw st.mram).pad)]
      exact ⟨rfl, rfl⟩

theorem initialize_idempotent_witness :
    ((BL_FStoreInitializeInfoStorage okHW freshFS).1 = BL_FS_NO_ERROR
        ∧ (BL_FStoreInitializeInfoStorage okHW freshFS).2.mram = freshFS.mram)
      ∧ (BL_FStoreInitializeInfoStorage okHW (BL_FStoreInitializeInfoStorage okHW rawFS).2).1
        = (BL_FStoreInitializeInfoStorage okHW rawFS).1
      ∧ (BL_FStoreInitializeInfoStorage okHW (BL_FStoreInitializeInfoStorage okHW rawFS).2).2.mram
        = (BL_FStoreInitializeInfoStorage okHW rawFS).2.mram :=
  ⟨(initialize_idempotent okHW freshFS).1 (by decide!),
    (initialize_idempotent okHW rawFS).2 okHW_allSucceed⟩

/-! ### The size field and the allocator -/

theorem write_new_post (hw : HW) (hall : hw.AllSucceed) (st : FS)
    (hv : ValidTable hw st.mram) (id : Nat) (hid : id < 256) (buf : Mem) (size flags p : Nat)
    (hno : NoFile hw st.mram id) (hfree : FreeAt hw st.mram p) :
    (BL_FStoreWrite hw st id buf size flags).1 = BL_FS_NO_ERROR
      ∧ (BL_FStoreWrite hw st id buf size flags).2.mram = withTable hw
          (dataWrite hw st.mram (allocAddr hw (persisted hw st.mram) p) buf (clampSize size))
          (committedTable (persisted hw st.mram) p
            (workingINode (allocAddr hw (persisted hw st.mram) p) id buf size flags))
      ∧ ValidTable hw (BL_FStoreWrite hw st id buf size flags).2.mram
      ∧ FileAt hw (BL_FStoreWrite hw st id buf size flags).2.mram id p
      ∧ ∀ j, j < 32 →
          inodeAt (persisted hw (BL_FStoreWrite hw st id buf size flags).2.mram) j
          = if j = p then
              normINode (workingINode (allocAddr hw (persisted hw st.mram) p) id buf size flags)
            else inodeAt (persisted hw st.mram) j := by
  have hp : p < 32 := hfree.1
  have hW := write_new hw st id buf size flags hno
  rw [newFile_eq hw hall st.mram p id buf size flags hfree] at hW
  have hm : (BL_FStoreWrite hw st id buf size flags).2.mram = withTable hw
      (dataWrite hw st.mram (allocAddr hw (persisted hw st.mram) p) buf (clampSize size))
      (committedTable (persisted hw st.mram) p
        (workingINode (allocAddr hw (persisted hw st.mram) p) id buf size flags)) := by
    rw [hW]
  have hin : ∀ j, j < 32 →
      inodeAt (persisted hw (BL_FStoreWrite hw st id buf size flags).2.mram) j
      = if j = p then
          normINode (workingINode (allocAddr hw (persisted hw st.mram) p) id buf size flags)
        else inodeAt (persisted hw st.mram) j := by
    intro j hj
    rw [hm]
    exact inodeAt_persisted_committed hw _ _ p j _ hp hj
  refine ⟨by rw [hW], hm, ?_, ⟨hfree.1, ?_, fun j hj => ?_⟩, hin⟩
  · rw [hm]
    exact validTable_committed hw _ _ _ _ hv
  · rw [hin p hp, if_pos rfl]
    exact Nat.mod_eq_of_lt hid
  · rw [hin j (by omega), if_neg (by omega)]
    exact hno j (by unfold BL_FS_BOOT_INFO_INODE_COUNT; omega)

/-- C13 (the size field is 8 bits wide). With every memory primitive
succeeding, on a valid table with an unused inode, `BL_FStoreWrite` of an id
that no inode carries returns `BL_FS_NO_ERROR`, and `BL_FStoreFileSize` then
returns the size written (at least 8) reduced modulo 256: the field
`uint8_t size` of the inode cannot hold more. -/
theorem reported_size_is_truncated (hw : HW) (hall : hw.AllSucceed) (st : FS)
    (hv : ValidTable hw st.mram) (id : Nat) (hid : id < 256) (buf : Mem) (size flags p : Nat)
    (hno : NoFile hw st.mram id) (hfree : FreeAt hw st.mram p) :
    (BL_FStoreWrite hw st id buf size flags).1 = BL_FS_NO_ERROR
      ∧ (BL_FStoreFileSize hw (BL_FStoreWrite hw st id buf size flags).2 id).1
        = clampSize size % 256 := by
  obtain ⟨hok, _, hv', hf', hin⟩ :=
    write_new_post hw hall st hv id hid buf size flags p hno hfree
  refine ⟨hok, ?_⟩
  rw [fileSize_of_fileAt hw _ id p hv' hf', hin p hfree.1, if_pos rfl]
  show clampSize size % 256 % 256 = clampSize size % 256
  exact Nat.mod_mod _ _

theorem reported_size_is_truncated_witness :
    (BL_FStoreWrite okHW freshFS 5 cntBuf 256 3).1 = BL_FS_NO_ERROR
      ∧ (BL_FStoreFileSize okHW (BL_FStoreWrite okHW freshFS 5 cntBuf 256 3).2 5).1 = 0 :=
  reported_size_is_truncated okHW okHW_allSucceed freshFS (by decide!) 5 (by decide) cntBuf 256 3
    1 (by decide!) (by decide!)

/-- C20 (amended). For every table and every index `k` below 32,
`BL_FStoreFindFreeBlock` returns `BL_FS_NO_ERROR` with the data-region base
when `k = 0` and otherwise with the start address of inode `k - 1` plus its
size rounded down to a multiple of 4, as a 32-bit value; it returns
`BL_FS_FS_FULL` exactly when `k` is not an index of the table. -/
theorem bump_allocator_formula (hw : HW) (st : FS) (k size : Nat) :
    (k < BL_FS_BOOT_INFO_INODE_COUNT →
        BL_FStoreFindFreeBlock hw st k size =
          (BL_FS_NO_ERROR,
            if k = 0 then BL_FS_BOOT_INFO_DATA_SPACE hw % 2 ^ 32
            else ((inodeAt st.inode_table (k - 1)).p_fileStartAddr
              + 4 * ((inodeAt st.inode_table (k - 1)).size / 4)) % 2 ^ 32))
      ∧ ((BL_FStoreFindFreeBlock hw st k size).1 = BL_FS_FS_FULL
        ↔ BL_FS_BOOT_INFO_INODE_COUNT ≤ k) := by
  have hfull : BL_FS_BOOT_INFO_INODE_COUNT ≤ k →
      (BL_FStoreFindFreeBlock hw st k size).1 = BL_FS_FS_FULL := by
    intro hk
    have h : firstIndex (fun index => index == k) BL_FS_BOOT_INFO_INODE_COUNT 0 = none := by
      rw [firstIndex_eq_none_iff]
      intro j _ hj
      simp
      omega
    unfold BL_FStoreFindFreeBlock
    simp only [h]
  constructor
  · intro hk
    rw [findFreeBlock_eq hw st k size hk]
    unfold allocAddr
    by_cases h0 : k = 0
    · simp [h0]
    · rw [if_pos h0, if_neg h0, Nat.shiftRight_eq_div_pow]
  · constructor
    · intro h
      by_contra hk
      rw [findFreeBlock_eq hw st k size (by omega)] at h
      cases h
    · exact hfull

theorem bump_allocator_formula_witness :
    BL_FStoreFindFreeBlock okHW tenByteFS 2 8 =
      (BL_FS_NO_ERROR, ((inodeAt tenByteFS.inode_table 1).p_fileStartAddr
        + 4 * ((inodeAt tenByteFS.inode_table 1).size / 4)) % 2 ^ 32) :=
  (bump_allocator_formula okHW tenByteFS 2 8).1 (by decide)

/-- C20 (as stated, refuted). Behind an inode of size 10 the next start address
is the start address plus 8, not plus 10; behind an inode that ends above
`2 ^ 32` the start address wraps around. -/
theorem bump_allocator_rounds_down :
    ((inodeAt tenByteFS.inode_table 1).size = 10
        ∧ (BL_FStoreFindFreeBlock okHW tenByteFS 2 8).1 = BL_FS_NO_ERROR
        ∧ (BL_FStoreFindFreeBlock okHW tenByteFS 2 8).2
          = (inodeAt tenByteFS.inode_table 1).p_fileStartAddr + 8
        ∧ (BL_FStoreFindFreeBlock okHW tenByteFS 2 8).2
          ≠ (inodeAt tenByteFS.inode_table 1).p_fileStartAddr
            + (inodeAt tenByteFS.inode_table 1).size)
      ∧ ((BL_FStoreFindFreeBlock okHW wrapFS 1 8).1 = BL_FS_NO_ERROR
        ∧ (BL_FStoreFindFreeBlock okHW wrapFS 1 8).2 = 4
        ∧ (BL_FStoreFindFreeBlock okHW wrapFS 1 8).2
          ≠ (inodeAt wrapFS.inode_table 0).p_fileStartAddr
            + (inodeAt wrapFS.inode_table 0).size) := by
  refine ⟨⟨?_, ?_, ?_, ?_⟩, ⟨?_, ?_, ?_⟩⟩ <;> decide!

/-! ### The file list -/

theorem statusCode_eq_zero (s : BL_FStoreStatus_t) : statusCode s = 0 ↔ s = BL_FS_NO_ERROR := by
  cases s <;> simp [statusCode]

theorem fileList_valid (hw : HW) (st : FS) (p_buffer : Mem) (max_size : Nat)
    (show_hidden : Bool) (hv : ValidTable hw st.mram) :
    BL_FStoreFileList hw st p_buffer max_size show_hidden =
      { status := BL_FS_INVALID_OPERATION, buffer := p_buffer, max_size := max_size,
        fs := { st with inode_table := persisted hw st.mram } } := by
  unfold BL_FStoreFileList
  simp only [hasValid_status, hasValid_fs, if_pos hv, statusCode, if_true]

theorem fileList_invalid (hw : HW) (st : FS) (p_buffer : Mem) (max_size : Nat)
    (show_hidden : Bool) (hv : ¬ ValidTable hw st.mram) :
    BL_FStoreFileList hw st p_buffer max_size show_hidden =
      if max_size < BL_FS_BOOT_INFO_INODE_COUNT * sizeofINodeTable then
        { status := BL_FS_INVALID_OPERATION, buffer := p_buffer, max_size := max_size,
          fs := { st with inode_table := persisted hw st.mram } }
      else
        { status := BL_FS_NO_ERROR
          buffer := (fileListLoop (persisted hw st.mram) show_hidden
            BL_FS_BOOT_INFO_INODE_COUNT 0 p_buffer 0).1
          max_size := (fileListLoop (persisted hw st.mram) show_hidden
            BL_FS_BOOT_INFO_INODE_COUNT 0 p_buffer 0).2 % 65536
          fs := { st with inode_table := persisted hw st.mram } } := by
  unfold BL_FStoreFileList
  simp only [hasValid_status, hasValid_fs, if_neg hv, statusCode]
  rfl

/-- C14 (the validity test is inverted). On a valid table `BL_FStoreFileList`
returns `BL_FS_INVALID_OPERATION` whatever the buffer and `*p_max_size`; on an
invalid table it returns `BL_FS_NO_ERROR` as soon as `*p_max_size` is at least
`32 * sizeof(BL_FSINodeTableBootInfo_t) = 9344`. -/
theorem file_list_inverted (hw : HW) (st : FS) (p_buffer : Mem) (max_size : Nat)
    (show_hidden : Bool) :
    (ValidTable hw st.mram →
        (BL_FStoreFileList hw st p_buffer max_size show_hidden).status
          = BL_FS_INVALID_OPERATION)
      ∧ (¬ ValidTable hw st.mram → 9344 ≤ max_size →
        (BL_FStoreFileList hw st p_buffer max_size show_hidden).status = BL_FS_NO_ERROR) := by
  constructor
  · intro hv
    rw [fileList_valid hw st p_buffer max_size show_hidden hv]
  · intro hv hsz
    have h : ¬ max_size < BL_FS_BOOT_INFO_INODE_COUNT * sizeofINodeTable := by
      have : BL_FS_BOOT_INFO_INODE_COUNT * sizeofINodeTable = 9344 := by decide
      omega
    rw [fileList_invalid hw st p_buffer max_size show_hidden hv, if_neg h]

theorem file_list_inverted_witness :
    (BL_FStoreFileList okHW freshFS zeroBuf 288 true).status = BL_FS_INVALID_OPERATION
      ∧ (BL_FStoreFileList okHW rawFS zeroBuf 9344 true).status = BL_FS_NO_ERROR :=
  ⟨(file_list_inverted okHW freshFS zeroBuf 288 true).1 (by decide!),
    (file_list_inverted okHW rawFS zeroBuf 9344 true).2 (by decide!) (by decide)⟩

theorem listedFrom_succ (t : BL_FSINodeTableBootInfo_t) (sh : Bool) (index n : Nat) :
    listedFrom t sh index (n + 1) =
      if (inodeAt t index).id > BL_FS_NOFILE
          ∧ ((inodeAt t index).id ≥ BL_FS_MAX_RESERVED_FILE ∨ sh = true) then
        inodeAt t index :: listedFrom t sh (index + 1) n
      else listedFrom t sh (index + 1) n := by
  unfold listedFrom
  rw [List.range'_succ, List.map_cons, List.filter_cons]
  by_cases h : (inodeAt t index).id > BL_FS_NOFILE
      ∧ ((inodeAt t index).id ≥ BL_FS_MAX_RESERVED_FILE ∨ sh = true)
  · rw [if_pos h, if_pos (by simpa using h)]
  · rw [if_neg h, if_neg (by simpa using h)]

theorem length_listedFrom_le (t : BL_FSINodeTableBootInfo_t) (sh : Bool) (index n : Nat) :
    (listedFrom t sh index n).length ≤ n := by
  unfold listedFrom
  exact (List.length_filter_le _ _).trans (by simp)

theorem fileListLoop_spec (t : BL_FSINodeTableBootInfo_t) (sh : Bool) (n : Nat) :
    ∀ (index : Nat) (buf : Mem) (off : Nat),
      (fileListLoop t sh n index buf off).2 = off + 9 * (listedFrom t sh index n).length
        ∧ (∀ i j, i < (listedFrom t sh index n).length → j < 9 →
            (fileListLoop t sh n index buf off).1 (off + 9 * i + j)
              = encodeINode ((listedFrom t sh index n).getD i zeroINode) j)
        ∧ ∀ a, (a < off ∨ off + 9 * (listedFrom t sh index n).length ≤ a) →
            (fileListLoop t sh n index buf off).1 a = buf a := by
  induction n with
  | zero =>
    intro index buf off
    refine ⟨by simp [fileListLoop, listedFrom], ?_, fun a _ => rfl⟩
    intro i j hi
    simp [listedFrom] at hi
  | succ n ih =>
    intro index buf off
    rw [listedFrom_succ]
    unfold fileListLoop
    by_cases h : (inodeAt t index).id > BL_FS_NOFILE
        ∧ ((inodeAt t index).id ≥ BL_FS_MAX_RESERVED_FILE ∨ sh = true)
    · rw [if_pos h, if_pos h]
      obtain ⟨h1, h2, h3⟩ := ih (index + 1)
        (memcpy buf off (encodeINode (inodeAt t index)) BL_FS_INODE_SIZE) (off + BL_FS_INODE_SIZE)
      have h9 : BL_FS_INODE_SIZE = 9 := rfl
      rw [h9] at h1 h2 h3
      rw [h9]
      refine ⟨?_, ?_, ?_⟩
      · rw [h1, List.length_cons]
        omega
      · intro i j hi hj
        cases i with
        | zero =>
          rw [h3 _ (Or.inl (by omega))]
          unfold memcpy
          rw [if_pos (by omega), List.getD_cons_zero]
          exact congrArg _ (by omega)
        | succ i =>
          rw [List.length_cons] at hi
          have := h2 i j (by omega) hj
          rw [List.getD_cons_succ, ← this]
          exact congrArg _ (by omega)
      · intro a ha
        rw [List.length_cons] at ha
        rw [h3 a (by omega)]
        unfold memcpy
        rw [if_neg (by omega)]
    · rw [if_neg h, if_neg h]
      exact ih (index + 1) buf off

/-- C15. Whenever `BL_FStoreFileList` returns `BL_FS_NO_ERROR`, the buffer holds
the packed 9-byte records of the cached inodes whose id is not zero and which
are shown (`show_hidden`, or id at least `BL_FS_MAX_RESERVED_FILE`), in table
order, the bytes behind them are unchanged, and `*p_max_size` is 9 times the
number of records. -/
theorem file_list_content (hw : HW) (st : FS) (p_buffer : Mem) (max_size : Nat)
    (show_hidden : Bool)
    (hok : (BL_FStoreFileList hw st p_buffer max_size show_hidden).status = BL_FS_NO_ERROR) :
    (BL_FStoreFileList hw st p_buffer max_size show_hidden).max_size
        = BL_FS_INODE_SIZE * (listedINodes
            (BL_FStoreFileList hw st p_buffer max_size show_hidden).fs.inode_table
            show_hidden).length
      ∧ (∀ i j, i < (listedINodes
            (BL_FStoreFileList hw st p_buffer max_size show_hidden).fs.inode_table
            show_hidden).length → j < BL_FS_INODE_SIZE →
          (BL_FStoreFileList hw st p_buffer max_size show_hidden).buffer (BL_FS_INODE_SIZE * i + j)
            = encodeINode ((listedINodes
                (BL_FStoreFileList hw st p_buffer max_size show_hidden).fs.inode_table
                show_hidden).getD i zeroINode) j)
      ∧ ∀ a, BL_FS_INODE_SIZE * (listedINodes
            (BL_FStoreFileList hw st p_buffer max_size show_hidden).fs.inode_table
            show_hidden).length ≤ a →
          (BL_FStoreFileList hw st p_buffer max_size show_hidden).buffer a = p_buffer a := by
  by_cases hv : ValidTable hw st.mram
  · rw [fileList_valid hw st p_buffer max_size show_hidden hv] at hok
    cases hok
  · rw [fileList_invalid hw st p_buffer max_size show_hidden hv] at hok ⊢
    by_cases hsz : max_size < BL_FS_BOOT_INFO_INODE_COUNT * sizeofINodeTable
    · rw [if_pos hsz] at hok
      cases hok
    · rw [if_neg hsz]
      simp only
      obtain ⟨h1, h2, h3⟩ := fileListLoop_spec (persisted hw st.mram) show_hidden
        BL_FS_BOOT_INFO_INODE_COUNT 0 p_buffer 0
      have hlen := length_listedFrom_le (persisted hw st.mram) show_hidden 0
        BL_FS_BOOT_INFO_INODE_COUNT
      have h32 : BL_FS_BOOT_INFO_INODE_COUNT = 32 := rfl
      have h9 : BL_FS_INODE_SIZE = 9 := rfl
      unfold listedINodes
      rw [h9]
      refine ⟨?_, ?_, ?_⟩
      · rw [h1]
        omega
      · intro i j hi hj
        have := h2 i j hi hj
        rw [← this]
        exact congrArg _ (by omega)
      · intro a ha
        exact h3 a (Or.inr (by omega))

theorem file_list_content_witness :
    (BL_FStoreFileList okHW unmarkedFS zeroBuf 9344 false).max_size = 18 :=
  (file_list_content okHW unmarkedFS zeroBuf 9344 false (by decide!)).1.trans (by decide!)

/-! ### Packing of new files -/

theorem size_inodeAt_persisted_lt (hw : HW) (m : Mem) (k : Nat) :
    (inodeAt (persisted hw m) k).size < 256 := by
  have h2 := congrArg BL_FSINode_t.size
    (normINode_inodeAt_decodeTable (shiftBuf m (BL_FS_BOOT_INFO_INODE_TABLE hw)) k)
  simp only [normINode] at h2
  unfold persisted
  rw [← h2]
  exact Nat.mod_lt _ (by decide)

theorem write_packs (hw : HW) (hall : hw.AllSucceed) (hroom : hw.RoomForFiles) (st : FS)
    (n : Nat) (written : List Nat) (id : Nat) (buf : Mem) (size flags : Nat)
    (hfill : FilledTo hw st.mram (n + 1) written) (hpack : PackedTo hw st.mram n)
    (hn : n + 1 < BL_FS_BOOT_INFO_INODE_COUNT) (hid0 : id ≠ 0) (hid : id < 256)
    (hnew : id ∉ written) :
    (BL_FStoreWrite hw st id buf size flags).1 = BL_FS_NO_ERROR
      ∧ FilledTo hw (BL_FStoreWrite hw st id buf size flags).2.mram (n + 2) (id :: written)
      ∧ PackedTo hw (BL_FStoreWrite hw st id buf size flags).2.mram (n + 1)
      ∧ (∀ j, j ≤ n → inodeAt (persisted hw (BL_FStoreWrite hw st id buf size flags).2.mram) j
          = inodeAt (persisted hw st.mram) j)
      ∧ (inodeAt (persisted hw (BL_FStoreWrite hw st id buf size flags).2.mram) (n + 1)).id = id
      ∧ (inodeAt (persisted hw (BL_FStoreWrite hw st id buf size flags).2.mram) (n + 1)).size
          = clampSize size % 256 := by
  have h32 : BL_FS_BOOT_INFO_INODE_COUNT = 32 := rfl
  obtain ⟨hst, hfill'⟩ := write_fills hw hall st (n + 1) written id buf size flags hfill hn hid0
    hid hnew
  obtain ⟨hv, hused, hfree⟩ := hfill
  have hno : NoFile hw st.mram id := by
    intro j hj
    by_cases hjk : j < n + 1
    · intro h
      exact hnew (h ▸ (hused j hjk).2)
    · rw [(hfree j (by omega) hj).1]
      exact Ne.symm hid0
  have hfr : FreeAt hw st.mram (n + 1) :=
    ⟨hn, hfree (n + 1) (le_refl _) hn, fun j hj h => (hused j hj).1 h.1⟩
  obtain ⟨_, _, _, _, hin⟩ := write_new_post hw hall st hv id hid buf size flags (n + 1) hno hfr
  obtain ⟨hp0, hchain, hbound⟩ := hpack
  have hsame : ∀ j, j ≤ n →
      inodeAt (persisted hw (BL_FStoreWrite hw st id buf size flags).2.mram) j
        = inodeAt (persisted hw st.mram) j := by
    intro j hj
    rw [hin j (by omega), if_neg (by omega)]
  have hnewi : inodeAt (persisted hw (BL_FStoreWrite hw st id buf size flags).2.mram) (n + 1)
      = normINode (workingINode (allocAddr hw (persisted hw st.mram) (n + 1)) id buf size
          flags) := by
    rw [hin (n + 1) (by omega), if_pos rfl]
  have hroom' : BL_FS_BOOT_INFO_DATA_SPACE hw + 252 * 32 ≤ 2 ^ 32 := hroom
  have haddr : allocAddr hw (persisted hw st.mram) (n + 1) = wordsEnd (persisted hw st.mram) n := by
    unfold allocAddr wordsEnd
    rw [if_pos (by omega), Nat.shiftRight_eq_div_pow]
    simp only [Nat.add_sub_cancel]
    apply Nat.mod_eq_of_lt
    unfold wordsEnd at hbound
    have : (2:Nat) ^ 2 = 4 := rfl
    rw [this]
    omega
  have hstart : (inodeAt (persisted hw (BL_FStoreWrite hw st id buf size flags).2.mram)
      (n + 1)).p_fileStartAddr = wordsEnd (persisted hw st.mram) n := by
    rw [hnewi]
    show allocAddr hw (persisted hw st.mram) (n + 1) % 2 ^ 32 = _
    rw [Nat.mod_eq_of_lt (allocAddr_lt _ _ _), haddr]
  have hwe : ∀ j, j ≤ n →
      wordsEnd (persisted hw (BL_FStoreWrite hw st id buf size flags).2.mram) j
        = wordsEnd (persisted hw st.mram) j := by
    intro j hj
    unfold wordsEnd
    rw [hsame j hj]
  refine ⟨hst, hfill', ⟨?_, ?_, ?_⟩, hsame, ?_, ?_⟩
  · rw [hsame 0 (Nat.zero_le _)]
    exact hp0
  · intro j hj
    by_cases hjn : j < n
    · rw [hsame (j + 1) (by omega), hwe j (by omega)]
      exact hchain j hjn
    · have hjeq : j = n := by omega
      subst hjeq
      rw [hstart, hwe j (le_refl _)]
  · have hsz := size_inodeAt_persisted_lt hw (BL_FStoreWrite hw st id buf size flags).2.mram
      (n + 1)
    unfold wordsEnd at hbound ⊢
    rw [hstart]
    unfold wordsEnd
    omega
  · rw [hnewi]
    exact Nat.mod_eq_of_lt hid
  · rw [hnewi]
    show clampSize size % 256 % 256 = clampSize size % 256
    exact Nat.mod_mod _ _

theorem writeAll_packed (hw : HW) (hall : hw.AllSucceed) (hroom : hw.RoomForFiles)
    (reqs : List (Nat × Mem × Nat × Nat)) :
    ∀ (st : FS) (n : Nat) (written : List Nat), FilledTo hw st.mram (n + 1) written →
      PackedTo hw st.mram n → n + reqs.length < BL_FS_BOOT_INFO_INODE_COUNT →
      (reqs.map (fun r => r.1)).Nodup →
      (∀ r, r ∈ reqs → r.1 ≠ 0 ∧ r.1 < 256 ∧ r.1 ∉ written) →
      (∀ s, s ∈ (writeAll hw st reqs).1 → s = BL_FS_NO_ERROR)
        ∧ PackedTo hw (writeAll hw st reqs).2.mram (n + reqs.length)
        ∧ (∀ j, j ≤ n → inodeAt (persisted hw (writeAll hw st reqs).2.mram) j
            = inodeAt (persisted hw st.mram) j)
        ∧ ∀ j, j < reqs.length →
            (inodeAt (persisted hw (writeAll hw st reqs).2.mram) (n + 1 + j)).id
                = (reqs.getD j noRequest).1
              ∧ (inodeAt (persisted hw (writeAll hw st reqs).2.mram) (n + 1 + j)).size
                = clampSize (reqs.getD j noRequest).2.2.1 % 256 := by
  induction reqs with
  | nil =>
    intro st n written _ hpack _ _ _
    refine ⟨fun s hs => ?_, hpack, fun j _ => rfl, fun j hj => ?_⟩
    · simp [writeAll] at hs
    · simp at hj
  | cons r rest ih =>
    intro st n written hfill hpack hlen hnd hids
    have hr := hids r (List.mem_cons_self _ _)
    rw [List.map_cons, List.nodup_cons] at hnd
    rw [List.length_cons] at hlen
    obtain ⟨hst, hfill1, hpack1, hsame1, hid1, hsz1⟩ :=
      write_packs hw hall hroom st n written r.1 r.2.1 r.2.2.1 r.2.2.2 hfill hpack (by omega)
        hr.1 hr.2.1 hr.2.2
    have hrest : ∀ q, q ∈ rest → q.1 ≠ 0 ∧ q.1 < 256 ∧ q.1 ∉ r.1 :: written := by
      intro q hq
      have h := hids q (List.mem_cons_of_mem _ hq)
      refine ⟨h.1, h.2.1, fun hmem => ?_⟩
      rcases List.mem_cons.mp hmem with h1 | h1
      · exact hnd.1 (h1 ▸ List.mem_map_of_mem (fun r => r.1) hq)
      · exact h.2.2 h1
    obtain ⟨ha, hb, hc, hd⟩ := ih (BL_FStoreWrite hw st r.1 r.2.1 r.2.2.1 r.2.2.2).2 (n + 1)
      (r.1 :: written) hfill1 hpack1 (by omega) hnd.2 hrest
    simp only [writeAll, List.length_cons]
    refine ⟨?_, ?_, ?_, ?_⟩
    · intro s hs
      rcases List.mem_cons.mp hs with h1 | h1
      · rw [h1, hst]
      · exact ha s h1
    · have e : n + (rest.length + 1) = n + 1 + rest.length := by omega
      rw [e]
      exact hb
    · intro j hj
      rw [hc j (by omega), hsame1 j hj]
    · intro j hj
      cases j with
      | zero =>
        rw [List.getD_cons_zero]
        have := hc (n + 1) (le_refl _)
        simp only [Nat.add_zero]
        rw [this]
        exact ⟨hid1, hsz1⟩
      | succ j =>
        rw [List.getD_cons_succ]
        have e : n + 1 + (j + 1) = n + 1 + 1 + j := by omega
        rw [e]
        exact hd j (by omega)

theorem wordsEnd_le_start (hw : HW) (m : Mem) (n : Nat) (hpack : PackedTo hw m n) :
    ∀ j i, i < j → j ≤ n →
      wordsEnd (persisted hw m) i ≤ (inodeAt (persisted hw m) j).p_fileStartAddr := by
  intro j
  induction j with
  | zero => intro i hi; omega
  | succ j ih =>
    intro i hi hj
    have hstep := hpack.2.1 j (by omega)
    rw [hstep]
    by_cases hij : i = j
    · rw [hij]
    · have h1 := ih i (by omega) (by omega)
      unfold wordsEnd at h1 ⊢
      omega

theorem addressesFit_of_room (hw : HW) (hroom : hw.RoomForFiles) : hw.AddressesFit := by
  unfold HW.RoomForFiles BL_FS_BOOT_INFO_DATA_SPACE BL_FS_BOOT_INFO_INODE_TABLE at hroom
  unfold HW.AddressesFit BL_BOOT_INFO_STORAGE_SIZE
  have : BL_FS_BOOT_INFO_INODE_TABLE_SIZE = 296 := rfl
  omega

theorem clampSize_lt (size : Nat) (h : size < 256) : clampSize size < 256 := by
  unfold clampSize BL_FS_MIN_FILE_SIZE
  split <;> omega

/-- C19 (amended). Packing in whole words: on a platform where every memory
primitive succeeds and the files fit below `2 ^ 32`, after a fresh file system
is made and at most 31 files with distinct ids other than 0 and 1 and with
sizes below 256 are written, every write returns `BL_FS_NO_ERROR`, the inode
`j + 1` carries the id of the request `j` and its size raised to at least 8,
it starts right behind the whole words of the inode before it, and the whole
words of any earlier inode end at or before the start of any later one. -/
theorem packed_files_disjoint (hw : HW) (hall : hw.AllSucceed) (hroom : hw.RoomForFiles)
    (st0 : FS) (hinv : ¬ ValidTable hw st0.mram) (reqs : List (Nat × Mem × Nat × Nat))
    (hlen : reqs.length < BL_FS_BOOT_INFO_INODE_COUNT)
    (hnd : (reqs.map (fun r => r.1)).Nodup)
    (hids : ∀ r, r ∈ reqs → r.1 ≠ 0 ∧ r.1 ≠ 1 ∧ r.1 < 256 ∧ r.2.2.1 < 256) :
    (∀ s, s ∈ (writeAll hw (BL_FStoreInitializeInfoStorage hw st0).2 reqs).1 →
        s = BL_FS_NO_ERROR)
      ∧ (∀ j, j < reqs.length →
          (inodeAt (persisted hw
              (writeAll hw (BL_FStoreInitializeInfoStorage hw st0).2 reqs).2.mram) (j + 1)).id
            = (reqs.getD j noRequest).1
          ∧ (inodeAt (persisted hw
              (writeAll hw (BL_FStoreInitializeInfoStorage hw st0).2 reqs).2.mram) (j + 1)).size
            = clampSize (reqs.getD j noRequest).2.2.1
          ∧ (inodeAt (persisted hw
              (writeAll hw (BL_FStoreInitializeInfoStorage hw st0).2 reqs).2.mram)
                (j + 1)).p_fileStartAddr
            = wordsEnd (persisted hw
                (writeAll hw (BL_FStoreInitializeInfoStorage hw st0).2 reqs).2.mram) j)
      ∧ ∀ i j, i < j → j ≤ reqs.length →
          wordsEnd (persisted hw
              (writeAll hw (BL_FStoreInitializeInfoStorage hw st0).2 reqs).2.mram) i
            ≤ (inodeAt (persisted hw
                (writeAll hw (BL_FStoreInitializeInfoStorage hw st0).2 reqs).2.mram)
                  j).p_fileStartAddr := by
  have hfit := addressesFit_of_room hw hroom
  have h32 : BL_FS_BOOT_INFO_INODE_COUNT = 32 := rfl
  rw [initialize_eq hw hall st0 hinv]
  have h0 := inodeAt_madeMem_zero hw hfit st0.mram (persisted hw st0.mram).pad
  have hfill : FilledTo hw (madeMem hw st0.mram (persisted hw st0.mram).pad) (0 + 1) [1] := by
    refine ⟨validTable_madeMem hw _ _, fun j hj => ?_, fun j hj hj2 => ?_⟩
    · have hj0 : j = 0 := by omega
      rw [hj0, h0]
      refine ⟨?_, ?_⟩
      · show BL_FS_SIZE_AND_CRC_ID ≠ 0
        decide
      · show BL_FS_SIZE_AND_CRC_ID ∈ [1]
        decide
    · obtain ⟨k, rfl⟩ : ∃ k, j = k + 1 := ⟨j - 1, by omega⟩
      rw [inodeAt_madeMem_succ hw _ _ k (by omega)]
      exact ⟨rfl, rfl⟩
  have hpack : PackedTo hw (madeMem hw st0.mram (persisted hw st0.mram).pad) 0 := by
    refine ⟨?_, fun j hj => absurd hj (Nat.not_lt_zero _), ?_⟩
    · rw [h0]
    · unfold wordsEnd
      rw [h0]
      show BL_FS_BOOT_INFO_DATA_SPACE hw + 4 * (8 / 4) ≤ _
      omega
  have hids' : ∀ r, r ∈ reqs → r.1 ≠ 0 ∧ r.1 < 256 ∧ r.1 ∉ [1] := by
    intro r hr
    have h := hids r hr
    exact ⟨h.1, h.2.2.1, by simpa using h.2.1⟩
  obtain ⟨ha, hb, _, hd⟩ := writeAll_packed hw hall hroom reqs
    { mram := madeMem hw st0.mram (persisted hw st0.mram).pad
      inode_table := persisted hw (madeMem hw st0.mram (persisted hw st0.mram).pad) }
    0 [1] hfill hpack (by omega) hnd hids'
  refine ⟨ha, fun j hj => ?_, fun i j hij hj => ?_⟩
  · have h := hd j hj
    have e : 0 + 1 + j = j + 1 := by omega
    rw [e] at h
    have hsz : (reqs.getD j noRequest).2.2.1 < 256 := by
      have hmem : reqs.getD j noRequest ∈ reqs := by
        rw [List.getD_eq_getElem _ _ hj]
        exact List.getElem_mem _
      exact (hids _ hmem).2.2.2
    refine ⟨h.1, ?_, ?_⟩
    · rw [h.2, Nat.mod_eq_of_lt (clampSize_lt _ hsz)]
    · exact hb.2.1 j (by omega)
  · exact wordsEnd_le_start hw _ (0 + reqs.length) hb j i hij (by omega)

theorem packed_files_disjoint_witness :
    twelveThenEight.1 = [BL_FS_NO_ERROR, BL_FS_NO_ERROR]
      ∧ (inodeAt (persisted okHW twelveThenEight.2.mram) 2).p_fileStartAddr
          = wordsEnd (persisted okHW twelveThenEight.2.mram) 1
      ∧ wordsEnd (persisted okHW twelveThenEight.2.mram) 0
          ≤ (inodeAt (persisted okHW twelveThenEight.2.mram) 2).p_fileStartAddr :=
  have h := packed_files_disjoint okHW okHW_allSucceed (by decide) rawFS (by decide!)
    [(5, cntBuf, 12, 3), (6, cntBuf, 8, 3)] (by decide) (by decide)
    (by
      intro r hr
      simp only [List.mem_cons, List.mem_singleton, List.not_mem_nil, or_false] at hr
      rcases hr with h | h <;> subst h <;> decide)
  ⟨by decide!, (h.2.1 1 (by decide)).2.2, h.2.2 0 2 (by decide) (by decide)⟩

/-- C19 (as stated, refuted). On the fresh file system, file 5 is written with
12 bytes and then file 6 with 8 bytes, both with `BL_FS_NO_ERROR`: file 6
starts 12 bytes behind the start of file 5, inside the 16 bytes that the 12
bytes of file 5 occupy when rounded up to the 8-byte granularity. After a
write of 260 bytes the next file starts 4 bytes behind it. -/
theorem packing_is_by_words :
    (twelveThenEight.1 = [BL_FS_NO_ERROR, BL_FS_NO_ERROR]
        ∧ (inodeAt (persisted okHW twelveThenEight.2.mram) 1).id = 5
        ∧ (inodeAt (persisted okHW twelveThenEight.2.mram) 1).size = 12
        ∧ (inodeAt (persisted okHW twelveThenEight.2.mram) 2).id = 6
        ∧ (inodeAt (persisted okHW twelveThenEight.2.mram) 2).p_fileStartAddr
            = (inodeAt (persisted okHW twelveThenEight.2.mram) 1).p_fileStartAddr + 12
        ∧ (inodeAt (persisted okHW twelveThenEight.2.mram) 2).p_fileStartAddr
            < (inodeAt (persisted okHW twelveThenEight.2.mram) 1).p_fileStartAddr
              + 8 * ((12 + 7) / 8))
      ∧ (bigThenEight.1 = [BL_FS_NO_ERROR, BL_FS_NO_ERROR]
        ∧ (inodeAt (persisted okHW bigThenEight.2.mram) 1).id = 5
        ∧ (inodeAt (persisted okHW bigThenEight.2.mram) 2).id = 6
        ∧ (inodeAt (persisted okHW bigThenEight.2.mram) 2).p_fileStartAddr
            = (inodeAt (persisted okHW bigThenEight.2.mram) 1).p_fileStartAddr + 4) := by
  refine ⟨⟨?_, ?_, ?_, ?_, ?_, ?_⟩, ⟨?_, ?_, ?_, ?_⟩⟩ <;> decide!

/-! ### Saving and validating the table -/

theorem save_erase_fails (hw : HW) (st : FS)
    (he : hw.eraseSeqOk (BL_FS_BOOT_INFO_INODE_TABLE hw) 74 = false) :
    BL_FStoreSaveInodeTable hw st = (BL_FS_ENCRYPTION_FAILURE, st) := by
  unfold BL_FStoreSaveInodeTable BL_FSWrite MRAM_Erase_Sequential
  rw [show BL_FS_BOOT_INFO_INODE_TABLE_SIZE >>> 2 = 74 from rfl, he]
  rfl

theorem save_write_fails (hw : HW) (st : FS)
    (he : hw.eraseSeqOk (BL_FS_BOOT_INFO_INODE_TABLE hw) 74 = true)
    (hwr : hw.writeSeqOk (BL_FS_BOOT_INFO_INODE_TABLE hw) 74 = false) :
    BL_FStoreSaveInodeTable hw st =
      (BL_FS_ENCRYPTION_FAILURE,
        { st with mram := memfill st.mram (BL_FS_BOOT_INFO_INODE_TABLE hw) hw.erasedByte 296 }) := by
  unfold BL_FStoreSaveInodeTable BL_FSWrite MRAM_Erase_Sequential MRAM_WriteBuffer_Sequential
  rw [show BL_FS_BOOT_INFO_INODE_TABLE_SIZE >>> 2 = 74 from rfl, he, hwr]
  rfl

/-- C22 (a failed save is reported as an encryption failure). `BL_FStoreSaveInodeTable`
returns `BL_FS_NO_ERROR` when the erase and the write of the inode-table region
both succeed; when the erase fails, or the write after it, it returns
`BL_FS_ENCRYPTION_FAILURE`, which is neither `BL_FS_MRAM_WRITE_FAILURE` nor
`BL_FS_MRAM_ERASE_FAILURE`. -/
theorem save_table_status (hw : HW) (st : FS) :
    (hw.eraseSeqOk (BL_FS_BOOT_INFO_INODE_TABLE hw) (BL_FS_BOOT_INFO_INODE_TABLE_SIZE >>> 2) = true
        → hw.writeSeqOk (BL_FS_BOOT_INFO_INODE_TABLE hw) (BL_FS_BOOT_INFO_INODE_TABLE_SIZE >>> 2)
          = true
        → (BL_FStoreSaveInodeTable hw st).1 = BL_FS_NO_ERROR)
      ∧ (hw.eraseSeqOk (BL_FS_BOOT_INFO_INODE_TABLE hw) (BL_FS_BOOT_INFO_INODE_TABLE_SIZE >>> 2)
            = false
          ∨ hw.writeSeqOk (BL_FS_BOOT_INFO_INODE_TABLE hw) (BL_FS_BOOT_INFO_INODE_TABLE_SIZE >>> 2)
            = false
        → (BL_FStoreSaveInodeTable hw st).1 = BL_FS_ENCRYPTION_FAILURE
          ∧ (BL_FStoreSaveInodeTable hw st).1 ≠ BL_FS_MRAM_WRITE_FAILURE
          ∧ (BL_FStoreSaveInodeTable hw st).1 ≠ BL_FS_MRAM_ERASE_FAILURE) := by
  rw [show BL_FS_BOOT_INFO_INODE_TABLE_SIZE >>> 2 = 74 from rfl]
  constructor
  · intro he hwr
    rw [save_eq hw st he hwr]
  · intro h
    have hs : (BL_FStoreSaveInodeTable hw st).1 = BL_FS_ENCRYPTION_FAILURE := by
      cases he : hw.eraseSeqOk (BL_FS_BOOT_INFO_INODE_TABLE hw) 74 with
      | false => rw [save_erase_fails hw st he]
      | true =>
        rcases h with h | h
        · rw [he] at h
          cases h
        · rw [save_write_fails hw st he h]
    rw [hs]
    exact ⟨rfl, by decide, by decide⟩

theorem save_table_status_witness :
    (BL_FStoreSaveInodeTable okHW freshFS).1 = BL_FS_NO_ERROR
      ∧ (BL_FStoreSaveInodeTable noTableEraseHW freshFS).1 = BL_FS_ENCRYPTION_FAILURE
      ∧ (BL_FStoreSaveInodeTable noTableWriteHW freshFS).1 = BL_FS_ENCRYPTION_FAILURE :=
  ⟨(save_table_status okHW freshFS).1 rfl rfl,
    ((save_table_status noTableEraseHW freshFS).2 (Or.inl (by decide))).1,
    ((save_table_status noTableWriteHW freshFS).2 (Or.inr (by decide))).1⟩

/-- C24. `BL_FSHasValidFileSystem` returns `BL_FS_NO_ERROR` exactly when the 16-bit
word at the start of the inode-table region is `0x55EC` and the one at offset
290 is `0x5EC5`, and `BL_FS_VALIDATE_FAILURE` otherwise; `BL_FStoreValidate`
returns the same status; neither changes the non-volatile memory, and a second
call returns what the first has returned. -/
theorem validation_by_markers (hw : HW) (st : FS) :
    ((BL_FSHasValidFileSystem hw st).1 = BL_FS_NO_ERROR ↔
        rd16 st.mram (BL_FS_BOOT_INFO_INODE_TABLE hw) = 0x55EC
          ∧ rd16 st.mram (BL_FS_BOOT_INFO_INODE_TABLE hw + 290) = 0x5EC5)
      ∧ (BL_FSHasValidFileSystem hw st).1 =
          (if rd16 st.mram (BL_FS_BOOT_INFO_INODE_TABLE hw) = 0x55EC
              ∧ rd16 st.mram (BL_FS_BOOT_INFO_INODE_TABLE hw + 290) = 0x5EC5
            then BL_FS_NO_ERROR else BL_FS_VALIDATE_FAILURE)
      ∧ (BL_FStoreValidate hw st).1 = (BL_FSHasValidFileSystem hw st).1
      ∧ (BL_FSHasValidFileSystem hw st).2.mram = st.mram
      ∧ (BL_FStoreValidate hw st).2.mram = st.mram
      ∧ BL_FSHasValidFileSystem hw (BL_FSHasValidFileSystem hw st).2
          = BL_FSHasValidFileSystem hw st
      ∧ BL_FStoreValidate hw (BL_FStoreValidate hw st).2 = BL_FStoreValidate hw st := by
  have hm : ValidTable hw st.mram ↔
      rd16 st.mram (BL_FS_BOOT_INFO_INODE_TABLE hw) = 0x55EC
        ∧ rd16 st.mram (BL_FS_BOOT_INFO_INODE_TABLE hw + 290) = 0x5EC5 := by
    unfold ValidTable persisted decodeTable rd16 shiftBuf BL_FS_INODE_START_BYTES
      BL_FS_INODE_END_BYTES
    simp only [Nat.add_zero, Nat.add_assoc]
  have hst : (BL_FSHasValidFileSystem hw st).1 =
      (if rd16 st.mram (BL_FS_BOOT_INFO_INODE_TABLE hw) = 0x55EC
          ∧ rd16 st.mram (BL_FS_BOOT_INFO_INODE_TABLE hw + 290) = 0x5EC5
        then BL_FS_NO_ERROR else BL_FS_VALIDATE_FAILURE) := by
    rw [hasValid_status]
    by_cases hv : ValidTable hw st.mram
    · rw [if_pos hv, if_pos (hm.mp hv)]
    · rw [if_neg hv, if_neg (fun h => hv (hm.mpr h))]
  refine ⟨?_, hst, ?_, ?_, ?_, ?_, ?_⟩
  · rw [hst]
    constructor
    · intro h
      by_contra hn
      rw [if_neg hn] at h
      cases h
    · intro h
      rw [if_pos h]
  · rw [validate_eq, hasValid_status]
  · rw [hasValid_fs]
  · rw [validate_eq]
  · apply Prod.ext
    · rw [hasValid_status, hasValid_status, hasValid_fs]
    · rw [hasValid_fs, hasValid_fs]
  · rw [validate_eq, validate_eq]


/-! ### Failures of the memory primitives -/

theorem update_status_ok (hw : HW) (st : FS) (id k : Nat) (buf : Mem) (size flags : Nat)
    (hv : ValidTable hw st.mram) (hf : FileAt hw st.mram id k)
    (hwr : (inodeAt (persisted hw st.mram) k).flags &&& BL_FS_CAN_WRITE = BL_FS_CAN_WRITE)
    (he : hw.eraseSeqOk (inodeAt (persisted hw st.mram) k).p_fileStartAddr (size >>> 2) = true)
    (hd : hw.writeSeqOk (inodeAt (persisted hw st.mram) k).p_fileStartAddr (size >>> 2) = true) :
    BL_FStoreWrite hw st id buf size flags =
      (BL_FS_NO_ERROR,
        (BL_FStoreSaveInodeTable hw
          { mram := dataWrite hw st.mram (inodeAt (persisted hw st.mram) k).p_fileStartAddr buf
              size
            inode_table := updatedTable (persisted hw st.mram) k
              (BL_FSCalculateFileCRC buf (size >>> 2)) }).2) := by
  rw [write_existing hw st id k buf size flags hv hf]
  unfold BL_FStoreUpdateExistingFile
  simp only [findFile_some hw { mram := st.mram, inode_table := persisted hw st.mram } id k hv hf,
    findFile_fs, if_pos hwr]
  rw [BL_FSWrite_ok hw _ _ _ _ he hd]
  simp only [ne_eq, not_true_eq_false, if_false, setINode]
  rfl

theorem persisted_erasedMem (hw : HW) (m : Mem) (pad : Nat) :
    persisted hw (erasedMem hw m pad) = decodeTable (encodeTable (emptyTable pad)) := by
  unfold persisted
  apply decodeTable_congr
  intro o ho
  unfold shiftBuf erasedMem memcpy
  rw [if_pos ⟨Nat.le_add_right _ _, by omega⟩, Nat.add_sub_cancel_left]

theorem make_save_fails (hw : HW) (st : FS)
    (h1 : hw.eraseNonSeqOk (BL_FS_BOOT_INFO_INODE_TABLE hw) 74 = true)
    (h2 : hw.eraseNonSeqOk (BL_FS_BOOT_INFO_DATA_SPACE hw + 8) 180 = true)
    (h3 : hw.writeNonSeqOk (BL_FS_BOOT_INFO_INODE_TABLE hw) 74 = true)
    (h4 : hw.eraseSeqOk (BL_FS_BOOT_INFO_INODE_TABLE hw) 74 = false) :
    (BL_FStoreMakeInfoFilesystem hw st).1 = BL_FS_NO_ERROR
      ∧ (BL_FStoreMakeInfoFilesystem hw st).2.mram = erasedMem hw st.mram st.inode_table.pad := by
  have hv : ValidTable hw (erasedMem hw st.mram st.inode_table.pad) := by
    unfold ValidTable
    rw [persisted_erasedMem, startBytes_decode_encode, endBytes_decode_encode]
    exact ⟨rfl, rfl⟩
  unfold BL_FStoreMakeInfoFilesystem MRAM_Erase_NonSequential MRAM_WriteBuffer_NonSequential
  rw [show BL_FS_BOOT_INFO_INODE_TABLE_SIZE >>> 2 = 74 from rfl,
    show (BL_FS_BOOT_INFO_SIZE - 8) >>> 2 = 180 from rfl]
  simp only [h1, h2, h3, if_true]
  rw [findFreeInode_empty]
  simp only [Bool.true_eq_false, if_false]
  rw [save_erase_fails hw _ h4, validate_eq]
  simp only [setINode]
  constructor
  · show (if ValidTable hw (erasedMem hw st.mram st.inode_table.pad) then BL_FS_NO_ERROR
      else BL_FS_VALIDATE_FAILURE) = _
    rw [if_pos hv]
  · rfl

/-- C21 (the status of the table save is dropped). On a platform where the erase
of the inode-table region fails, `BL_FStoreSaveInodeTable` fails in every
state; yet `BL_FStoreWrite` on an existing writable file whose data write
succeeds returns `BL_FS_NO_ERROR`, and `BL_FStoreInitializeInfoStorage` on a
memory without valid markers, its two erasures and the write of the empty
table succeeding, returns `BL_FS_NO_ERROR` and leaves a table whose inode 0
is unused. -/
theorem save_failure_is_dropped (hw : HW)
    (hfail : hw.eraseSeqOk (BL_FS_BOOT_INFO_INODE_TABLE hw)
      (BL_FS_BOOT_INFO_INODE_TABLE_SIZE >>> 2) = false) :
    (∀ s, (BL_FStoreSaveInodeTable hw s).1 ≠ BL_FS_NO_ERROR)
      ∧ (∀ st id k buf size flags, ValidTable hw st.mram → FileAt hw st.mram id k →
          (inodeAt (persisted hw st.mram) k).flags &&& BL_FS_CAN_WRITE = BL_FS_CAN_WRITE →
          hw.eraseSeqOk (inodeAt (persisted hw st.mram) k).p_fileStartAddr (size >>> 2) = true →
          hw.writeSeqOk (inodeAt (persisted hw st.mram) k).p_fileStartAddr (size >>> 2) = true →
          (BL_FStoreWrite hw st id buf size flags).1 = BL_FS_NO_ERROR)
      ∧ (∀ st, ¬ ValidTable hw st.mram →
          hw.eraseNonSeqOk (BL_FS_BOOT_INFO_INODE_TABLE hw)
            (BL_FS_BOOT_INFO_INODE_TABLE_SIZE >>> 2) = true →
          hw.eraseNonSeqOk (BL_FS_BOOT_INFO_DATA_SPACE hw + 8)
            ((BL_FS_BOOT_INFO_SIZE - 8) >>> 2) = true →
          hw.writeNonSeqOk (BL_FS_BOOT_INFO_INODE_TABLE hw)
            (BL_FS_BOOT_INFO_INODE_TABLE_SIZE >>> 2) = true →
          (BL_FStoreInitializeInfoStorage hw st).1 = BL_FS_NO_ERROR
            ∧ inodeAt (persisted hw (BL_FStoreInitializeInfoStorage hw st).2.mram) 0
              = zeroINode) := by
  rw [show BL_FS_BOOT_INFO_INODE_TABLE_SIZE >>> 2 = 74 from rfl,
    show (BL_FS_BOOT_INFO_SIZE - 8) >>> 2 = 180 from rfl] at *
  refine ⟨fun s => ?_, fun st id k buf size flags hv hf hwr he hd => ?_,
    fun st hinv h1 h2 h3 => ?_⟩
  · rw [save_erase_fails hw s hfail]
    exact fun h => BL_FStoreStatus_t.noConfusion h
  · rw [update_status_ok hw st id k buf size flags hv hf hwr he hd]
  · have hm := make_save_fails hw { mram := st.mram, inode_table := persisted hw st.mram }
      h1 h2 h3 hfail
    have hI : BL_FStoreInitializeInfoStorage hw st
        = BL_FStoreMakeInfoFilesystem hw { mram := st.mram, inode_table := persisted hw st.mram } := by
      unfold BL_FStoreInitializeInfoStorage
      simp only [validate_eq, if_neg hinv, if_true]
    rw [hI]
    refine ⟨hm.1, ?_⟩
    rw [hm.2, persisted_erasedMem, inodeAt_decode_encode _ _ (by decide)]
    unfold emptyTable inodeAt
    rw [getD_replicate_self]
    rfl

theorem save_failure_is_dropped_witness :
    (BL_FStoreWrite noTableEraseHW freshFS 1 bufAA 8 3).1 = BL_FS_NO_ERROR
      ∧ ((BL_FStoreInitializeInfoStorage noTableEraseHW rawFS).1 = BL_FS_NO_ERROR
        ∧ inodeAt (persisted noTableEraseHW
            (BL_FStoreInitializeInfoStorage noTableEraseHW rawFS).2.mram) 0 = zeroINode) :=
  have h := save_failure_is_dropped noTableEraseHW (by decide)
  ⟨h.2.1 freshFS 1 0 bufAA 8 3 (by decide!) (by decide!) (by decide!) (by decide!) (by decide!),
    h.2.2 rawFS (by decide!) (by decide) (by decide) (by decide)⟩

/-! ### What an update leaves alone -/

theorem save_keeps_cache (hw : HW) (s : FS) :
    (BL_FStoreSaveInodeTable hw s).2.inode_table = s.inode_table := by
  unfold BL_FStoreSaveInodeTable
  simp only
  split <;> rfl

theorem write_ok_existing_inv (hw : HW) (st : FS) (id k : Nat) (buf : Mem) (size flags : Nat)
    (hv : ValidTable hw st.mram) (hf : FileAt hw st.mram id k)
    (hok : (BL_FStoreWrite hw st id buf size flags).1 = BL_FS_NO_ERROR) :
    (inodeAt (persisted hw st.mram) k).flags &&& BL_FS_CAN_WRITE = BL_FS_CAN_WRITE
      ∧ hw.eraseSeqOk (inodeAt (persisted hw st.mram) k).p_fileStartAddr (size >>> 2) = true
      ∧ hw.writeSeqOk (inodeAt (persisted hw st.mram) k).p_fileStartAddr (size >>> 2) = true := by
  rw [write_existing hw st id k buf size flags hv hf] at hok
  by_cases hwr : (inodeAt (persisted hw st.mram) k).flags &&& BL_FS_CAN_WRITE = BL_FS_CAN_WRITE
  · refine ⟨hwr, ?_⟩
    unfold BL_FStoreUpdateExistingFile at hok
    simp only [findFile_some hw { mram := st.mram, inode_table := persisted hw st.mram } id k hv hf,
      findFile_fs, if_pos hwr] at hok
    unfold BL_FSWrite MRAM_Erase_Sequential MRAM_WriteBuffer_Sequential at hok
    cases he : hw.eraseSeqOk (inodeAt (persisted hw st.mram) k).p_fileStartAddr (size >>> 2) with
    | false =>
      simp [he] at hok
    | true =>
      cases hd : hw.writeSeqOk (inodeAt (persisted hw st.mram) k).p_fileStartAddr (size >>> 2) with
      | false => simp [he, hd] at hok
      | true => exact ⟨rfl, rfl⟩
  · rw [update_denied hw st.mram id k buf size flags hv hf hwr] at hok
    cases hok

theorem inodeAt_updatedTable (m : Mem) (hw : HW) (k j c : Nat) (hk : k < 32) :
    inodeAt (updatedTable (persisted hw m) k c) j
      = if j = k then { inodeAt (persisted hw m) k with crc := c }
        else inodeAt (persisted hw m) j := by
  have hlen : (persisted hw m).inodes.length = 32 := length_inodes_decodeTable _
  unfold updatedTable
  by_cases hjk : j = k
  · rw [if_pos hjk, hjk]
    exact inodeAt_set_same _ _ _ (by omega)
  · rw [if_neg hjk]
    exact inodeAt_set_other _ _ _ _ hjk


/-- When `BL_FStoreWrite` on an existing file returns `BL_FS_NO_ERROR`, the
cached table differs from the table held by memory before the call only in
the `crc` field of the file's inode; when the save of the table succeeds, the
same holds for the table held by memory afterwards. -/
theorem update_frame (hw : HW) (st : FS) (id k : Nat) (buf : Mem) (size flags : Nat)
    (hv : ValidTable hw st.mram) (hf : FileAt hw st.mram id k)
    (hok : (BL_FStoreWrite hw st id buf size flags).1 = BL_FS_NO_ERROR) :
    (inodeAt (BL_FStoreWrite hw st id buf size flags).2.inode_table k
        = { inodeAt (persisted hw st.mram) k with
            crc := BL_FSCalculateFileCRC buf (size >>> 2) }
      ∧ (∀ j, j < BL_FS_BOOT_INFO_INODE_COUNT → j ≠ k →
          inodeAt (BL_FStoreWrite hw st id buf size flags).2.inode_table j
            = inodeAt (persisted hw st.mram) j)
      ∧ (BL_FStoreWrite hw st id buf size flags).2.inode_table.startBytes
          = (persisted hw st.mram).startBytes
      ∧ (BL_FStoreWrite hw st id buf size flags).2.inode_table.endBytes
          = (persisted hw st.mram).endBytes)
    ∧ (hw.eraseSeqOk (BL_FS_BOOT_INFO_INODE_TABLE hw) (BL_FS_BOOT_INFO_INODE_TABLE_SIZE >>> 2)
          = true →
        hw.writeSeqOk (BL_FS_BOOT_INFO_INODE_TABLE hw) (BL_FS_BOOT_INFO_INODE_TABLE_SIZE >>> 2)
          = true →
        inodeAt (persisted hw (BL_FStoreWrite hw st id buf size flags).2.mram) k
            = { inodeAt (persisted hw st.mram) k with
                crc := BL_FSCalculateFileCRC buf (size >>> 2) }
          ∧ (∀ j, j < BL_FS_BOOT_INFO_INODE_COUNT → j ≠ k →
              inodeAt (persisted hw (BL_FStoreWrite hw st id buf size flags).2.mram) j
                = inodeAt (persisted hw st.mram) j)
          ∧ (persisted hw (BL_FStoreWrite hw st id buf size flags).2.mram).startBytes
              = (persisted hw st.mram).startBytes
          ∧ (persisted hw (BL_FStoreWrite hw st id buf size flags).2.mram).endBytes
              = (persisted hw st.mram).endBytes) := by
  obtain ⟨hwr, he, hd⟩ := write_ok_existing_inv hw st id k buf size flags hv hf hok
  have hk : k < 32 := hf.1
  rw [update_status_ok hw st id k buf size flags hv hf hwr he hd]
  constructor
  · simp only [save_keeps_cache]
    refine ⟨?_, fun j _ hjk => ?_, rfl, rfl⟩
    · rw [inodeAt_updatedTable _ _ _ _ _ hk, if_pos rfl]
    · rw [inodeAt_updatedTable _ _ _ _ _ hk, if_neg hjk]
  · rw [show BL_FS_BOOT_INFO_INODE_TABLE_SIZE >>> 2 = 74 from rfl]
    intro hse hsw
    simp only
    rw [save_eq hw _ hse hsw]
    simp only
    have hc := BL_FSCalculateFileCRC_lt buf (size >>> 2)
    refine ⟨?_, fun j hj hjk => ?_, ?_, ?_⟩
    · rw [inodeAt_persisted_updated hw _ st.mram k k _ hk hk hc, if_pos rfl]
    · rw [inodeAt_persisted_updated hw _ st.mram k j _ hk hj hc, if_neg hjk]
    · exact (markers_persisted_withTable_set hw _ st.mram _).1
    · exact (markers_persisted_withTable_set hw _ st.mram _).2

theorem persisted_erased_table (hw : HW) (m : Mem) :
    (persisted hw (memfill m (BL_FS_BOOT_INFO_INODE_TABLE hw) hw.erasedByte 296)).startBytes
        = 257 * hw.erasedByte.val
      ∧ (persisted hw (memfill m (BL_FS_BOOT_INFO_INODE_TABLE hw) hw.erasedByte 296)).endBytes
        = 257 * hw.erasedByte.val := by
  unfold persisted decodeTable rd16 shiftBuf memfill
  simp only
  rw [if_pos (by omega), if_pos (by omega), if_pos (by omega), if_pos (by omega)]
  omega

/-- C23 (a failed save wipes the table behind a successful update). On a
platform where the erase of the inode-table region succeeds and the write
after it fails, `BL_FStoreWrite` on an existing writable file whose data write
succeeds returns `BL_FS_NO_ERROR`, and both markers of the table held by
memory afterwards consist of erased bytes: they are not the markers held
before, and the table is no longer valid. -/
theorem update_wipes_table (hw : HW) (st : FS) (id k : Nat) (buf : Mem) (size flags : Nat)
    (hv : ValidTable hw st.mram) (hf : FileAt hw st.mram id k)
    (hwr : (inodeAt (persisted hw st.mram) k).flags &&& BL_FS_CAN_WRITE = BL_FS_CAN_WRITE)
    (he : hw.eraseSeqOk (inodeAt (persisted hw st.mram) k).p_fileStartAddr (size >>> 2) = true)
    (hd : hw.writeSeqOk (inodeAt (persisted hw st.mram) k).p_fileStartAddr (size >>> 2) = true)
    (hte : hw.eraseSeqOk (BL_FS_BOOT_INFO_INODE_TABLE hw)
      (BL_FS_BOOT_INFO_INODE_TABLE_SIZE >>> 2) = true)
    (htw : hw.writeSeqOk (BL_FS_BOOT_INFO_INODE_TABLE hw)
      (BL_FS_BOOT_INFO_INODE_TABLE_SIZE >>> 2) = false) :
    (BL_FStoreWrite hw st id buf size flags).1 = BL_FS_NO_ERROR
      ∧ (persisted hw (BL_FStoreWrite hw st id buf size flags).2.mram).startBytes
          = 257 * hw.erasedByte.val
      ∧ (persisted hw (BL_FStoreWrite hw st id buf size flags).2.mram).endBytes
          = 257 * hw.erasedByte.val
      ∧ (persisted hw (BL_FStoreWrite hw st id buf size flags).2.mram).startBytes
          ≠ (persisted hw st.mram).startBytes
      ∧ (persisted hw (BL_FStoreWrite hw st id buf size flags).2.mram).endBytes
          ≠ (persisted hw st.mram).endBytes
      ∧ ¬ ValidTable hw (BL_FStoreWrite hw st id buf size flags).2.mram := by
  rw [show BL_FS_BOOT_INFO_INODE_TABLE_SIZE >>> 2 = 74 from rfl] at hte htw
  rw [update_status_ok hw st id k buf size flags hv hf hwr he hd, save_write_fails hw _ hte htw]
  simp only
  obtain ⟨h1, h2⟩ := persisted_erased_table hw
    (dataWrite hw st.mram (inodeAt (persisted hw st.mram) k).p_fileStartAddr buf size)
  have hb := hw.erasedByte.isLt
  unfold ValidTable at hv ⊢
  rw [h1, h2, hv.1, hv.2]
  unfold BL_FS_INODE_START_BYTES BL_FS_INODE_END_BYTES
  refine ⟨trivial, rfl, rfl, ?_, ?_, ?_⟩ <;> omega

theorem update_wipes_table_witness :
    (BL_FStoreWrite noTableWriteHW freshFS 1 bufAA 8 3).1 = BL_FS_NO_ERROR
      ∧ (persisted noTableWriteHW freshFS.mram).startBytes = 0x55EC
      ∧ (persisted noTableWriteHW
          (BL_FStoreWrite noTableWriteHW freshFS 1 bufAA 8 3).2.mram).startBytes = 0xFFFF
      ∧ (persisted noTableWriteHW freshFS.mram).endBytes = 0x5EC5
      ∧ (persisted noTableWriteHW
          (BL_FStoreWrite noTableWriteHW freshFS 1 bufAA 8 3).2.mram).endBytes = 0xFFFF :=
  have h := update_wipes_table noTableWriteHW freshFS 1 0 bufAA 8 3 (by decide!) (by decide!)
    (by decide!) (by decide!) (by decide!) (by decide) (by decide)
  ⟨h.1, by decide!, h.2.1.trans (by decide), by decide!, h.2.2.1.trans (by decide)⟩

/-! ### Writing without a valid table -/

theorem write_invalid_eq (hw : HW) (st : FS) (id : Nat) (buf : Mem) (size flags : Nat)
    (hinv : ¬ ValidTable hw st.mram) :
    BL_FStoreWrite hw st id buf size flags =
      BL_FStoreNewFile hw { mram := st.mram, inode_table := persisted hw st.mram } id buf size
        flags := by
  unfold BL_FStoreWrite
  simp only [fileExists_eq, findFile_invalid hw st id hinv]
  rfl

/-- C26 (a write on an invalid table goes through). With every memory primitive
succeeding, on a memory whose markers are invalid and whose table image has an
unused inode, `BL_FStoreWrite` returns `BL_FS_NO_ERROR`, writes the data at the
address computed for that inode and saves the table image with the new inode;
the markers stay invalid. -/
theorem write_on_invalid_table (hw : HW) (hall : hw.AllSucceed) (st : FS)
    (hinv : ¬ ValidTable hw st.mram) (id : Nat) (buf : Mem) (size flags p : Nat)
    (hfree : FreeAt hw st.mram p) :
    (BL_FStoreWrite hw st id buf size flags).1 = BL_FS_NO_ERROR
      ∧ (BL_FStoreWrite hw st id buf size flags).2.mram = withTable hw
          (dataWrite hw st.mram (allocAddr hw (persisted hw st.mram) p) buf (clampSize size))
          (committedTable (persisted hw st.mram) p
            (workingINode (allocAddr hw (persisted hw st.mram) p) id buf size flags))
      ∧ ¬ ValidTable hw (BL_FStoreWrite hw st id buf size flags).2.mram := by
  rw [write_invalid_eq hw st id buf size flags hinv,
    newFile_eq hw hall st.mram p id buf size flags hfree]
  refine ⟨rfl, rfl, ?_⟩
  simp only
  intro hv
  apply hinv
  unfold ValidTable at hv ⊢
  unfold committedTable at hv
  have hm := markers_persisted_withTable_set hw
    (dataWrite hw st.mram (allocAddr hw (persisted hw st.mram) p) buf (clampSize size)) st.mram
    (((persisted hw st.mram).inodes.set p zeroINode).set p
      (workingINode (allocAddr hw (persisted hw st.mram) p) id buf size flags))
  rw [hm.1, hm.2] at hv
  exact hv

theorem write_on_invalid_table_witness :
    (BL_FStoreWrite okHW blankFS 5 cntBuf 8 3).1 = BL_FS_NO_ERROR
      ∧ (BL_FStoreWrite okHW blankFS 5 cntBuf 8 3).2.mram (BL_FS_BOOT_INFO_DATA_SPACE okHW)
          ≠ blankFS.mram (BL_FS_BOOT_INFO_DATA_SPACE okHW)
      ∧ (BL_FStoreWrite okHW blankFS 5 cntBuf 8 3).2.mram (BL_FS_BOOT_INFO_INODE_TABLE okHW + 6)
          ≠ blankFS.mram (BL_FS_BOOT_INFO_INODE_TABLE okHW + 6) :=
  ⟨(write_on_invalid_table okHW okHW_allSucceed blankFS (by decide!) 5 cntBuf 8 3 0
      (by decide!)).1, by decide!, by decide!⟩

/-! ### The end of the data region -/

/-- C25 (no check against the size of the data region). With every memory
primitive succeeding, a new-file write whose words end behind the data region
returns `BL_FS_NO_ERROR` all the same and stores the words of the buffer at
the addresses behind the region. -/
theorem write_past_data_region (hw : HW) (hall : hw.AllSucceed) (st : FS)
    (hv : ValidTable hw st.mram) (id : Nat) (hid : id < 256) (buf : Mem) (size flags p : Nat)
    (hno : NoFile hw st.mram id) (hfree : FreeAt hw st.mram p)
    (hover : BL_FS_BOOT_INFO_DATA_SPACE hw + BL_FS_BOOT_INFO_SIZE
      < allocAddr hw (persisted hw st.mram) p + 4 * (clampSize size / 4)) :
    (BL_FStoreWrite hw st id buf size flags).1 = BL_FS_NO_ERROR
      ∧ (inodeAt (persisted hw (BL_FStoreWrite hw st id buf size flags).2.mram) p).p_fileStartAddr
          = allocAddr hw (persisted hw st.mram) p
      ∧ ¬ InDataRegion hw (allocAddr hw (persisted hw st.mram) p + 4 * (clampSize size / 4) - 1)
      ∧ ∀ a, BL_FS_BOOT_INFO_DATA_SPACE hw + BL_FS_BOOT_INFO_SIZE ≤ a →
          allocAddr hw (persisted hw st.mram) p ≤ a →
          a < allocAddr hw (persisted hw st.mram) p + 4 * (clampSize size / 4) →
          (BL_FStoreWrite hw st id buf size flags).2.mram a
            = buf (a - allocAddr hw (persisted hw st.mram) p) := by
  obtain ⟨hok, hm, _, _, hin⟩ := write_new_post hw hall st hv id hid buf size flags p hno hfree
  refine ⟨hok, ?_, ?_, fun a ha1 ha2 ha3 => ?_⟩
  · rw [hin p hfree.1, if_pos rfl]
    show allocAddr hw (persisted hw st.mram) p % 2 ^ 32 = _
    exact Nat.mod_eq_of_lt (allocAddr_lt _ _ _)
  · unfold InDataRegion
    omega
  · rw [hm, withTable_outside]
    · have h := dataWrite_inside hw st.mram (allocAddr hw (persisted hw st.mram) p) buf
        (clampSize size) (a - allocAddr hw (persisted hw st.mram) p)
        (by rw [Nat.shiftRight_eq_div_pow]; show _ < 4 * (clampSize size / 4); omega)
      rw [← h]
      exact congrArg _ (by omega)
    · unfold InTableRegion
      unfold BL_FS_BOOT_INFO_DATA_SPACE at ha1
      omega

theorem write_past_data_region_witness :
    (BL_FStoreWrite okHW freshFS 5 cntBuf 1024 3).1 = BL_FS_NO_ERROR
      ∧ (inodeAt (persisted okHW (BL_FStoreWrite okHW freshFS 5 cntBuf 1024 3).2.mram)
          1).p_fileStartAddr = BL_FS_BOOT_INFO_DATA_SPACE okHW + 8
      ∧ (BL_FStoreWrite okHW freshFS 5 cntBuf 1024 3).2.mram
          (BL_FS_BOOT_INFO_DATA_SPACE okHW + BL_FS_BOOT_INFO_SIZE + 100) = cntBuf 820
      ∧ ¬ InDataRegion okHW (BL_FS_BOOT_INFO_DATA_SPACE okHW + BL_FS_BOOT_INFO_SIZE + 100)
      ∧ fourFiles.1 = [BL_FS_NO_ERROR, BL_FS_NO_ERROR, BL_FS_NO_ERROR, BL_FS_NO_ERROR]
      ∧ (inodeAt (persisted okHW fourFiles.2.mram) 4).id = 8
      ∧ (inodeAt (persisted okHW fourFiles.2.mram) 4).size = 200
      ∧ BL_FS_BOOT_INFO_DATA_SPACE okHW + BL_FS_BOOT_INFO_SIZE
          < (inodeAt (persisted okHW fourFiles.2.mram) 4).p_fileStartAddr
            + (inodeAt (persisted okHW fourFiles.2.mram) 4).size :=
  have h := write_past_data_region okHW okHW_allSucceed freshFS (by decide!) 5 (by decide)
    cntBuf 1024 3 1 (by decide!) (by decide!) (by decide!)
  ⟨h.1, h.2.1.trans (by decide!),
    (h.2.2.2 (BL_FS_BOOT_INFO_DATA_SPACE okHW + BL_FS_BOOT_INFO_SIZE + 100) (by decide)
      (by decide!) (by decide!)).trans (by decide!),
    fun hin => absurd hin.2 (by decide), by decide!, by decide!, by decide!, by decide!⟩

/-! ### Reading and the permission flags -/

theorem inodeAt_persisted_of_flags (hw : HW) (m1 m2 : Mem) (k : Nat)
    (hsame : ∀ a, a ≠ flagsAddr hw k → m1 a = m2 a) (j : Nat) (hj : j < 32) :
    (inodeAt (persisted hw m2) j).p_fileStartAddr = (inodeAt (persisted hw m1) j).p_fileStartAddr
      ∧ (inodeAt (persisted hw m2) j).id = (inodeAt (persisted hw m1) j).id
      ∧ (inodeAt (persisted hw m2) j).size = (inodeAt (persisted hw m1) j).size
      ∧ (inodeAt (persisted hw m2) j).crc = (inodeAt (persisted hw m1) j).crc := by
  unfold persisted
  rw [inodeAt_decodeTable _ j hj, inodeAt_decodeTable _ j hj]
  unfold decodeINode rd32 rd16 shiftBuf flagsAddr BL_FS_INODE_SIZE at *
  simp only
  have h : ∀ i, i < 9 → i ≠ 5 →
      m1 (BL_FS_BOOT_INFO_INODE_TABLE hw + (2 + 9 * j + i))
        = m2 (BL_FS_BOOT_INFO_INODE_TABLE hw + (2 + 9 * j + i)) := by
    intro i hi h5
    apply hsame
    omega
  have h0 := h 0 (by decide) (by decide)
  have h1 := h 1 (by decide) (by decide)
  have h2 := h 2 (by decide) (by decide)
  have h3 := h 3 (by decide) (by decide)
  have h4 := h 4 (by decide) (by decide)
  have h6 := h 6 (by decide) (by decide)
  have h7 := h 7 (by decide) (by decide)
  have h8 := h 8 (by decide) (by decide)
  simp only [Nat.add_zero, Nat.add_assoc] at h0 h1 h2 h3 h4 h6 h7 h8 ⊢
  simp only [h0, h1, h2, h3, h4, h6, h7, h8, and_self]

theorem validTable_of_flags (hw : HW) (m1 m2 : Mem) (k : Nat)
    (hsame : ∀ a, a ≠ flagsAddr hw k → m1 a = m2 a) (hv : ValidTable hw m1) :
    ValidTable hw m2 := by
  unfold ValidTable persisted decodeTable rd16 shiftBuf at *
  unfold flagsAddr BL_FS_INODE_SIZE at hsame
  simp only at hv ⊢
  rw [← hsame _ (by omega), ← hsame _ (by omega), ← hsame _ (by omega), ← hsame _ (by omega)]
  exact hv

/-- C27. For two memories that differ at most in the `flags` byte of the inode
found for `id`, the first valid, `BL_FStoreRead` of `id` returns the same
status, the same size and the same buffer in both, and the second memory is
valid as well.  The data model keeps the bytes of a file apart from the inode
table: the `flags` byte is not among the bytes of the file (`hout`). -/
theorem read_ignores_flags (hw : HW) (s1 s2 : FS) (id k : Nat)
    (hv : ValidTable hw s1.mram) (hf : FileAt hw s1.mram id k)
    (hsame : ∀ a, a ≠ flagsAddr hw k → s1.mram a = s2.mram a)
    (hout : flagsAddr hw k < (inodeAt (persisted hw s1.mram) k).p_fileStartAddr
      ∨ (inodeAt (persisted hw s1.mram) k).p_fileStartAddr
          + (inodeAt (persisted hw s1.mram) k).size ≤ flagsAddr hw k)
    (out : Mem) (cap : Nat) :
    ValidTable hw s2.mram
      ∧ (BL_FStoreRead hw s2 id out cap).status = (BL_FStoreRead hw s1 id out cap).status
      ∧ (BL_FStoreRead hw s2 id out cap).max_size = (BL_FStoreRead hw s1 id out cap).max_size
      ∧ (BL_FStoreRead hw s2 id out cap).buffer = (BL_FStoreRead hw s1 id out cap).buffer := by
  have hk : k < 32 := hf.1
  have hv2 := validTable_of_flags hw s1.mram s2.mram k hsame hv
  have hi := inodeAt_persisted_of_flags hw s1.mram s2.mram k hsame
  have hf2 : FileAt hw s2.mram id k := by
    refine ⟨hf.1, ?_, fun j hj => ?_⟩
    · rw [(hi k hk).2.1]
      exact hf.2.1
    · rw [(hi j (by omega)).2.1]
      exact hf.2.2 j hj
  obtain ⟨e1, _, e3, e4⟩ := hi k hk
  have hbuf : memcpy out 0 (shiftBuf s2.mram (inodeAt (persisted hw s1.mram) k).p_fileStartAddr)
        (inodeAt (persisted hw s1.mram) k).size
      = memcpy out 0 (shiftBuf s1.mram (inodeAt (persisted hw s1.mram) k).p_fileStartAddr)
        (inodeAt (persisted hw s1.mram) k).size := by
    funext a
    unfold memcpy shiftBuf
    split
    · symm
      apply hsame
      omega
    · rfl
  rw [read_of_fileAt hw s1 id k hv hf out cap, read_of_fileAt hw s2 id k hv2 hf2 out cap,
    e1, e3, e4, hbuf]
  refine ⟨hv2, ?_, ?_, ?_⟩ <;> (split <;> [rfl; (split <;> rfl)])

theorem read_ignores_flags_witness :
    (BL_FStoreRead okHW unreadableFS 1 zeroBuf 8).status
        = (BL_FStoreRead okHW freshFS 1 zeroBuf 8).status
      ∧ (BL_FStoreRead okHW unreadableFS 1 zeroBuf 8).buffer
        = (BL_FStoreRead okHW freshFS 1 zeroBuf 8).buffer
      ∧ (inodeAt (persisted okHW unreadableFS.mram) 0).flags &&& BL_FS_CAN_READ = 0
      ∧ (BL_FStoreRead okHW unreadableFS 1 zeroBuf 8).status = BL_FS_NO_ERROR :=
  have h := read_ignores_flags okHW freshFS unreadableFS 1 0 (by decide!) (by decide!)
    (fun a ha => (flipBit_other freshFS.mram (flagsAddr okHW 0) 0 a ha).symm)
    (Or.inl (by decide!)) zeroBuf 8
  ⟨h.2.1, h.2.2.2, by decide!, by decide!⟩

/-! ### The circular buffer -/

/-- C30. For a FIFO with `1 ≤ buffer_words ≤ 2 ^ 31` and both indices below
`buffer_words`: `FIFO_WordsFull` is `(write_i - read_i) mod buffer_words`,
`FIFO_WordsFull + FIFO_WordsEmpty = FIFO_MaxWords = buffer_words - 1`,
`FIFO_IsEmpty` holds exactly when `FIFO_WordsFull` is 0, and `FIFO_IsFull`
exactly when `FIFO_WordsFull` is `FIFO_MaxWords`. -/
theorem fifo_occupancy (f : FIFO_t) (h1 : 1 ≤ f.buffer_words) (h2 : f.buffer_words ≤ 2 ^ 31)
    (hr : f.read_i < f.buffer_words) (hw : f.write_i < f.buffer_words) :
    (FIFO_WordsFull f : Int) = ((f.write_i : Int) - (f.read_i : Int)) % (f.buffer_words : Int)
      ∧ FIFO_WordsFull f + FIFO_WordsEmpty f = FIFO_MaxWords f
      ∧ FIFO_MaxWords f = f.buffer_words - 1
      ∧ (FIFO_IsEmpty f = true ↔ FIFO_WordsFull f = 0)
      ∧ (FIFO_IsFull f = true ↔ FIFO_WordsFull f = FIFO_MaxWords f) := by
  have hwf : FIFO_WordsFull f
      = if f.read_i ≤ f.write_i then f.write_i - f.read_i
        else f.write_i + f.buffer_words - f.read_i := by
    unfold FIFO_WordsFull
    simp only
    split <;> split <;> omega
  have hmax : FIFO_MaxWords f = f.buffer_words - 1 := by
    unfold FIFO_MaxWords
    omega
  refine ⟨?_, ?_, hmax, ?_, ?_⟩
  · rw [hwf]
    split
    · rw [Int.emod_eq_of_lt (by omega) (by omega)]
      omega
    · rw [← Int.add_emod_self, Int.emod_eq_of_lt (by omega) (by omega)]
      omega
  · unfold FIFO_WordsEmpty
    rw [hmax, hwf]
    split <;> omega
  · unfold FIFO_IsEmpty
    rw [hwf, beq_iff_eq]
    split <;> omega
  · unfold FIFO_IsFull
    rw [hmax, hwf]
    split
    · rw [beq_iff_eq]
      split <;> omega
    · rw [beq_iff_eq]
      split <;> omega

theorem fifo_occupancy_witness :
    (FIFO_WordsFull wrappedFifo : Int)
        = ((wrappedFifo.write_i : Int) - (wrappedFifo.read_i : Int))
          % (wrappedFifo.buffer_words : Int)
      ∧ FIFO_WordsFull wrappedFifo + FIFO_WordsEmpty wrappedFifo = FIFO_MaxWords wrappedFifo
      ∧ FIFO_WordsFull wrappedFifo = 2 :=
  have h := fifo_occupancy wrappedFifo (by decide) (by decide) (by decide) (by decide)
  ⟨h.1, h.2.1, by decide⟩

/-! ### The circular buffer as a queue -/

theorem wordsFull_eq (f : FIFO_t) (N : Nat) (hN : N ≤ 2 ^ 31) (hi : FifoInv N f) :
    FIFO_WordsFull f
      = if f.read_i ≤ f.write_i then f.write_i - f.read_i else f.write_i + N - f.read_i := by
  obtain ⟨h1, h2, h3⟩ := hi
  unfold FIFO_WordsFull
  simp only
  rw [h1]
  split <;> split <;> omega

theorem mod_wrap (a N : Nat) (h : a < 2 * N) :
    a % N = if a < N then a else a - N := by
  split
  · exact Nat.mod_eq_of_lt (by assumption)
  · rw [Nat.mod_eq_sub_mod (by omega)]
    exact Nat.mod_eq_of_lt (by omega)

theorem enqueue_step (f : FIFO_t) (N : Nat) (hN : N ≤ 2 ^ 31) (hi : FifoInv N f)
    (hfull : FIFO_IsFull f = false) (word : Int) :
    FifoInv N (FIFO_EnqueueWord f word)
      ∧ fifoContents (FIFO_EnqueueWord f word) = fifoContents f ++ [word] := by
  have hc := wordsFull_eq f N hN hi
  obtain ⟨h1, h2, h3⟩ := hi
  have hnf : (f.read_i ≠ 0 → f.read_i ≠ f.write_i + 1) ∧ (f.read_i = 0 → N ≠ f.write_i + 1) := by
    unfold FIFO_IsFull at hfull
    rw [h1, Nat.mod_eq_of_lt (by omega)] at hfull
    constructor
    · intro h0
      rw [if_pos h0] at hfull
      simpa using hfull
    · intro h0
      rw [if_neg (by simpa using h0)] at hfull
      simpa using hfull
  have he : FIFO_EnqueueWord f word =
      { f with
        p_buffer := setWord f.p_buffer f.write_i word
        write_i := if f.write_i + 1 = N then 0 else f.write_i + 1 } := by
    unfold FIFO_EnqueueWord
    simp only
    rw [h1, Nat.mod_eq_of_lt (by omega)]
    by_cases hwrap : N = f.write_i + 1
    · rw [if_pos hwrap, if_pos hwrap.symm]
    · rw [if_neg hwrap, if_neg (fun h => hwrap h.symm)]
  have hi' : FifoInv N (FIFO_EnqueueWord f word) := by
    rw [he]
    refine ⟨h1, h2, ?_⟩
    show (if f.write_i + 1 = N then 0 else f.write_i + 1) < N
    split <;> omega
  have hc' := wordsFull_eq _ N hN hi'
  have hcnt : FIFO_WordsFull (FIFO_EnqueueWord f word) = FIFO_WordsFull f + 1 := by
    rw [hc', hc, he]
    simp only
    by_cases h0 : f.read_i = 0
    · have := hnf.2 h0
      split <;> split <;> split <;> omega
    · have := hnf.1 h0
      split <;> split <;> split <;> omega
  refine ⟨hi', ?_⟩
  unfold fifoContents
  rw [hcnt, List.range_succ, List.map_append, List.map_singleton]
  congr 1
  · apply List.map_congr_left
    intro i hi
    rw [List.mem_range, hc] at hi
    rw [he]
    simp only
    unfold setWord
    rw [h1, if_neg]
    rw [mod_wrap _ _ (by split at hi <;> omega)]
    split at hi <;> split <;> omega
  · rw [he]
    simp only
    unfold setWord
    rw [h1, if_pos]
    rw [mod_wrap _ _ (by rw [hc]; split <;> omega), hc]
    split <;> split <;> omega

theorem dequeue_step (f : FIFO_t) (N : Nat) (hN : N ≤ 2 ^ 31) (hi : FifoInv N f)
    (hempty : FIFO_IsEmpty f = false) :
    FifoInv N (FIFO_DequeueWord f).2
      ∧ fifoContents f = (FIFO_DequeueWord f).1 :: fifoContents (FIFO_DequeueWord f).2 := by
  have hc := wordsFull_eq f N hN hi
  obtain ⟨h1, h2, h3⟩ := hi
  have hne : f.read_i ≠ f.write_i := by
    unfold FIFO_IsEmpty at hempty
    simpa using hempty
  have hd : FIFO_DequeueWord f =
      (f.p_buffer f.read_i, { f with read_i := if f.read_i + 1 = N then 0 else f.read_i + 1 }) := by
    unfold FIFO_DequeueWord
    simp only
    rw [h1, Nat.mod_eq_of_lt (by omega)]
    by_cases hwrap : N = f.read_i + 1
    · rw [if_pos hwrap, if_pos hwrap.symm]
    · rw [if_neg hwrap, if_neg (fun h => hwrap h.symm)]
  have hi' : FifoInv N (FIFO_DequeueWord f).2 := by
    rw [hd]
    refine ⟨h1, ?_, h3⟩
    show (if f.read_i + 1 = N then 0 else f.read_i + 1) < N
    split <;> omega
  have hc' := wordsFull_eq _ N hN hi'
  have hcnt : FIFO_WordsFull f = FIFO_WordsFull (FIFO_DequeueWord f).2 + 1 := by
    rw [hc', hc, hd]
    simp only
    split <;> split <;> split <;> omega
  refine ⟨hi', ?_⟩
  unfold fifoContents
  rw [hcnt, List.range_succ_eq_map, List.map_cons, List.map_map]
  congr 1
  · rw [hd, h1]
    simp only [Nat.add_zero]
    rw [Nat.mod_eq_of_lt h2]
  · apply List.map_congr_left
    intro i hi
    rw [hd, h1]
    simp only [Function.comp]
    by_cases hwrap : f.read_i + 1 = N
    · rw [if_pos hwrap]
      apply congrArg
      rw [show f.read_i + (i + 1) = i + N by omega, Nat.add_mod_right, Nat.zero_add]
    · rw [if_neg hwrap]
      exact congrArg _ (congrArg (· % N) (by omega))


theorem fifoExec_refines (N : Nat) (hN : N ≤ 2 ^ 31) (ops : List FifoOp) :
    ∀ f, FifoInv N f → fifoAllowed f ops = true →
      FifoInv N (fifoExec f ops).1
        ∧ fifoContents (fifoExec f ops).1 = (queueRun (fifoContents f) ops).1
        ∧ (fifoExec f ops).2 = (queueRun (fifoContents f) ops).2 := by
  induction ops with
  | nil =>
    intro f hi _
    exact ⟨hi, rfl, rfl⟩
  | cons op ops ih =>
    intro f hi hal
    cases op with
    | enqueue word =>
      simp only [fifoAllowed, Bool.and_eq_true, Bool.not_eq_true'] at hal
      obtain ⟨hi', hc⟩ := enqueue_step f N hN hi hal.1 word
      obtain ⟨ha, hb, hd⟩ := ih (FIFO_EnqueueWord f word) hi' hal.2
      simp only [fifoExec, queueRun, queueStep, List.nil_append]
      rw [← hc]
      exact ⟨ha, hb, hd⟩
    | dequeue =>
      simp only [fifoAllowed, Bool.and_eq_true, Bool.not_eq_true'] at hal
      obtain ⟨hi', hc⟩ := dequeue_step f N hN hi hal.1
      obtain ⟨ha, hb, hd⟩ := ih (FIFO_DequeueWord f).2 hi' hal.2
      simp only [fifoExec, queueRun, queueStep]
      rw [hc]
      simp only [List.tail_cons, List.head?_cons, Option.toList_some, List.singleton_append]
      exact ⟨ha, hb, by rw [hd]⟩

/-- C28. For a FIFO set up by `FIFO_Init` with `N ≥ 1` words and any sequence of
calls in which `FIFO_EnqueueWord` is made only when the FIFO is not full and
`FIFO_DequeueWord` only when it is not empty: the words held by the FIFO,
oldest first, and the words returned are those of a queue on which every
enqueue appends at the tail and every dequeue removes and returns the oldest
word; `FIFO_WordsFull` is the length of the queue, and both indices are below
`N`.  The platform bounds `N`: an array of `N` words of four bytes in the
32-bit address space has `N ≤ 2 ^ 30`, and `N ≤ 2 ^ 31` is all that is used
(`hN`). -/
theorem fifo_refines_queue (z : FIFO_t) (N : Nat) (buf : Nat → Int) (ops : List FifoOp)
    (h1 : 1 ≤ N) (hN : N ≤ 2 ^ 31) (hal : fifoAllowed (FIFO_Init z N buf) ops = true) :
    fifoContents (fifoExec (FIFO_Init z N buf) ops).1 = (queueRun [] ops).1
      ∧ (fifoExec (FIFO_Init z N buf) ops).2 = (queueRun [] ops).2
      ∧ FIFO_WordsFull (fifoExec (FIFO_Init z N buf) ops).1 = (queueRun [] ops).1.length
      ∧ (fifoExec (FIFO_Init z N buf) ops).1.read_i < N
      ∧ (fifoExec (FIFO_Init z N buf) ops).1.write_i < N
      ∧ (fifoExec (FIFO_Init z N buf) ops).1.buffer_words = N := by
  have hi : FifoInv N (FIFO_Init z N buf) := ⟨rfl, h1, h1⟩
  have h0 : fifoContents (FIFO_Init z N buf) = [] := by
    unfold fifoContents
    rw [wordsFull_eq _ N hN hi]
    rfl
  obtain ⟨ha, hb, hc⟩ := fifoExec_refines N hN ops (FIFO_Init z N buf) hi hal
  rw [h0] at hb hc
  refine ⟨hb, hc, ?_, ha.2.1, ha.2.2, ha.1⟩
  rw [← hb]
  unfold fifoContents
  rw [List.length_map, List.length_range]

theorem fifo_refines_queue_witness :
    fifoContents (fifoExec (FIFO_Init blankFifo 4 (fun _ => 0)) eightCalls).1 = [14, 15]
      ∧ (fifoExec (FIFO_Init blankFifo 4 (fun _ => 0)) eightCalls).2 = [11, 12, 13]
      ∧ FIFO_WordsFull (fifoExec (FIFO_Init blankFifo 4 (fun _ => 0)) eightCalls).1 = 2 :=
  have h := fifo_refines_queue blankFifo 4 (fun _ => 0) eightCalls (by decide) (by decide)
    (by decide)
  ⟨h.1.trans (by decide), h.2.1.trans (by decide), h.2.2.1.trans (by decide)⟩

/-! ### Dequeuing several words -/

theorem wordsFull_lt (f : FIFO_t) (hN : f.buffer_words < 2 ^ 32)
    (hr : f.read_i < f.buffer_words) (hw : f.write_i < f.buffer_words) :
    FIFO_WordsFull f < f.buffer_words := by
  unfold FIFO_WordsFull
  simp only
  split <;> omega

theorem dequeueLoop_eq (count : Nat) :
    ∀ (f : FIFO_t) (wordp : Nat → Int) (off : Nat), f.read_i + count < 2 ^ 32 →
      dequeueLoop count f wordp off =
        ({ f with read_i := f.read_i + count },
          fun j => if off ≤ j ∧ j < off + count then f.p_buffer (f.read_i + (j - off))
            else wordp j,
          off + count) := by
  induction count with
  | zero =>
    intro f wordp off _
    unfold dequeueLoop
    refine Prod.ext rfl (Prod.ext ?_ rfl)
    funext j
    simp only [Nat.add_zero]
    rw [if_neg (by omega)]
  | succ c ih =>
    intro f wordp off h
    unfold dequeueLoop
    rw [ih _ _ _ (by
      show (f.read_i + 1) % 2 ^ 32 + c < 2 ^ 32
      rw [Nat.mod_eq_of_lt (by omega)]
      omega)]
    simp only
    rw [Nat.mod_eq_of_lt (by omega)]
    refine Prod.ext ?_ (Prod.ext ?_ ?_)
    · show ({ f with read_i := f.read_i + 1 + c } : FIFO_t) = _
      rw [show f.read_i + 1 + c = f.read_i + (c + 1) by omega]
    · funext j
      simp only
      unfold setWord
      by_cases h1 : off + 1 ≤ j ∧ j < off + 1 + c
      · rw [if_pos h1, if_pos (by omega)]
        exact congrArg _ (by omega)
      · rw [if_neg h1]
        by_cases h2 : j = off
        · rw [if_pos h2, if_pos (by omega), h2, Nat.sub_self, Nat.add_zero]
        · rw [if_neg h2, if_neg (by omega)]
    · show off + 1 + c = off + (c + 1)
      omega

theorem dequeueTimes_eq (m : Nat) :
    ∀ (f : FIFO_t) (out : Nat → Int) (off : Nat), f.buffer_words < 2 ^ 32 →
      f.read_i < f.buffer_words →
      dequeueTimes m f out off =
        ({ f with read_i := (f.read_i + m) % f.buffer_words },
          fun j => if off ≤ j ∧ j < off + m
            then f.p_buffer ((f.read_i + (j - off)) % f.buffer_words) else out j) := by
  induction m with
  | zero =>
    intro f out off _ hr
    unfold dequeueTimes
    refine Prod.ext ?_ ?_
    · show f = _
      simp only [Nat.add_zero]
      rw [Nat.mod_eq_of_lt hr]
    · funext j
      simp only [Nat.add_zero]
      rw [if_neg (by omega)]
  | succ m ih =>
    intro f out off hN hr
    have hd : FIFO_DequeueWord f =
        (f.p_buffer f.read_i,
          { f with read_i := if f.read_i + 1 = f.buffer_words then 0 else f.read_i + 1 }) := by
      unfold FIFO_DequeueWord
      simp only
      rw [Nat.mod_eq_of_lt (by omega)]
      by_cases hwrap : f.buffer_words = f.read_i + 1
      · rw [if_pos hwrap, if_pos hwrap.symm]
      · rw [if_neg hwrap, if_neg (fun h => hwrap h.symm)]
    have hidx : ∀ x, ((if f.read_i + 1 = f.buffer_words then 0 else f.read_i + 1) + x)
        % f.buffer_words = (f.read_i + (x + 1)) % f.buffer_words := by
      intro x
      by_cases hwrap : f.read_i + 1 = f.buffer_words
      · rw [if_pos hwrap, show f.read_i + (x + 1) = x + f.buffer_words by omega,
          Nat.add_mod_right, Nat.zero_add]
      · rw [if_neg hwrap]
        exact congrArg (· % f.buffer_words) (by omega)
    unfold dequeueTimes
    rw [hd]
    simp only
    rw [ih { f with read_i := if f.read_i + 1 = f.buffer_words then 0 else f.read_i + 1 }
      _ _ hN (by
      show (if f.read_i + 1 = f.buffer_words then 0 else f.read_i + 1) < f.buffer_words
      split <;> omega)]
    simp only
    refine Prod.ext ?_ ?_
    · show ({ f with read_i := _ } : FIFO_t) = _
      rw [hidx m]
    · funext j
      simp only
      unfold setWord
      by_cases h1 : off + 1 ≤ j ∧ j < off + 1 + m
      · rw [if_pos h1, hidx, if_pos (show off ≤ j ∧ j < off + (m + 1) by omega)]
        exact congrArg _ (congrArg (· % f.buffer_words) (by omega))
      · rw [if_neg h1]
        by_cases h2 : j = off
        · rw [if_pos h2, if_pos (show off ≤ j ∧ j < off + (m + 1) by omega), h2, Nat.sub_self,
            Nat.add_zero, Nat.mod_eq_of_lt hr]
        · rw [if_neg h2, if_neg (show ¬ (off ≤ j ∧ j < off + (m + 1)) by omega)]


theorem dequeueWords_eq (f : FIFO_t) (out : Nat → Int) (n : Nat) (hN : f.buffer_words < 2 ^ 32)
    (hr : f.read_i < f.buffer_words) (hw : f.write_i < f.buffer_words) :
    FIFO_DequeueWords f out n =
      (min n (FIFO_WordsFull f),
        { f with read_i := (f.read_i + min n (FIFO_WordsFull f)) % f.buffer_words },
        fun j => if j < min n (FIFO_WordsFull f)
          then f.p_buffer ((f.read_i + j) % f.buffer_words) else out j) := by
  have hwf := wordsFull_lt f hN hr hw
  have hmin : (if n > FIFO_WordsFull f then FIFO_WordsFull f else n) = min n (FIFO_WordsFull f) := by
    rw [Nat.min_def]
    split <;> split <;> omega
  have hm : min n (FIFO_WordsFull f) < f.buffer_words :=
    Nat.lt_of_le_of_lt (Nat.min_le_right _ _) hwf
  have htil : (f.buffer_words + 2 ^ 32 - f.read_i) % 2 ^ 32 = f.buffer_words - f.read_i := by
    omega
  unfold FIFO_DequeueWords
  simp only
  rw [hmin, htil]
  generalize min n (FIFO_WordsFull f) = m at hm ⊢
  by_cases hcase : m ≥ f.buffer_words - f.read_i
  · rw [if_pos hcase, dequeueLoop_eq _ f out 0 (by omega)]
    simp only
    rw [dequeueLoop_eq _ _ _ _ (by show 0 + (m - (f.buffer_words - f.read_i)) < 2 ^ 32; omega)]
    simp only
    refine Prod.ext rfl (Prod.ext ?_ ?_)
    · show ({ f with read_i := 0 + (m - (f.buffer_words - f.read_i)) } : FIFO_t) = _
      rw [mod_wrap _ _ (by omega), if_neg (by omega)]
      exact congrArg (fun x => ({ f with read_i := x } : FIFO_t)) (by omega)
    · funext j
      simp only
      by_cases h1 : j < m
      · rw [if_pos h1, mod_wrap _ _ (by omega)]
        by_cases h2 : f.read_i + j < f.buffer_words
        · rw [if_pos h2, if_neg (by omega), if_pos (by omega)]
          exact congrArg _ (by omega)
        · rw [if_neg h2, if_pos (by omega)]
          exact congrArg _ (by omega)
      · rw [if_neg h1, if_neg (by omega), if_neg (by omega)]
  · rw [if_neg hcase, dequeueLoop_eq _ f out 0 (by omega)]
    simp only
    refine Prod.ext rfl (Prod.ext ?_ ?_)
    · rw [Nat.mod_eq_of_lt (by omega)]
    · funext j
      simp only
      by_cases h1 : j < m
      · rw [if_pos h1, if_pos (by omega), Nat.mod_eq_of_lt (by omega)]
        exact congrArg _ (by omega)
      · rw [if_neg h1, if_neg (by omega)]

theorem dumpWords_eq (f : FIFO_t) (n fuel : Nat) (hN : f.buffer_words ≤ 2 ^ 31)
    (hr : f.read_i < f.buffer_words) (hw : f.write_i < f.buffer_words) (hfuel : 1 ≤ fuel) :
    FIFO_DumpWords fuel f n =
      some (min n (FIFO_WordsFull f),
        { f with read_i := (f.read_i + min n (FIFO_WordsFull f)) % f.buffer_words }) := by
  have hwf := wordsFull_lt f (by omega) hr hw
  have hmin : (if n > FIFO_WordsFull f then FIFO_WordsFull f else n) = min n (FIFO_WordsFull f) := by
    rw [Nat.min_def]
    split <;> split <;> omega
  have hm : min n (FIFO_WordsFull f) < f.buffer_words :=
    Nat.lt_of_le_of_lt (Nat.min_le_right _ _) hwf
  unfold FIFO_DumpWords
  simp only
  rw [hmin]
  generalize min n (FIFO_WordsFull f) = m at hm ⊢
  rw [Nat.mod_eq_of_lt (by omega)]
  obtain ⟨fuel, rfl⟩ : ∃ k, fuel = k + 1 := ⟨fuel - 1, by omega⟩
  have hloop : dumpLoop f.buffer_words (fuel + 1) (f.read_i + m)
      = some ((f.read_i + m) % f.buffer_words) := by
    rw [mod_wrap _ _ (by omega)]
    unfold dumpLoop
    by_cases h : f.buffer_words ≤ f.read_i + m
    · rw [if_pos h, if_neg (by omega)]
      cases fuel with
      | zero =>
        unfold dumpLoop
        rw [if_neg (by omega)]
      | succ k =>
        unfold dumpLoop
        rw [if_neg (by omega)]
    · rw [if_neg h, if_pos (by omega)]
  rw [hloop]

/-- C29. For a FIFO with both indices below `buffer_words` and every `n`:
`FIFO_DequeueWords` returns `m = min(n, FIFO_WordsFull)`, stores the `m`
oldest words in order at the start of the caller buffer, leaves the rest of
it alone, and leaves the FIFO and the buffer exactly as `m` successive calls
of `FIFO_DequeueWord` do; `FIFO_DumpWords` returns, with the same `m` and the
same FIFO.  The platform bounds `buffer_words`: an array of that many words of
four bytes in the 32-bit address space has at most `2 ^ 30` of them, and
`buffer_words ≤ 2 ^ 31` is all that the part on `FIFO_DumpWords` uses. -/
theorem bulk_dequeue (f : FIFO_t) (out : Nat → Int) (n : Nat) (hN : f.buffer_words < 2 ^ 32)
    (hr : f.read_i < f.buffer_words) (hw : f.write_i < f.buffer_words) :
    (FIFO_DequeueWords f out n).1 = min n (FIFO_WordsFull f)
      ∧ (∀ i, i < min n (FIFO_WordsFull f) →
          (FIFO_DequeueWords f out n).2.2 i = f.p_buffer ((f.read_i + i) % f.buffer_words))
      ∧ (∀ i, min n (FIFO_WordsFull f) ≤ i → (FIFO_DequeueWords f out n).2.2 i = out i)
      ∧ (FIFO_DequeueWords f out n).2 = dequeueTimes (min n (FIFO_WordsFull f)) f out 0
      ∧ (f.buffer_words ≤ 2 ^ 31 → ∀ fuel, 1 ≤ fuel →
          FIFO_DumpWords fuel f n
            = some ((FIFO_DequeueWords f out n).1, (FIFO_DequeueWords f out n).2.1)) := by
  rw [dequeueWords_eq f out n hN hr hw]
  refine ⟨rfl, fun i hi => ?_, fun i hi => ?_, ?_, fun h31 fuel hfuel => ?_⟩
  · simp only
    rw [if_pos hi]
  · simp only
    rw [if_neg (by omega)]
  · rw [dequeueTimes_eq _ f out 0 hN hr]
    simp only
    refine Prod.ext rfl ?_
    funext j
    simp only [Nat.zero_le, true_and, Nat.zero_add, Nat.sub_zero]
  · rw [dumpWords_eq f n fuel h31 hr hw hfuel]

theorem bulk_dequeue_witness :
    (FIFO_DequeueWords wrappedFifo (fun _ => 0) 5).1 = 2
      ∧ (FIFO_DequeueWords wrappedFifo (fun _ => 0) 5).2.2 0 = 30
      ∧ (FIFO_DequeueWords wrappedFifo (fun _ => 0) 5).2.2 1 = 0
      ∧ (FIFO_DequeueWords wrappedFifo (fun _ => 0) 5).2.1.read_i = 1
      ∧ (FIFO_DumpWords 1 wrappedFifo 5).isSome = true :=
  have h := bulk_dequeue wrappedFifo (fun _ => 0) 5 (by decide) (by decide) (by decide)
  ⟨h.1.trans (by decide), (h.2.1 0 (by decide)).trans (by decide),
    (h.2.1 1 (by decide)).trans (by decide), by decide,
    (congrArg Option.isSome (h.2.2.2.2 (by decide) 1 (by decide))).trans rfl⟩

end BLFilesys
